import Mathlib

/-!
# Running bucket statistics (`pkg/segment/results/blockresults/runningstats.go`)

A shallow embedding of the incremental aggregation state of one result bucket
and of its two operations, `AddMeasureResults` and `MergeRunningBuckets`.

Conventions of the embedding
* Go slices are lists; an index out of range, a failed type assertion and a
  nil dereference are faults (`Fault`), kept apart from the `error` values
  that the handlers return and the callers log.
* `uint64` is `Nat` reduced modulo `2^64`, `int64` is `Int` wrapped into
  `[-2^63, 2^63)`.
* The `for` loops change their own index inside the body, so they are
  iterated with a fuel argument that bounds the number of iterations.
* The collaborators of package `utils` (scalar reduce, scalar accessors) are
  passed in a record; the expression evaluator is carried by the measure.
-/

namespace RunningStats

/-! ## Scalars -/

/-- Modelled from the spec: the type tag `utils.SS_DTYPE` of a scalar; its
declaration is outside the file. `SS_INVALID` is the tag of the zero value. -/
inductive SS_DTYPE where
  | SS_INVALID
  | SS_DT_UNSIGNED_NUM
  | SS_DT_SIGNED_NUM
  | SS_DT_FLOAT
  | SS_DT_STRING
  | SS_DT_STRING_SET
  deriving DecidableEq, Repr

/-- Modelled from the spec: the payload `CVal interface{}` of a scalar. `nil`
is the payload of the zero value. `float mant expo` is the finite `float64`
of value `mant * 2^expo`, in the form of IEEE 754 binary64:
`2^52 ≤ |mant| < 2^53` for a normal number, and `|mant| < 2^52` with
`expo = -1074` for zero and the subnormal numbers; the infinities, NaN and the
negative zero are not represented. -/
inductive CVal where
  | nil
  | uint64 (n : Nat)
  | int64 (z : Int)
  | float (mant : Int) (expo : Int)
  | string (s : String)
  | stringSet (s : Finset String)
  deriving DecidableEq

/-- Modelled from the spec: `utils.CValueEnclosure`, the tagged scalar. -/
structure CValueEnclosure where
  Dtype : SS_DTYPE
  CVal : CVal
  deriving DecidableEq

/-- Modelled from the spec: `utils.AggregateFunctions`; the six kinds the file
names, and `Other` for every remaining kind (the `default` branches). -/
inductive AggregateFunctions where
  | Count
  | Min
  | Max
  | Sum
  | Cardinality
  | Values
  | Other (code : Nat)
  deriving DecidableEq, Repr

/-- The Go zero value of `utils.CValueEnclosure`. -/
def CValueEnclosure.zero : CValueEnclosure :=
  { Dtype := SS_DTYPE.SS_INVALID, CVal := CVal.nil }

/-- Go `error`: `none` is `nil`, `some msg` an error. -/
abbrev error := Option String

/-- Run-time failures that end a call without a result. -/
inductive Fault where
  | indexOutOfRange
  | typeAssertion
  | nilDereference
  | outOfFuel
  deriving DecidableEq, Repr

/-- Result of a call that may fault. -/
abbrev Run (α : Type) := Except Fault α

/-- Slice read `xs[i]`. -/
def index {α : Type} (xs : List α) (i : Nat) : Run α :=
  match xs[i]? with
  | some x => Except.ok x
  | none => Except.error Fault.indexOutOfRange

/-- Wrap-around of `uint64` arithmetic. -/
def wrapU64 (n : Nat) : Nat := n % 2 ^ 64

/-- Wrap-around of `int64` arithmetic. -/
def wrapI64 (z : Int) : Int := (z + 2 ^ 63) % 2 ^ 64 - 2 ^ 63

/-- The number of binary digits of `n`, counted by halving at most `fuel`
times. -/
def bitLengthAux : Nat → Nat → Nat
  | 0, _ => 0
  | fuel + 1, n => if n = 0 then 0 else bitLengthAux fuel (n / 2) + 1

/-- The number of binary digits of `n`: zero for zero. -/
def bitLength (n : Nat) : Nat := bitLengthAux n n

/-- The quotient `n / 2^k` rounded to the nearest integer, a tie going to the
even one. -/
def shiftRightRound (n k : Nat) : Nat :=
  let q := n / 2 ^ k
  let r := n % 2 ^ k
  if 2 * r < 2 ^ k then q
  else if 2 ^ k < 2 * r then q + 1
  else if q % 2 = 0 then q else q + 1

/-- Modelled from the spec: the `float64` nearest to `m * 2^e` (round to
nearest, ties to even), as mantissa and exponent in the form `CVal.float`
keeps. The last place of the result is `2^target`, which leaves 53 binary
digits to a normal number and is never below `2^-1074`; a result beyond the
largest finite `float64` is not represented. -/
def roundFloat64 (m e : Int) : Int × Int :=
  if m = 0 then (0, -1074)
  else
    let target : Int := max (e + (bitLength m.natAbs : Int) - 53) (-1074)
    if target ≤ e then (m * 2 ^ (e - target).toNat, target)
    else
      let r := shiftRightRound m.natAbs (target - e).toNat
      if r = 2 ^ 53 then (Int.sign m * 2 ^ 52, target + 1) else (Int.sign m * (r : Int), target)

/-- Modelled from the spec: the sum of two `float64` values, the exact sum of
`m1 * 2^e1` and `m2 * 2^e2` rounded once. -/
def addFloat64 (m1 e1 m2 e2 : Int) : Int × Int :=
  let e := min e1 e2
  roundFloat64 (m1 * 2 ^ (e1 - e).toNat + m2 * 2 ^ (e2 - e).toNat) e

/-- Whether `m1 * 2^e1 ≤ m2 * 2^e2`. -/
def leFloat64 (m1 e1 m2 e2 : Int) : Bool :=
  let e := min e1 e2
  decide (m1 * 2 ^ (e1 - e).toNat ≤ m2 * 2 ^ (e2 - e).toNat)

/-! ## Collaborators -/

/-- Modelled from the spec: the functions of package `utils` the file calls,
`utils.Reduce` and the accessors `GetUIntValue` and `GetString` of a scalar;
their code is outside the file, so they are parameters of every operation. -/
structure Utils where
  Reduce : CValueEnclosure → CValueEnclosure → AggregateFunctions → Except String CValueEnclosure
  GetUIntValue : CValueEnclosure → Except String Nat
  GetString : CValueEnclosure → Except String String

/-- The map `fieldToValue` handed to the expression evaluator. -/
abbrev FieldMap := String → Option CValueEnclosure

/-- Modelled from the spec: the conditional expression `ValueColRequest` of a
measure, seen through the three calls the file makes on it: `GetFields()`,
`BooleanExpr.Evaluate(fieldToValue)` and `EvaluateToString(fieldToValue)`. -/
structure ValueExpr where
  GetFields : List String
  Evaluate : FieldMap → Except String Bool
  EvaluateToString : FieldMap → Except String String

/-- Modelled from the spec: `structs.MeasureAggregator`, reduced to the two
fields the file reads; `ValueColRequest = none` is the nil pointer. -/
structure MeasureAggregator where
  MeasureFunc : AggregateFunctions
  ValueColRequest : Option ValueExpr

/-- Modelled from the spec: a `hyperloglog.Sketch`, as the set of the hashes
inserted into it. -/
abbrev Sketch := Finset Nat

/-! ## State -/

/-- One slot: `rawVal` is the scalar accumulator, `hll` the sketch pointer. -/
structure runningStats where
  rawVal : CValueEnclosure
  hll : Option Sketch
  deriving DecidableEq

/-- The Go zero value of a slot. -/
def runningStats.zero : runningStats :=
  { rawVal := CValueEnclosure.zero, hll := none }

/-- The bucket state. A Go map is a list of entries with distinct keys, the
nil map being the empty list. -/
structure RunningBucketResults where
  runningStats : List runningStats
  currStats : List MeasureAggregator
  groupedRunningStats : List (String × List RunningStats.runningStats)
  count : Nat

def initRunningStats (internalMeasureFns : List MeasureAggregator) : List runningStats :=
  internalMeasureFns.map fun m =>
    match m.MeasureFunc with
    | AggregateFunctions.Cardinality => { rawVal := CValueEnclosure.zero, hll := some ∅ }
    | _ => runningStats.zero

def initRunningGroupByBucket (internalMeasureFns : List MeasureAggregator) :
    RunningBucketResults :=
  { count := 0
    runningStats := initRunningStats internalMeasureFns
    currStats := internalMeasureFns
    groupedRunningStats := [] }

def initRunningTimeBucket : RunningBucketResults :=
  { count := 0, runningStats := [], currStats := [], groupedRunningStats := [] }

/-- The argument `count` is the value of a `uint16`, widened to `uint64`
before the add. -/
def AddTimeToBucketStats (rr : RunningBucketResults) (count : Nat) : RunningBucketResults :=
  { rr with count := wrapU64 (rr.count + count) }

/-! ## Handlers -/

def ProcessReduce (U : Utils) (rr : RunningBucketResults) (rs : List runningStats)
    (e : CValueEnclosure) (i : Nat) : Run (List runningStats × error) := do
  let slot ← index rs i
  let m ← index rr.currStats i
  match U.Reduce slot.rawVal e m.MeasureFunc with
  | Except.error _ =>
    pure (rs, some "ProcessReduce: failed to add measurement to running stats")
  | Except.ok retVal => pure (rs.set i { slot with rawVal := retVal }, none)

/-- The loop `for _, field := range fields` that fills `fieldToValue` from
`measureResults[index]`, `index` starting at `i`. -/
def fillFieldToValue (measureResults : List CValueEnclosure) :
    List String → Nat → FieldMap → Run FieldMap
  | [], _, fieldToValue => pure fieldToValue
  | field :: fields, idx, fieldToValue => do
    let v ← index measureResults idx
    fillFieldToValue measureResults fields (idx + 1)
      (fun k => if k = field then some v else fieldToValue k)

def AddEvalResultsForMinOrMaxOrSum (U : Utils) (rr : RunningBucketResults)
    (rs : List runningStats) (measureResults : List CValueEnclosure) (i : Nat) :
    Run (List runningStats × error) := do
  let m ← index rr.currStats i
  match m.ValueColRequest with
  | none => do
    let v ← index measureResults i
    ProcessReduce U rr rs v i
  | some vcr =>
    match vcr.GetFields with
    | [field] => do
      let v ← index measureResults i
      let fieldToValue : FieldMap := fun k => if k = field then some v else none
      match vcr.Evaluate fieldToValue with
      | Except.error _ =>
        pure (rs, some "AddEvalResultsForMinOrMaxOrSum: there are some errors in the eval function that is inside the min/max function")
      | Except.ok boolResult =>
        if boolResult then do
          let v ← index measureResults i
          let (rs', err) ← ProcessReduce U rr rs v i
          match err with
          | some _ => pure (rs', some "AddEvalResultsForMinOrMaxOrSum: ProcessReduce")
          | none => pure (rs', none)
        else pure (rs, none)
    | _ =>
      pure (rs, some "AddEvalResultsForMinOrMaxOrSum: Incorrect number of fields for aggCol")

/-- The statement `if (*runningStats)[i].rawVal.CVal == nil { ... }` of the
conditional count handler: an empty accumulator becomes the signed zero. -/
def countInit (slot : runningStats) : runningStats :=
  match slot.rawVal.CVal with
  | CVal.nil =>
    { slot with rawVal := { CVal := CVal.int64 0, Dtype := SS_DTYPE.SS_DT_SIGNED_NUM } }
  | _ => slot

/-- The statement `if (*runningStats)[i].rawVal.CVal == nil { ... }` that opens
the values handler: an empty accumulator becomes the empty set of strings. -/
def valuesInit (slot : runningStats) : runningStats :=
  match slot.rawVal.CVal with
  | CVal.nil =>
    { slot with rawVal := { Dtype := SS_DTYPE.SS_DT_STRING_SET, CVal := CVal.stringSet ∅ } }
  | _ => slot

def AddEvalResultsForCount (U : Utils) (rr : RunningBucketResults)
    (rs : List runningStats) (measureResults : List CValueEnclosure) (i : Nat)
    (usedByTimechart : Bool) (cnt : Nat) : Run (List runningStats × Int × error) := do
  let m ← index rr.currStats i
  match m.ValueColRequest with
  | none =>
    if usedByTimechart then do
      let eVal : CValueEnclosure :=
        { Dtype := SS_DTYPE.SS_DT_UNSIGNED_NUM, CVal := CVal.uint64 cnt }
      let (rs', err) ← ProcessReduce U rr rs eVal i
      pure (rs', 0, err)
    else do
      let v ← index measureResults i
      let (rs', err) ← ProcessReduce U rr rs v i
      pure (rs', 0, err)
  | some vcr => do
    let fields := vcr.GetFields
    let fieldToValue ← fillFieldToValue measureResults fields i (fun _ => none)
    match vcr.Evaluate fieldToValue with
    | Except.error _ =>
      pure (rs, 0, some "AddEvalResultsForCount: there are some errors in the eval function that is inside the count function")
    | Except.ok boolResult => do
      let slot ← index rs i
      let slot1 := countInit slot
      if boolResult then
        match slot1.rawVal.CVal with
        | CVal.int64 z =>
          let slot2 : runningStats :=
            { slot1 with rawVal := { slot1.rawVal with CVal := CVal.int64 (wrapI64 (z + 1)) } }
          pure (rs.set i slot2, (fields.length : Int) - 1, none)
        | _ => throw Fault.typeAssertion
      else pure (rs.set i slot1, (fields.length : Int) - 1, none)

def AddEvalResultsForValuesOrCardinality (U : Utils) (rr : RunningBucketResults)
    (rs : List runningStats) (measureResults : List CValueEnclosure) (i : Nat) :
    Run (List runningStats × Int × error) := do
  let slot ← index rs i
  let slot1 := valuesInit slot
  match slot1.rawVal.CVal with
  | CVal.stringSet strSet => do
    let rs1 := rs.set i slot1
    let m ← index rr.currStats i
    match m.ValueColRequest with
    | none => do
      let v ← index measureResults i
      match U.GetString v with
      | Except.error _ =>
        pure (rs1, 0, some "AddEvalResultsForValuesOrCardinality: failed to add measurement to running stats")
      | Except.ok strVal =>
        let slot2 : runningStats :=
          { slot1 with rawVal := { slot1.rawVal with CVal := CVal.stringSet (insert strVal strSet) } }
        pure (rs.set i slot2, 0, none)
    | some vcr => do
      let fields := vcr.GetFields
      let fieldToValue ← fillFieldToValue measureResults fields i (fun _ => none)
      match vcr.EvaluateToString fieldToValue with
      | Except.error _ =>
        pure (rs1, 0, some "AddEvalResultsForValuesOrCardinality: there are some errors in the eval function that is inside the count function")
      | Except.ok strVal =>
        let slot2 : runningStats :=
          { slot1 with rawVal := { slot1.rawVal with CVal := CVal.stringSet (insert strVal strSet) } }
        pure (rs.set i slot2, (fields.length : Int) - 1, none)
  | _ => throw Fault.typeAssertion

/-! ## Dispatch loops -/

/-- One iteration of a dispatch loop: the slot list after it, the value of the
loop variable `i` when the body ends (before the `i++` of the `for`), and the
error the body logged, if any. -/
abbrev Body := List runningStats → Nat → Run (List runningStats × Int × error)

/-- The loop `for i := start; i < bound; i++ { body }` whose body may move `i`.
`fuel` bounds the number of iterations: a loop that would run longer ends
with `Fault.outOfFuel`. -/
def forLoop (bound : List runningStats → Nat) (body : Body) :
    Nat → Nat → List runningStats → Run (List runningStats)
  | 0, i, rs => if i < bound rs then throw Fault.outOfFuel else pure rs
  | fuel + 1, i, rs =>
    if i < bound rs then do
      let (rs', i', _) ← body rs i
      forLoop bound body fuel (i' + 1).toNat rs'
    else pure rs

/-- The indices the loop dispatches, in order, each with the error its handler
returned (the message that is logged); the list stops at a fault and after
`fuel` iterations. -/
def forTrace (bound : List runningStats → Nat) (body : Body) :
    Nat → Nat → List runningStats → List (Nat × error)
  | 0, _, _ => []
  | fuel + 1, i, rs =>
    if i < bound rs then
      match body rs i with
      | Except.ok (rs', i', err) => (i, err) :: forTrace bound body fuel (i' + 1).toNat rs'
      | Except.error _ => []
    else []

/-- The body of the loop of `AddMeasureResults`: the `switch` on the function
kind of measure `i`. -/
def AddMeasureResultsBody (U : Utils) (rr : RunningBucketResults)
    (measureResults : List CValueEnclosure) (cnt : Nat) (usedByTimechart : Bool) : Body :=
  fun rs i => do
    let m ← index rr.currStats i
    let valuesCase : Run (List runningStats × Int × error) := do
      let (rs', step, err) ← AddEvalResultsForValuesOrCardinality U rr rs measureResults i
      pure (rs', (i : Int) + step, err)
    match m.MeasureFunc with
    | AggregateFunctions.Sum | AggregateFunctions.Max | AggregateFunctions.Min => do
      let (rs', err) ← AddEvalResultsForMinOrMaxOrSum U rr rs measureResults i
      pure (rs', (i : Int), err)
    | AggregateFunctions.Count => do
      let (rs', step, err) ← AddEvalResultsForCount U rr rs measureResults i usedByTimechart cnt
      pure (rs', (i : Int) + step, err)
    | AggregateFunctions.Cardinality =>
      match m.ValueColRequest with
      | none => do
        let v ← index measureResults i
        match U.GetUIntValue v with
        | Except.error _ =>
          pure (rs, (i : Int), some "AddMeasureResults: failed to add measurement to running stats")
        | Except.ok rawVal => do
          let slot ← index rs i
          match slot.hll with
          | none => throw Fault.nilDereference
          | some sk => pure (rs.set i { slot with hll := some (insert rawVal sk) }, (i : Int), none)
      | some _ => valuesCase
    | AggregateFunctions.Values => valuesCase
    | AggregateFunctions.Other _ => do
      let v ← index measureResults i
      let (rs', err) ← ProcessReduce U rr rs v i
      pure (rs', (i : Int), err)

/-- `AddMeasureResults`, the argument `runningStats *[]runningStats` being
passed in and handed back: the slot list it points to after the call, and the
receiver with its count advanced. -/
def AddMeasureResults (U : Utils) (fuel : Nat) (rr : RunningBucketResults)
    (runningStats : List runningStats) (measureResults : List CValueEnclosure)
    (_qid : Nat) (cnt : Nat) (usedByTimechart : Bool) :
    Run (List RunningStats.runningStats × RunningBucketResults) := do
  let rs ← forLoop List.length (AddMeasureResultsBody U rr measureResults cnt usedByTimechart)
    fuel 0 runningStats
  pure (rs, { rr with count := wrapU64 (rr.count + cnt) })

/-- The call `rr.AddMeasureResults(&rr.runningStats, ...)` on the top-level
slot list of the receiver. -/
def AddMeasureResultsTop (U : Utils) (fuel : Nat) (rr : RunningBucketResults)
    (measureResults : List CValueEnclosure) (qid : Nat) (cnt : Nat) (usedByTimechart : Bool) :
    Run RunningBucketResults := do
  let (rs, rr') ← AddMeasureResults U fuel rr rr.runningStats measureResults qid cnt
    usedByTimechart
  pure { rr' with runningStats := rs }

/-- Modelled from the spec: `hll.Merge(other)` on two sketch pointers. A nil
`other` is a no-op, a nil receiver with a non-nil `other` is a nil
dereference; all sketches come from `hyperloglog.New()`, so the precision
check of the library never fails. -/
def hllMerge (sk other : Option Sketch) : Run (Option Sketch) :=
  match other with
  | none => pure sk
  | some o =>
    match sk with
    | none => throw Fault.nilDereference
    | some s => pure (some (s ∪ o))

/-- The body of the loop of `mergeRunningStats`. -/
def mergeRunningStatsBody (U : Utils) (rr : RunningBucketResults)
    (toJoinRunningStats : List runningStats) : Body :=
  fun rs i => do
    let m ← index rr.currStats i
    let reduceCase : Run (List runningStats × Int × error) :=
      match m.ValueColRequest with
      | none => do
        let tj ← index toJoinRunningStats i
        let (rs', err) ← ProcessReduce U rr rs tj.rawVal i
        pure (rs', (i : Int), err)
      | some vcr => do
        let fields := vcr.GetFields
        let tj ← index toJoinRunningStats i
        let (rs', err) ← ProcessReduce U rr rs tj.rawVal i
        pure (rs', (i : Int) + ((fields.length : Int) - 1), err)
    match m.MeasureFunc with
    | AggregateFunctions.Values => reduceCase
    | AggregateFunctions.Cardinality =>
      match m.ValueColRequest with
      | none => do
        let slot ← index rs i
        let tj ← index toJoinRunningStats i
        let merged ← hllMerge slot.hll tj.hll
        pure (rs.set i { slot with hll := merged }, (i : Int), none)
      | some _ => reduceCase
    | AggregateFunctions.Count => reduceCase
    | _ => do
      let tj ← index toJoinRunningStats i
      let (rs', err) ← ProcessReduce U rr rs tj.rawVal i
      pure (rs', (i : Int), err)

/-- `mergeRunningStats`, the pointed-to slot list passed in and handed back. -/
def mergeRunningStats (U : Utils) (fuel : Nat) (rr : RunningBucketResults)
    (runningStats : List runningStats)
    (toJoinRunningStats : List RunningStats.runningStats) :
    Run (List RunningStats.runningStats) :=
  forLoop (fun _ => toJoinRunningStats.length) (mergeRunningStatsBody U rr toJoinRunningStats)
    fuel 0 runningStats

/-- The loop over `rr.groupedRunningStats` in `MergeRunningBuckets`: an entry
whose key the peer has is merged with the peer's list, any other entry is
kept (and logged). The slice header is copied by `range`, the elements are
shared, so the merge is seen in the map. -/
def mergeGrouped (U : Utils) (fuel : Nat) (rr : RunningBucketResults)
    (toJoinGrouped : List (String × List runningStats)) :
    List (String × List runningStats) → Run (List (String × List runningStats))
  | [] => pure []
  | (groupByColVal, runningStats) :: rest => do
    let merged ←
      match toJoinGrouped.lookup groupByColVal with
      | none => pure runningStats
      | some toJoinRunningStats =>
        mergeRunningStats U fuel rr runningStats toJoinRunningStats
    let rest' ← mergeGrouped U fuel rr toJoinGrouped rest
    pure ((groupByColVal, merged) :: rest')

/-- `MergeRunningBuckets`; `toJoin = none` is the nil peer. -/
def MergeRunningBuckets (U : Utils) (fuel : Nat) (rr : RunningBucketResults)
    (toJoin : Option RunningBucketResults) : Run RunningBucketResults :=
  match toJoin with
  | none => pure rr
  | some tj => do
    let grouped ←
      if rr.groupedRunningStats.length > 0 then
        mergeGrouped U fuel rr tj.groupedRunningStats rr.groupedRunningStats
      else pure rr.groupedRunningStats
    let rs ← mergeRunningStats U fuel rr rr.runningStats tj.runningStats
    pure { rr with
      groupedRunningStats := grouped
      runningStats := rs
      count := wrapU64 (rr.count + tj.count) }

/-- The measures `AddMeasureResults` dispatches on the slot list `runningStats`,
in order, each with the error that is logged for it. -/
def AddMeasureResultsTrace (U : Utils) (fuel : Nat) (rr : RunningBucketResults)
    (runningStats : List runningStats) (measureResults : List CValueEnclosure)
    (cnt : Nat) (usedByTimechart : Bool) : List (Nat × error) :=
  forTrace List.length (AddMeasureResultsBody U rr measureResults cnt usedByTimechart)
    fuel 0 runningStats

/-- The measures `mergeRunningStats` dispatches, in order. -/
def mergeRunningStatsTrace (U : Utils) (fuel : Nat) (rr : RunningBucketResults)
    (runningStats : List runningStats)
    (toJoinRunningStats : List RunningStats.runningStats) : List (Nat × error) :=
  forTrace (fun _ => toJoinRunningStats.length)
    (mergeRunningStatsBody U rr toJoinRunningStats) fuel 0 runningStats

/-! ## Sequences of calls -/

/-- The arguments of one `AddMeasureResults` call. -/
structure AddCall where
  measureResults : List CValueEnclosure
  qid : Nat
  cnt : Nat
  usedByTimechart : Bool

/-- A sequence of `AddMeasureResults` calls on the top-level slot list, one
after the other, each of which returns and dispatches the measure at index
`i`; `AddRun U fuel i rr calls rr1` relates the state before the first call to
the state after the last. -/
inductive AddRun (U : Utils) (fuel : Nat) (i : Nat) :
    RunningBucketResults → List AddCall → RunningBucketResults → Prop where
  | done (rr : RunningBucketResults) : AddRun U fuel i rr [] rr
  | call (rr rr1 rr2 : RunningBucketResults) (c : AddCall) (calls : List AddCall) (e : error) :
    AddMeasureResultsTop U fuel rr c.measureResults c.qid c.cnt c.usedByTimechart =
      Except.ok rr1 →
    (i, e) ∈ AddMeasureResultsTrace U fuel rr rr.runningStats c.measureResults c.cnt
      c.usedByTimechart →
    AddRun U fuel i rr1 calls rr2 →
    AddRun U fuel i rr (c :: calls) rr2

/-- The bucket states built from a fresh bucket by adds and merges, each with
the sum of the row counts folded into it: `Built U fuel rr total` holds when
`rr` is a fresh bucket (`total = 0`), or comes from a built state by a
returning `AddMeasureResults` on the top-level slots or by
`AddTimeToBucketStats` (the row count is added to `total`), or by a returning
`MergeRunningBuckets` with a built peer (the peer's total is added) or with
the nil peer. -/
inductive Built (U : Utils) (fuel : Nat) : RunningBucketResults → Nat → Prop where
  | fresh (internalMeasureFns : List MeasureAggregator) :
    Built U fuel (initRunningGroupByBucket internalMeasureFns) 0
  | freshTime : Built U fuel initRunningTimeBucket 0
  | add (rr rr1 : RunningBucketResults) (total : Nat) (measureResults : List CValueEnclosure)
      (qid cnt : Nat) (usedByTimechart : Bool) :
    Built U fuel rr total →
    AddMeasureResultsTop U fuel rr measureResults qid cnt usedByTimechart = Except.ok rr1 →
    Built U fuel rr1 (total + cnt)
  | addTime (rr : RunningBucketResults) (total count : Nat) :
    Built U fuel rr total →
    Built U fuel (AddTimeToBucketStats rr count) (total + count)
  | merge (rr peer rr1 : RunningBucketResults) (total peerTotal : Nat) :
    Built U fuel rr total →
    Built U fuel peer peerTotal →
    MergeRunningBuckets U fuel rr (some peer) = Except.ok rr1 →
    Built U fuel rr1 (total + peerTotal)
  | mergeNil (rr rr1 : RunningBucketResults) (total : Nat) :
    Built U fuel rr total →
    MergeRunningBuckets U fuel rr none = Except.ok rr1 →
    Built U fuel rr1 total

/-! ## The scalar reduce of the spec -/

/-- Modelled from the spec: the scalar reduce `utils.Reduce` of section 4.3,
whose code is outside the file. An empty current value adopts the incoming one
whatever the function; `sum` and `count` add (unsigned and signed integers
with wrap-around, floating numbers with rounding), `max` and `min` keep the
extreme, sets of strings are united; operands of different kinds, and every
combination the spec does not name, are an error. -/
def specReduce (e1 e2 : CValueEnclosure) (fn : AggregateFunctions) :
    Except String CValueEnclosure :=
  match e1.CVal with
  | CVal.nil => Except.ok e2
  | c1 =>
    if e1.Dtype ≠ e2.Dtype then Except.error "type mismatch"
    else
      match fn, c1, e2.CVal with
      | AggregateFunctions.Sum, CVal.uint64 a, CVal.uint64 b =>
        Except.ok { e1 with CVal := CVal.uint64 (wrapU64 (a + b)) }
      | AggregateFunctions.Sum, CVal.int64 a, CVal.int64 b =>
        Except.ok { e1 with CVal := CVal.int64 (wrapI64 (a + b)) }
      | AggregateFunctions.Sum, CVal.float a ea, CVal.float b eb =>
        Except.ok { e1 with
          CVal := CVal.float (addFloat64 a ea b eb).1 (addFloat64 a ea b eb).2 }
      | AggregateFunctions.Count, CVal.uint64 a, CVal.uint64 b =>
        Except.ok { e1 with CVal := CVal.uint64 (wrapU64 (a + b)) }
      | AggregateFunctions.Count, CVal.int64 a, CVal.int64 b =>
        Except.ok { e1 with CVal := CVal.int64 (wrapI64 (a + b)) }
      | AggregateFunctions.Count, CVal.float a ea, CVal.float b eb =>
        Except.ok { e1 with
          CVal := CVal.float (addFloat64 a ea b eb).1 (addFloat64 a ea b eb).2 }
      | AggregateFunctions.Max, CVal.uint64 a, CVal.uint64 b =>
        Except.ok { e1 with CVal := CVal.uint64 (max a b) }
      | AggregateFunctions.Max, CVal.int64 a, CVal.int64 b =>
        Except.ok { e1 with CVal := CVal.int64 (max a b) }
      | AggregateFunctions.Max, CVal.float a ea, CVal.float b eb =>
        Except.ok (if leFloat64 a ea b eb then { e1 with CVal := CVal.float b eb } else e1)
      | AggregateFunctions.Min, CVal.uint64 a, CVal.uint64 b =>
        Except.ok { e1 with CVal := CVal.uint64 (min a b) }
      | AggregateFunctions.Min, CVal.int64 a, CVal.int64 b =>
        Except.ok { e1 with CVal := CVal.int64 (min a b) }
      | AggregateFunctions.Min, CVal.float a ea, CVal.float b eb =>
        Except.ok (if leFloat64 a ea b eb then e1 else { e1 with CVal := CVal.float b eb })
      | AggregateFunctions.Values, CVal.stringSet a, CVal.stringSet b =>
        Except.ok { e1 with CVal := CVal.stringSet (a ∪ b) }
      | _, _, _ => Except.error "type mismatch"

/-! ## What one dispatch does to its slot

The handlers thread the whole slot list and may fault. The functions below
state, for the slot a dispatch is made on, what a dispatch that returns leaves
in it and by how much it moves the loop variable; `AddMeasureResultsBody_inv`
and `mergeRunningStatsBody_inv` prove that the bodies do exactly this. -/

/-- The accumulator after `ProcessReduce`: the reduced value, or the old one
when the reduce fails. -/
def reduceInto (U : Utils) (fn : AggregateFunctions) (acc e : CValueEnclosure) :
    CValueEnclosure :=
  match U.Reduce acc e fn with
  | Except.ok retVal => retVal
  | Except.error _ => acc

/-- The slot after `ProcessReduce` with the incoming value `e`. -/
def reduceSlot (U : Utils) (fn : AggregateFunctions) (slot : runningStats)
    (e : CValueEnclosure) : runningStats :=
  { slot with rawVal := reduceInto U fn slot.rawVal e }

/-- The slot after the conditional count handler, the predicate having
evaluated to `b`. -/
def countStep (b : Bool) (slot : runningStats) : runningStats :=
  if b then
    match (countInit slot).rawVal.CVal with
    | CVal.int64 z =>
      { countInit slot with
        rawVal := { (countInit slot).rawVal with CVal := CVal.int64 (wrapI64 (z + 1)) } }
    | _ => countInit slot
  else countInit slot

/-- The slot after the values handler has inserted `strVal`. -/
def valuesInsert (strVal : String) (slot : runningStats) : runningStats :=
  match (valuesInit slot).rawVal.CVal with
  | CVal.stringSet strSet =>
    { valuesInit slot with
      rawVal := { (valuesInit slot).rawVal with CVal := CVal.stringSet (insert strVal strSet) } }
  | _ => valuesInit slot

/-- The value of the conditional expression of a count measure dispatched at
`i`: `none` when the field map cannot be built (a fault), else the result of
`BooleanExpr.Evaluate`. -/
def condBool (vcr : ValueExpr) (measureResults : List CValueEnclosure) (i : Nat) :
    Option (Except String Bool) :=
  match fillFieldToValue measureResults vcr.GetFields i (fun _ => none) with
  | Except.ok fieldToValue => some (vcr.Evaluate fieldToValue)
  | Except.error _ => none

/-- Whether the conditional expression of a count measure dispatched at `i`
evaluates to true on the input vector. -/
def condTrue (vcr : ValueExpr) (measureResults : List CValueEnclosure) (i : Nat) : Bool :=
  match condBool vcr measureResults i with
  | some (Except.ok true) => true
  | _ => false

/-- The string a values or cardinality measure dispatched at `i` extracts:
`GetString` of the raw value without an expression, `EvaluateToString` on the
field map with one; `none` when a read faults. -/
def valuesString (U : Utils) (m : MeasureAggregator) (measureResults : List CValueEnclosure)
    (i : Nat) : Option (Except String String) :=
  match m.ValueColRequest with
  | none => (measureResults[i]?).map U.GetString
  | some vcr =>
    match fillFieldToValue measureResults vcr.GetFields i (fun _ => none) with
    | Except.ok fieldToValue => some (vcr.EvaluateToString fieldToValue)
    | Except.error _ => none

/-- The slot after a returning call of `AddEvalResultsForMinOrMaxOrSum`. -/
def minMaxSumSlot (U : Utils) (m : MeasureAggregator) (measureResults : List CValueEnclosure)
    (i : Nat) (slot : runningStats) : runningStats :=
  let v := (measureResults[i]?).getD CValueEnclosure.zero
  match m.ValueColRequest with
  | none => reduceSlot U m.MeasureFunc slot v
  | some vcr =>
    match vcr.GetFields with
    | [field] =>
      match vcr.Evaluate (fun k => if k = field then some v else none) with
      | Except.ok true => reduceSlot U m.MeasureFunc slot v
      | _ => slot
    | _ => slot

/-- The slot after a returning call of `AddEvalResultsForCount`. -/
def countSlot (U : Utils) (m : MeasureAggregator) (measureResults : List CValueEnclosure)
    (cnt : Nat) (usedByTimechart : Bool) (i : Nat) (slot : runningStats) : runningStats :=
  match m.ValueColRequest with
  | none =>
    reduceSlot U m.MeasureFunc slot
      (if usedByTimechart then
        { Dtype := SS_DTYPE.SS_DT_UNSIGNED_NUM, CVal := CVal.uint64 cnt }
      else (measureResults[i]?).getD CValueEnclosure.zero)
  | some vcr =>
    match condBool vcr measureResults i with
    | some (Except.ok b) => countStep b slot
    | _ => slot

/-- The `step` a returning call of `AddEvalResultsForCount` hands back. -/
def countSkip (m : MeasureAggregator) (measureResults : List CValueEnclosure) (i : Nat) : Int :=
  match m.ValueColRequest with
  | none => 0
  | some vcr =>
    match condBool vcr measureResults i with
    | some (Except.ok _) => (vcr.GetFields.length : Int) - 1
    | _ => 0

/-- The slot after a returning call of `AddEvalResultsForValuesOrCardinality`. -/
def valuesSlot (U : Utils) (m : MeasureAggregator) (measureResults : List CValueEnclosure)
    (i : Nat) (slot : runningStats) : runningStats :=
  match valuesString U m measureResults i with
  | some (Except.ok strVal) => valuesInsert strVal slot
  | _ => valuesInit slot

/-- The `step` a returning call of `AddEvalResultsForValuesOrCardinality` hands
back. -/
def valuesSkip (U : Utils) (m : MeasureAggregator) (measureResults : List CValueEnclosure)
    (i : Nat) : Int :=
  match m.ValueColRequest with
  | none => 0
  | some vcr =>
    match valuesString U m measureResults i with
    | some (Except.ok _) => (vcr.GetFields.length : Int) - 1
    | _ => 0

/-- The slot after the sketch branch of `AddMeasureResults` (cardinality
without an expression). -/
def sketchSlot (U : Utils) (measureResults : List CValueEnclosure) (i : Nat)
    (slot : runningStats) : runningStats :=
  match U.GetUIntValue ((measureResults[i]?).getD CValueEnclosure.zero) with
  | Except.ok rawVal => { slot with hll := slot.hll.map (insert rawVal) }
  | Except.error _ => slot

/-- The slot of measure `m` after a returning dispatch of `AddMeasureResults`
at index `i`. -/
def addSlot (U : Utils) (m : MeasureAggregator) (measureResults : List CValueEnclosure)
    (cnt : Nat) (usedByTimechart : Bool) (i : Nat) (slot : runningStats) : runningStats :=
  match m.MeasureFunc with
  | AggregateFunctions.Sum | AggregateFunctions.Max | AggregateFunctions.Min =>
    minMaxSumSlot U m measureResults i slot
  | AggregateFunctions.Count => countSlot U m measureResults cnt usedByTimechart i slot
  | AggregateFunctions.Cardinality =>
    match m.ValueColRequest with
    | none => sketchSlot U measureResults i slot
    | some _ => valuesSlot U m measureResults i slot
  | AggregateFunctions.Values => valuesSlot U m measureResults i slot
  | AggregateFunctions.Other _ =>
    reduceSlot U m.MeasureFunc slot ((measureResults[i]?).getD CValueEnclosure.zero)

/-- The `step` a returning dispatch of `AddMeasureResults` at index `i` adds to
the loop variable. -/
def addStep (U : Utils) (m : MeasureAggregator) (measureResults : List CValueEnclosure)
    (i : Nat) : Int :=
  match m.MeasureFunc with
  | AggregateFunctions.Count => countSkip m measureResults i
  | AggregateFunctions.Cardinality =>
    match m.ValueColRequest with
    | none => 0
    | some _ => valuesSkip U m measureResults i
  | AggregateFunctions.Values => valuesSkip U m measureResults i
  | _ => 0

/-- The slot of measure `m` after a returning dispatch of `mergeRunningStats`,
`toJoin` being the slot of the peer. -/
def mergeSlot (U : Utils) (m : MeasureAggregator) (toJoin slot : runningStats) :
    runningStats :=
  match m.MeasureFunc, m.ValueColRequest with
  | AggregateFunctions.Cardinality, none =>
    match toJoin.hll with
    | none => slot
    | some o => { slot with hll := slot.hll.map (fun s => s ∪ o) }
  | _, _ => reduceSlot U m.MeasureFunc slot toJoin.rawVal

/-- The `step` a dispatch of `mergeRunningStats` adds to the loop variable. -/
def mergeStep (m : MeasureAggregator) : Int :=
  match m.MeasureFunc, m.ValueColRequest with
  | AggregateFunctions.Values, some vcr => (vcr.GetFields.length : Int) - 1
  | AggregateFunctions.Cardinality, some vcr => (vcr.GetFields.length : Int) - 1
  | AggregateFunctions.Count, some vcr => (vcr.GetFields.length : Int) - 1
  | _, _ => 0

/-- Whether measure `m` keeps a set of strings: `values`, and `cardinality`
with a conditional expression. -/
def usesStringSet (m : MeasureAggregator) : Bool :=
  match m.MeasureFunc, m.ValueColRequest with
  | AggregateFunctions.Values, _ => true
  | AggregateFunctions.Cardinality, some _ => true
  | _, _ => false

/-- Whether the dispatch loops advance past the trailing positions of measure
`m`: `count`, `values` and `cardinality`, each with a conditional expression. -/
def skipsFields (m : MeasureAggregator) : Bool :=
  match m.MeasureFunc, m.ValueColRequest with
  | AggregateFunctions.Count, some _ => true
  | AggregateFunctions.Values, some _ => true
  | AggregateFunctions.Cardinality, some _ => true
  | _, _ => false

/-- A body that only writes the slot it is dispatched on and never moves the
loop variable back by more than one. -/
def BodyLocal (bound : List runningStats → Nat) (body : Body) : Prop :=
  ∀ rs i rs1 i1 e, i < bound rs → body rs i = Except.ok (rs1, i1, e) →
    (∃ s, rs1 = rs.set i s) ∧ (i : Int) - 1 ≤ i1

/-- A body whose move of the loop variable at an index does not depend on the
slot list. -/
def StepFixed (bound : List runningStats → Nat) (body : Body) : Prop :=
  ∀ i rs rs1 i1 e rs2 rs3 i3 e3, i < bound rs → i < bound rs2 →
    body rs i = Except.ok (rs1, i1, e) → body rs2 i = Except.ok (rs3, i3, e3) → i3 = i1

/-- A loop bound that only reads the length of the slot list. -/
def BoundByLength (bound : List runningStats → Nat) : Prop :=
  ∀ rs rs1 : List runningStats, rs.length = rs1.length → bound rs = bound rs1

/-- The slot a conditional count holds after at least one dispatch whose
predicate evaluated, `k` of them to true. -/
def countedSlot (k : Nat) : runningStats :=
  { rawVal := { Dtype := SS_DTYPE.SS_DT_SIGNED_NUM, CVal := CVal.int64 (wrapI64 (k : Int)) }
    hll := none }

/-- The string a values or cardinality measure dispatched at `i` inserts into
its set, when the extraction succeeds. -/
def extractedString (U : Utils) (m : MeasureAggregator) (measureResults : List CValueEnclosure)
    (i : Nat) : Option String :=
  match valuesString U m measureResults i with
  | some (Except.ok strVal) => some strVal
  | _ => none

/-- The integer kinds of a raw value: unsigned and signed 64-bit integers. A
floating number is of neither kind: the sum of floating numbers rounds, and is
not associative. -/
inductive NumKind where
  | unsigned
  | signed
  deriving DecidableEq, Repr

/-- Whether the scalar `v` is a number of kind `k`. -/
def hasKind (k : NumKind) (v : CValueEnclosure) : Bool :=
  match k, v.Dtype, v.CVal with
  | NumKind.unsigned, SS_DTYPE.SS_DT_UNSIGNED_NUM, CVal.uint64 _ => true
  | NumKind.signed, SS_DTYPE.SS_DT_SIGNED_NUM, CVal.int64 _ => true
  | _, _, _ => false

/-- Whether `mergeRunningStats` handles `m` by a scalar reduce and then moves
forward: no sketch merge, and at least one declared field when the loop skips
the trailing positions of `m`. -/
def mergeable (m : MeasureAggregator) : Bool :=
  match m.MeasureFunc, m.ValueColRequest with
  | AggregateFunctions.Cardinality, none => false
  | AggregateFunctions.Cardinality, some vcr => decide (1 ≤ vcr.GetFields.length)
  | AggregateFunctions.Values, some vcr => decide (1 ≤ vcr.GetFields.length)
  | AggregateFunctions.Count, some vcr => decide (1 ≤ vcr.GetFields.length)
  | _, _ => true

/-- The calls of `calls`, one after the other, each an `AddMeasureResults` on
the top-level slots of the state the one before returned. -/
def addCalls (U : Utils) (fuel : Nat) :
    RunningBucketResults → List AddCall → Run RunningBucketResults
  | rr, [] => pure rr
  | rr, c :: calls => do
    let rr1 ← AddMeasureResultsTop U fuel rr c.measureResults c.qid c.cnt c.usedByTimechart
    addCalls U fuel rr1 calls

/-- The kinds of payload an accumulator may hold for the `int64` cast of the
conditional count handler to succeed: none, or a signed integer. -/
def isEmptyOrInt (v : CValueEnclosure) : Bool :=
  match v.CVal with
  | CVal.nil => true
  | CVal.int64 _ => true
  | _ => false

/-- The kinds of payload an accumulator may hold for the string-set cast of
the values handler to succeed: none, or a set of strings. -/
def isEmptyOrSet (v : CValueEnclosure) : Bool :=
  match v.CVal with
  | CVal.nil => true
  | CVal.stringSet _ => true
  | _ => false

/-- Every slot of a cardinality measure has a sketch. -/
def sketchesPresent (ms : List MeasureAggregator) (rs : List runningStats) : Prop :=
  ∀ (i : Nat) (m : MeasureAggregator) (s : runningStats), ms[i]? = some m →
    m.MeasureFunc = AggregateFunctions.Cardinality → rs[i]? = some s → s.hll ≠ none

/-- The kind of a payload, as the tag of its dynamic type: `SS_INVALID` for the
nil payload of an empty value. -/
def payloadKind (c : CVal) : SS_DTYPE :=
  match c with
  | CVal.nil => SS_DTYPE.SS_INVALID
  | CVal.uint64 _ => SS_DTYPE.SS_DT_UNSIGNED_NUM
  | CVal.int64 _ => SS_DTYPE.SS_DT_SIGNED_NUM
  | CVal.float _ _ => SS_DTYPE.SS_DT_FLOAT
  | CVal.string _ => SS_DTYPE.SS_DT_STRING
  | CVal.stringSet _ => SS_DTYPE.SS_DT_STRING_SET

/-- The map write `groupedRunningStats[groupByColVal] = rs`: the entry of the
key is replaced when there is one, and added otherwise. -/
def putGroup (groupByColVal : String) (rs : List runningStats)
    (grouped : List (String × List runningStats)) : List (String × List runningStats) :=
  match grouped.lookup groupByColVal with
  | none => grouped ++ [(groupByColVal, rs)]
  | some _ => grouped.map fun p => if p.1 = groupByColVal then (p.1, rs) else p

/-- Modelled from the spec: a caller of the package gives the bucket the group
`groupByColVal`, with a fresh slot list over the measures of the bucket; the
file itself never writes a key of `groupedRunningStats`. -/
def addGroup (groupByColVal : String) (rr : RunningBucketResults) : RunningBucketResults :=
  { rr with
    groupedRunningStats :=
      putGroup groupByColVal (initRunningStats rr.currStats) rr.groupedRunningStats }

/-- The states reachable from the fresh bucket over `ms` by returning
`AddMeasureResults` calls, on the top-level slots (`add`) or on the slot list
of a group (`addGrouped`: the slice passed shares its elements with the entry
of the map, so the entry holds the slots the call leaves), by the creation of
a group (`group`), and by returning `MergeRunningBuckets` calls whose peer is
reachable the same way (`merge`). -/
inductive Reachable (U : Utils) (fuel : Nat) (ms : List MeasureAggregator) :
    RunningBucketResults → Prop where
  | fresh : Reachable U fuel ms (initRunningGroupByBucket ms)
  | add (rr rr1 : RunningBucketResults) (measureResults : List CValueEnclosure)
      (qid cnt : Nat) (usedByTimechart : Bool) :
    Reachable U fuel ms rr →
    AddMeasureResultsTop U fuel rr measureResults qid cnt usedByTimechart = Except.ok rr1 →
    Reachable U fuel ms rr1
  | group (rr : RunningBucketResults) (groupByColVal : String) :
    Reachable U fuel ms rr →
    Reachable U fuel ms (addGroup groupByColVal rr)
  | addGrouped (rr rr1 : RunningBucketResults) (groupByColVal : String)
      (slots slots1 : List runningStats) (measureResults : List CValueEnclosure)
      (qid cnt : Nat) (usedByTimechart : Bool) :
    Reachable U fuel ms rr →
    rr.groupedRunningStats.lookup groupByColVal = some slots →
    AddMeasureResults U fuel rr slots measureResults qid cnt usedByTimechart =
      Except.ok (slots1, rr1) →
    Reachable U fuel ms
      { rr1 with groupedRunningStats := putGroup groupByColVal slots1 rr.groupedRunningStats }
  | merge (rr peer rr1 : RunningBucketResults) :
    Reachable U fuel ms rr →
    Reachable U fuel ms peer →
    MergeRunningBuckets U fuel rr (some peer) = Except.ok rr1 →
    Reachable U fuel ms rr1

/-- The accumulator of every count slot with a conditional expression is empty
or a signed integer, and the accumulator of every slot that keeps a set of
strings is empty or a set of strings. -/
def kindsOk (ms : List MeasureAggregator) (rs : List runningStats) : Prop :=
  ∀ (i : Nat) (m : MeasureAggregator) (s : runningStats), ms[i]? = some m → rs[i]? = some s →
    (m.MeasureFunc = AggregateFunctions.Count → m.ValueColRequest ≠ none →
      isEmptyOrInt s.rawVal = true) ∧
    (usesStringSet m = true → isEmptyOrSet s.rawVal = true)

/-! ## Concrete collaborators and inputs

Used to run the operations on explicit inputs. -/

/-- Modelled from the spec: the accessor `GetUIntValue` (section 6,
`asUnsignedInt`): the unsigned payload, an error on any other kind. -/
def specGetUIntValue (e : CValueEnclosure) : Except String Nat :=
  match e.CVal with
  | CVal.uint64 n => Except.ok n
  | _ => Except.error "not an unsigned number"

/-- Modelled from the spec: the accessor `GetString` (section 6, `asString`):
the string payload, an error on any other kind. -/
def specGetString (e : CValueEnclosure) : Except String String :=
  match e.CVal with
  | CVal.string s => Except.ok s
  | _ => Except.error "not a string"

/-- The collaborators of package `utils` as the spec describes them. -/
def specUtils : Utils :=
  { Reduce := specReduce, GetUIntValue := specGetUIntValue, GetString := specGetString }

/-- The unsigned scalar `n`. -/
def unsignedNum (n : Nat) : CValueEnclosure :=
  { Dtype := SS_DTYPE.SS_DT_UNSIGNED_NUM, CVal := CVal.uint64 n }

/-- The signed scalar `z`. -/
def signedNum (z : Int) : CValueEnclosure :=
  { Dtype := SS_DTYPE.SS_DT_SIGNED_NUM, CVal := CVal.int64 z }

/-- The string scalar `s`. -/
def stringVal (s : String) : CValueEnclosure :=
  { Dtype := SS_DTYPE.SS_DT_STRING, CVal := CVal.string s }

/-- The conditional expression `y > 10`: it reads the one field `y`, is true on
a number above ten and false on any other number, and fails to evaluate on a
value that is not a number. -/
def exprYGt10 : ValueExpr :=
  { GetFields := ["y"]
    Evaluate := fun fieldToValue =>
      match fieldToValue "y" with
      | some e =>
        match e.CVal with
        | CVal.uint64 n => Except.ok (decide (10 < n))
        | CVal.int64 z => Except.ok (decide (10 < z))
        | CVal.float m e => Except.ok (!leFloat64 m e 10 0)
        | _ => Except.error "y is not a number"
      | none => Except.error "y is missing"
    EvaluateToString := fun _ => Except.error "not a string expression" }

/-- The result of a call that returned, `dflt` for one that faulted. -/
def resultOr {α : Type} (dflt : α) (r : Run α) : α :=
  match r with
  | Except.ok a => a
  | Except.error _ => dflt

/-- The conditional expression `a > b`: it reads the two fields `a` and `b`, in
that order, compares two unsigned numbers, and fails to evaluate on anything
else. -/
def exprAGtB : ValueExpr :=
  { GetFields := ["a", "b"]
    Evaluate := fun fieldToValue =>
      match fieldToValue "a", fieldToValue "b" with
      | some x, some y =>
        match x.CVal, y.CVal with
        | CVal.uint64 p, CVal.uint64 q => Except.ok (decide (q < p))
        | _, _ => Except.error "a or b is not an unsigned number"
      | _, _ => Except.error "a or b is missing"
    EvaluateToString := fun _ => Except.error "not a string expression" }

/-- A bucket over the one measure `sum(x)` whose accumulator holds the
unsigned 4, after one block of three rows. -/
def sumBucket4 : RunningBucketResults :=
  { runningStats := [⟨unsignedNum 4, none⟩]
    currStats := [⟨AggregateFunctions.Sum, none⟩]
    groupedRunningStats := []
    count := 3 }

/-- The measures of the spec scenario, `[sum(x), count() where y>10,
cardinality(z)]`. -/
def scenarioMeasures : List MeasureAggregator :=
  [⟨AggregateFunctions.Sum, none⟩, ⟨AggregateFunctions.Count, some exprYGt10⟩,
    ⟨AggregateFunctions.Cardinality, none⟩]

/-- The two adds of the spec scenario on a fresh bucket: `rawValues = [5, 1, 42]`
with `rowCount = 3`, then `rawValues = [9, 0, 42]` with `rowCount = 2`, all values
unsigned numbers and `usedByTimechart = false`. -/
def scenarioRun : Run RunningBucketResults := do
  let b ← AddMeasureResultsTop specUtils 3 (initRunningGroupByBucket scenarioMeasures)
    [unsignedNum 5, unsignedNum 1, unsignedNum 42] 0 3 false
  AddMeasureResultsTop specUtils 3 b [unsignedNum 9, unsignedNum 0, unsignedNum 42] 0 2 false

/-- A count whose conditional expression `a > b` declares two fields, followed
by an unconditional sum. -/
def skewMeasures : List MeasureAggregator :=
  [⟨AggregateFunctions.Count, some exprAGtB⟩, ⟨AggregateFunctions.Sum, none⟩]

/-- A bucket over `skewMeasures` built by two adds: `[5, 1]`, on which `a > b`
is true, and `["?", x]`, on which it fails to evaluate, so that the loop goes on
to index 1 and the sum handler stores `x` there. -/
def skewBucket (x : Nat) : Run RunningBucketResults := do
  let a ← AddMeasureResultsTop specUtils 2 (initRunningGroupByBucket skewMeasures)
    [unsignedNum 5, unsignedNum 1] 0 1 false
  AddMeasureResultsTop specUtils 2 a [stringVal "?", unsignedNum x] 0 1 false

/-- The state `skewBucket x` returns. -/
def skewState (x : Nat) : RunningBucketResults :=
  resultOr initRunningTimeBucket (skewBucket x)

/-- Merge `b` and then `c` into `a`. -/
def mergeThree (U : Utils) (fuel : Nat) (a b c : RunningBucketResults) :
    Run RunningBucketResults := do
  let ab ← MergeRunningBuckets U fuel a (some b)
  MergeRunningBuckets U fuel ab (some c)

/-- A bucket over the one measure `sum(x)` that received one row of value `x`,
with one group of slots under `key` holding the same row. -/
def groupedBucket (key : String) (x : Nat) : RunningBucketResults :=
  { runningStats := [⟨unsignedNum x, none⟩]
    currStats := [⟨AggregateFunctions.Sum, none⟩]
    groupedRunningStats := [(key, [⟨unsignedNum x, none⟩])]
    count := 1 }

/-- A bucket over the one measure `sum(x)` with two groups of slots: `x` under
`key1` and `y` under `key2`; the top-level slot holds both rows. -/
def groupedPair (key1 key2 : String) (x y : Nat) : RunningBucketResults :=
  { runningStats := [⟨unsignedNum (x + y), none⟩]
    currStats := [⟨AggregateFunctions.Sum, none⟩]
    groupedRunningStats := [(key1, [⟨unsignedNum x, none⟩]), (key2, [⟨unsignedNum y, none⟩])]
    count := 2 }

/-- A bucket over the one measure `max(y) where y > 10` after one block whose
value is 50: the accumulator holds the unsigned 50. -/
def gatedMaxBucket : RunningBucketResults :=
  resultOr initRunningTimeBucket
    (AddMeasureResultsTop specUtils 1
      (initRunningGroupByBucket [⟨AggregateFunctions.Max, some exprYGt10⟩])
      [unsignedNum 50] 0 1 false)

/-- A conditional expression that reads no field: the constant predicate
`1 = 1`, which declares zero fields and evaluates to true (as a string, to
`"true"`) on every field map. -/
def exprConstTrue : ValueExpr :=
  { GetFields := []
    Evaluate := fun _ => Except.ok true
    EvaluateToString := fun _ => Except.ok "true" }

/-- The one measure `count() where 1 = 1`. -/
def constCountMeasures : List MeasureAggregator :=
  [⟨AggregateFunctions.Count, some exprConstTrue⟩]

/-- The one measure `values(1 = 1)`, whose expression declares zero fields. -/
def constValuesMeasures : List MeasureAggregator :=
  [⟨AggregateFunctions.Values, some exprConstTrue⟩]

/-- The conditional expression that turns the field `y` into a string: it reads
the one field `y`, gives `"big"` on a number above ten and `"small"` on any
other number, and fails to evaluate on a value that is not a number. -/
def exprYString : ValueExpr :=
  { GetFields := ["y"]
    Evaluate := fun _ => Except.error "not a boolean expression"
    EvaluateToString := fun fieldToValue =>
      match exprYGt10.Evaluate fieldToValue with
      | Except.ok b => Except.ok (if b then "big" else "small")
      | Except.error msg => Except.error msg }

/-- A scalar reduce that agrees with the reduce of the spec on two operands of
the same kind, and returns the string `"?"` on operands of different kinds,
an empty one included. -/
def mixedReduce (e1 e2 : CValueEnclosure) (fn : AggregateFunctions) :
    Except String CValueEnclosure :=
  if payloadKind e1.CVal = payloadKind e2.CVal then specReduce e1 e2 fn
  else Except.ok (stringVal "?")

/-- The collaborators of the spec, with `mixedReduce` as the scalar reduce. -/
def mixedUtils : Utils :=
  { Reduce := mixedReduce, GetUIntValue := specGetUIntValue, GetString := specGetString }

/-- The one measure `count() where y > 10`. -/
def countYMeasures : List MeasureAggregator :=
  [⟨AggregateFunctions.Count, some exprYGt10⟩]

/-! ## Loops: frame, progress and dispatched indices -/

theorem forLoop_succ_ok {bound : List runningStats → Nat} {body : Body} {fuel i : Nat}
    {rs rs' : List runningStats} (hi : i < bound rs)
    (h : forLoop bound body (fuel + 1) i rs = Except.ok rs') :
    ∃ rs1 i1 e, body rs i = Except.ok (rs1, i1, e) ∧
      forLoop bound body fuel (i1 + 1).toNat rs1 = Except.ok rs' := by
  simp only [forLoop, hi, if_true] at h
  cases hb : body rs i with
  | error f => simp [hb, bind, Except.bind] at h
  | ok r =>
    obtain ⟨rs1, i1, e⟩ := r
    refine ⟨rs1, i1, e, rfl, ?_⟩
    simpa [hb, bind, Except.bind] using h

theorem forLoop_exit {bound : List runningStats → Nat} {body : Body} (fuel : Nat) {i : Nat}
    {rs : List runningStats} (hi : ¬ i < bound rs) :
    forLoop bound body fuel i rs = Except.ok rs := by
  cases fuel <;> simp [forLoop, hi, pure, Except.pure]

theorem forLoop_frame {bound : List runningStats → Nat} {body : Body} (hloc : BodyLocal bound body) :
    ∀ (fuel i : Nat) (rs rs' : List runningStats),
      forLoop bound body fuel i rs = Except.ok rs' →
      rs'.length = rs.length ∧ ∀ k, k < i → rs'[k]? = rs[k]? := by
  intro fuel
  induction fuel with
  | zero =>
    intro i rs rs' h
    by_cases hi : i < bound rs
    · simp [forLoop, hi, throw, throwThe, MonadExceptOf.throw] at h
    · rw [forLoop_exit 0 hi] at h
      cases h
      exact ⟨rfl, fun _ _ => rfl⟩
  | succ fuel ih =>
    intro i rs rs' h
    by_cases hi : i < bound rs
    · obtain ⟨rs1, i1, e, hb, hrest⟩ := forLoop_succ_ok hi h
      obtain ⟨⟨s, hs⟩, hstep⟩ := hloc rs i rs1 i1 e hi hb
      obtain ⟨hl, hfr⟩ := ih _ rs1 rs' hrest
      subst hs
      refine ⟨by simpa using hl, ?_⟩
      intro k hk
      rw [hfr k (by omega), List.getElem?_set]
      have : i ≠ k := by omega
      simp [this]
    · rw [forLoop_exit _ hi] at h
      cases h
      exact ⟨rfl, fun _ _ => rfl⟩

theorem forLoop_stuck {bound : List runningStats → Nat} {body : Body}
    (hbd : BoundByLength bound) (hloc : BodyLocal bound body) (i : Nat)
    (hst : ∀ rs rs1 i1 e, i < bound rs → body rs i = Except.ok (rs1, i1, e) →
      i1 = (i : Int) - 1) :
    ∀ (fuel : Nat) (rs rs' : List runningStats), i < bound rs →
      forLoop bound body fuel i rs ≠ Except.ok rs' := by
  intro fuel
  induction fuel with
  | zero =>
    intro rs rs' hi h
    simp [forLoop, hi, throw, throwThe, MonadExceptOf.throw] at h
  | succ fuel ih =>
    intro rs rs' hi h
    obtain ⟨rs1, i1, e, hb, hrest⟩ := forLoop_succ_ok hi h
    have h1 := hst rs rs1 i1 e hi hb
    obtain ⟨⟨s, hs⟩, _⟩ := hloc rs i rs1 i1 e hi hb
    have hn : (i1 + 1).toNat = i := by omega
    rw [hn] at hrest
    have hlen : rs1.length = rs.length := by subst hs; simp
    exact ih rs1 rs' (by rw [hbd rs1 rs hlen]; exact hi) hrest

/-- In a loop that returns, the body moves forward at every dispatched index. -/
theorem forLoop_progress {bound : List runningStats → Nat} {body : Body}
    (hbd : BoundByLength bound) (hloc : BodyLocal bound body) (hfix : StepFixed bound body)
    {fuel i : Nat} {rs rs' rs1 : List runningStats} {i1 : Int} {e : error}
    (hi : i < bound rs) (hb : body rs i = Except.ok (rs1, i1, e))
    (hrest : forLoop bound body fuel (i1 + 1).toNat rs1 = Except.ok rs') :
    (i : Int) ≤ i1 := by
  by_contra hcon
  obtain ⟨⟨s, hs⟩, hge⟩ := hloc rs i rs1 i1 e hi hb
  have h1 : i1 = (i : Int) - 1 := by omega
  have hn : (i1 + 1).toNat = i := by omega
  rw [hn] at hrest
  have hlen : rs1.length = rs.length := by subst hs; simp
  refine forLoop_stuck hbd hloc i ?_ fuel rs1 rs' (by rw [hbd rs1 rs hlen]; exact hi) hrest
  intro rs2 rs3 i3 e3 hi2 h3
  rw [hfix i rs rs1 i1 e rs2 rs3 i3 e3 hi hi2 hb h3, h1]

theorem forTrace_ge {bound : List runningStats → Nat} {body : Body} (hloc : BodyLocal bound body) :
    ∀ (fuel i : Nat) (rs : List runningStats) (x : Nat) (e : error),
      (x, e) ∈ forTrace bound body fuel i rs → i ≤ x := by
  intro fuel
  induction fuel with
  | zero => intro i rs x e h; simp [forTrace] at h
  | succ fuel ih =>
    intro i rs x e h
    by_cases hi : i < bound rs
    · simp only [forTrace, hi, if_true] at h
      cases hb : body rs i with
      | error f => simp [hb] at h
      | ok r =>
        obtain ⟨rs1, i1, e1⟩ := r
        simp only [hb, List.mem_cons] at h
        rcases h with h | h
        · cases h; exact Nat.le_refl _
        · have := ih _ _ _ _ h
          obtain ⟨_, hge⟩ := hloc rs i rs1 i1 e1 hi hb
          omega
    · simp [forTrace, hi] at h

/-- A dispatched index of a returning loop: the body ran on it exactly once,
on a slot list that still held the initial slot at that index, and what the
body left there is what the loop returns. -/
theorem forLoop_dispatched {bound : List runningStats → Nat} {body : Body}
    (hbd : BoundByLength bound) (hloc : BodyLocal bound body) (hfix : StepFixed bound body) :
    ∀ (fuel j : Nat) (rs rs' : List runningStats) (i : Nat) (e : error),
      forLoop bound body fuel j rs = Except.ok rs' →
      (i, e) ∈ forTrace bound body fuel j rs →
      ∃ rsm rsm1 i1, rsm.length = rs.length ∧ i < bound rsm ∧ rsm[i]? = rs[i]? ∧
        body rsm i = Except.ok (rsm1, i1, e) ∧ rs'[i]? = rsm1[i]? ∧ (i : Int) ≤ i1 ∧
        ∀ x e2, (x, e2) ∈ forTrace bound body fuel j rs → x < i ∨ (x = i ∧ e2 = e) ∨ i1 < x := by
  intro fuel
  induction fuel with
  | zero => intro j rs rs' i e _ h; simp [forTrace] at h
  | succ fuel ih =>
    intro j rs rs' i e hrun hmem
    by_cases hj : j < bound rs
    · obtain ⟨rs1, j1, e1, hb, hrest⟩ := forLoop_succ_ok hj hrun
      have hprog := forLoop_progress hbd hloc hfix hj hb hrest
      have hn : (j1 + 1).toNat = (j1.toNat) + 1 := by omega
      obtain ⟨⟨s, hs⟩, _⟩ := hloc rs j rs1 j1 e1 hj hb
      have htr : forTrace bound body (fuel + 1) j rs =
          (j, e1) :: forTrace bound body fuel (j1 + 1).toNat rs1 := by
        simp [forTrace, hj, hb]
      rw [htr] at hmem ⊢
      rcases List.mem_cons.1 hmem with h | h
      · cases h
        refine ⟨rs, rs1, j1, rfl, hj, rfl, hb, ?_, hprog, ?_⟩
        · exact (forLoop_frame hloc _ _ _ _ hrest).2 _ (by omega)
        · intro x e2 hx
          rcases List.mem_cons.1 hx with hx | hx
          · cases hx; exact Or.inr (Or.inl ⟨rfl, rfl⟩)
          · have := forTrace_ge hloc _ _ _ _ _ hx
            right; right; omega
      · obtain ⟨rsm, rsm1, i1, hl, hib, hg, hbm, hres, hp, hall⟩ := ih _ rs1 rs' i e hrest h
        have hji := forTrace_ge hloc _ _ _ _ _ h
        refine ⟨rsm, rsm1, i1, ?_, hib, ?_, hbm, hres, hp, ?_⟩
        · rw [hl, hs]; simp
        · rw [hg, hs, List.getElem?_set]
          have : j ≠ i := by omega
          simp [this]
        · intro x e2 hx
          rcases List.mem_cons.1 hx with hx | hx
          · cases hx; left; omega
          · exact hall x e2 hx
    · simp [forTrace, hj] at hmem

/-- An index the loop never dispatches keeps its slot. -/
theorem forLoop_not_dispatched {bound : List runningStats → Nat} {body : Body}
    (hloc : BodyLocal bound body) :
    ∀ (fuel j : Nat) (rs rs' : List runningStats) (i : Nat),
      forLoop bound body fuel j rs = Except.ok rs' →
      (∀ e, (i, e) ∉ forTrace bound body fuel j rs) → rs'[i]? = rs[i]? := by
  intro fuel
  induction fuel with
  | zero =>
    intro j rs rs' i hrun _
    by_cases hj : j < bound rs
    · simp [forLoop, hj, throw, throwThe, MonadExceptOf.throw] at hrun
    · rw [forLoop_exit 0 hj] at hrun; cases hrun; rfl
  | succ fuel ih =>
    intro j rs rs' i hrun hno
    by_cases hj : j < bound rs
    · obtain ⟨rs1, j1, e1, hb, hrest⟩ := forLoop_succ_ok hj hrun
      obtain ⟨⟨s, hs⟩, _⟩ := hloc rs j rs1 j1 e1 hj hb
      have htr : forTrace bound body (fuel + 1) j rs =
          (j, e1) :: forTrace bound body fuel (j1 + 1).toNat rs1 := by
        simp [forTrace, hj, hb]
      rw [htr] at hno
      have hij : j ≠ i := by
        intro h; subst h; exact hno e1 (List.mem_cons_self _ _)
      rw [ih _ rs1 rs' i hrest (fun e he => hno e (List.mem_cons_of_mem _ he)), hs,
        List.getElem?_set]
      simp [hij]
    · rw [forLoop_exit _ hj] at hrun; cases hrun; rfl

/-! ## The handlers and the two loop bodies -/

theorem index_ok_iff {α : Type} (xs : List α) (i : Nat) (x : α) :
    index xs i = Except.ok x ↔ xs[i]? = some x := by
  unfold index
  cases h : xs[i]? <;> simp

theorem index_of_getElem? {α : Type} {xs : List α} {i : Nat} {x : α} (h : xs[i]? = some x) :
    index xs i = Except.ok x := (index_ok_iff xs i x).2 h

theorem index_error_iff {α : Type} (xs : List α) (i : Nat) (f : Fault) :
    index xs i = Except.error f → xs[i]? = none := by
  unfold index
  cases h : xs[i]? <;> simp

theorem set_self_of_getElem? {α : Type} {xs : List α} {i : Nat} {x : α} (h : xs[i]? = some x) :
    xs.set i x = xs := by
  apply List.ext_getElem?
  intro k
  rw [List.getElem?_set]
  by_cases hk : i = k
  · subst hk
    have : i < xs.length := by
      by_contra hc
      rw [List.getElem?_eq_none (by omega)] at h
      cases h
    simp [this, h]
  · simp [hk]

theorem ProcessReduce_eq {U : Utils} {rr : RunningBucketResults} {rs : List runningStats}
    (v : CValueEnclosure) {i : Nat} {slot : runningStats} {m : MeasureAggregator}
    (hs : rs[i]? = some slot) (hm : rr.currStats[i]? = some m) :
    ∃ e, ProcessReduce U rr rs v i =
      Except.ok (rs.set i (reduceSlot U m.MeasureFunc slot v), e) ∧
      (e ≠ none → reduceSlot U m.MeasureFunc slot v = slot) ∧
      (e = none ↔ ∃ r, U.Reduce slot.rawVal v m.MeasureFunc = Except.ok r) := by
  unfold ProcessReduce
  simp only [index_of_getElem? hs, index_of_getElem? hm, bind, Except.bind]
  cases hr : U.Reduce slot.rawVal v m.MeasureFunc with
  | error msg =>
    refine ⟨some "ProcessReduce: failed to add measurement to running stats", ?_, ?_, by simp⟩
    · simp only [reduceSlot, reduceInto, hr, pure, Except.pure]
      rw [set_self_of_getElem? hs]
    · intro _; simp [reduceSlot, reduceInto, hr]
  | ok r =>
    exact ⟨none, by simp [reduceSlot, reduceInto, hr, pure, Except.pure], by simp, by simp⟩

theorem AddEvalResultsForMinOrMaxOrSum_inv {U : Utils} {rr : RunningBucketResults}
    {rs rs1 : List runningStats} {mr : List CValueEnclosure} {i : Nat} {e : error}
    {slot : runningStats} {m : MeasureAggregator}
    (hs : rs[i]? = some slot) (hm : rr.currStats[i]? = some m)
    (h : AddEvalResultsForMinOrMaxOrSum U rr rs mr i = Except.ok (rs1, e)) :
    rs1 = rs.set i (minMaxSumSlot U m mr i slot) ∧
      (e ≠ none → minMaxSumSlot U m mr i slot = slot) := by
  unfold AddEvalResultsForMinOrMaxOrSum at h
  simp only [index_of_getElem? hm, bind, Except.bind] at h
  have hself : rs = rs.set i slot := (set_self_of_getElem? hs).symm
  unfold minMaxSumSlot
  cases hv : m.ValueColRequest with
  | none =>
    simp only [hv] at h ⊢
    cases hx : index mr i with
    | error f => simp [hx] at h
    | ok v =>
      have hx' := (index_ok_iff _ _ _).1 hx
      simp only [hx] at h
      obtain ⟨e0, hpr, he0, _⟩ := ProcessReduce_eq (U := U) v hs hm
      rw [hpr] at h
      simp only [Except.ok.injEq, Prod.mk.injEq] at h
      obtain ⟨h1, h2⟩ := h
      subst h1; subst h2
      simp only [hx', Option.getD_some]
      exact ⟨trivial, he0⟩
  | some vcr =>
    simp only [hv] at h ⊢
    cases hf : vcr.GetFields with
    | nil =>
      simp only [hf, pure, Except.pure, Except.ok.injEq, Prod.mk.injEq] at h
      exact ⟨by rw [← h.1]; exact hself, fun _ => rfl⟩
    | cons field rest =>
      cases rest with
      | cons f2 rest2 =>
        simp only [hf, pure, Except.pure, Except.ok.injEq, Prod.mk.injEq] at h
        exact ⟨by rw [← h.1]; exact hself, fun _ => rfl⟩
      | nil =>
        simp only [hf] at h ⊢
        cases hx : index mr i with
        | error f => simp [hx] at h
        | ok v =>
          have hx' := (index_ok_iff _ _ _).1 hx
          simp only [hx] at h
          simp only [hx', Option.getD_some]
          cases hev : vcr.Evaluate (fun k => if k = field then some v else none) with
          | error msg =>
            simp only [hev, pure, Except.pure, Except.ok.injEq, Prod.mk.injEq] at h
            exact ⟨by rw [← h.1]; exact hself, fun _ => rfl⟩
          | ok b =>
            cases b with
            | false =>
              simp only [hev, pure, Except.pure, Except.ok.injEq, Prod.mk.injEq,
                Bool.false_eq_true, if_false] at h
              exact ⟨by rw [← h.1]; exact hself, fun _ => rfl⟩
            | true =>
              obtain ⟨e0, hpr, he0, _⟩ := ProcessReduce_eq (U := U) v hs hm
              simp only [hev, hpr, if_true] at h
              cases e0 with
              | none =>
                simp only [pure, Except.pure, Except.ok.injEq, Prod.mk.injEq] at h
                exact ⟨h.1.symm, fun hne => absurd h.2.symm hne⟩
              | some msg =>
                simp only [pure, Except.pure, Except.ok.injEq, Prod.mk.injEq] at h
                exact ⟨h.1.symm, fun _ => he0 (by simp)⟩


theorem AddEvalResultsForCount_inv {U : Utils} {rr : RunningBucketResults}
    {rs rs1 : List runningStats} {mr : List CValueEnclosure} {i : Nat} {e : error}
    {utc : Bool} {cnt : Nat} {st : Int}
    {slot : runningStats} {m : MeasureAggregator}
    (hs : rs[i]? = some slot) (hm : rr.currStats[i]? = some m)
    (h : AddEvalResultsForCount U rr rs mr i utc cnt = Except.ok (rs1, st, e)) :
    rs1 = rs.set i (countSlot U m mr cnt utc i slot) ∧ st = countSkip m mr i ∧
      (e ≠ none → countSlot U m mr cnt utc i slot = slot) ∧
      (∀ vcr, m.ValueColRequest = some vcr → e = none →
        ∃ b, condBool vcr mr i = some (Except.ok b)) := by
  unfold AddEvalResultsForCount at h
  simp only [index_of_getElem? hm, bind, Except.bind] at h
  have hself : rs = rs.set i slot := (set_self_of_getElem? hs).symm
  unfold countSlot countSkip
  cases hv : m.ValueColRequest with
  | none =>
    simp only [hv] at h ⊢
    cases utc with
    | true =>
      obtain ⟨e0, hpr, he0, _⟩ := ProcessReduce_eq (U := U)
        { Dtype := SS_DTYPE.SS_DT_UNSIGNED_NUM, CVal := CVal.uint64 cnt } hs hm
      simp only [if_true, hpr, pure, Except.pure, Except.ok.injEq, Prod.mk.injEq] at h
      obtain ⟨h1, h2, h3⟩ := h
      subst h1; subst h2; subst h3
      exact ⟨rfl, rfl, he0, by simp⟩
    | false =>
      simp only [Bool.false_eq_true, if_false] at h ⊢
      cases hx : index mr i with
      | error f => simp [hx] at h
      | ok v =>
        have hx' := (index_ok_iff _ _ _).1 hx
        obtain ⟨e0, hpr, he0, _⟩ := ProcessReduce_eq (U := U) v hs hm
        simp only [hx, hpr, pure, Except.pure, Except.ok.injEq, Prod.mk.injEq] at h
        obtain ⟨h1, h2, h3⟩ := h
        subst h1; subst h2; subst h3
        simp only [hx', Option.getD_some]
        exact ⟨trivial, trivial, he0, by simp⟩
  | some vcr =>
    simp only [hv] at h ⊢
    unfold condBool
    cases hfill : fillFieldToValue mr vcr.GetFields i (fun _ => none) with
    | error f => simp [hfill] at h
    | ok fm =>
      simp only [hfill] at h ⊢
      cases hev : vcr.Evaluate fm with
      | error msg =>
        simp only [hev, pure, Except.pure, Except.ok.injEq, Prod.mk.injEq] at h
        obtain ⟨h1, h2, h3⟩ := h
        subst h1; subst h2; subst h3
        refine ⟨hself, rfl, fun _ => rfl, ?_⟩
        intro vcr1 _ hne
        simp at hne
      | ok b =>
        simp only [hev, index_of_getElem? hs] at h
        refine ⟨?_, ?_, ?_, ?_⟩
        · cases b with
          | false =>
            simp only [Bool.false_eq_true, if_false, pure, Except.pure, Except.ok.injEq,
              Prod.mk.injEq] at h
            rw [← h.1]
            simp only [countStep, Bool.false_eq_true, if_false]
          | true =>
            simp only [if_true] at h
            simp only [countStep, if_true]
            split at h
            · simp only [pure, Except.pure, Except.ok.injEq, Prod.mk.injEq] at h
              rw [← h.1]
            · simp [throw, throwThe, MonadExceptOf.throw] at h
        · cases b with
          | false =>
            simp only [Bool.false_eq_true, if_false, pure, Except.pure, Except.ok.injEq,
              Prod.mk.injEq] at h
            exact h.2.1.symm
          | true =>
            simp only [if_true] at h
            split at h
            · simp only [pure, Except.pure, Except.ok.injEq, Prod.mk.injEq] at h
              exact h.2.1.symm
            · simp [throw, throwThe, MonadExceptOf.throw] at h
        · intro hne
          exfalso
          apply hne
          cases b with
          | false =>
            simp only [Bool.false_eq_true, if_false, pure, Except.pure, Except.ok.injEq,
              Prod.mk.injEq] at h
            exact h.2.2.symm
          | true =>
            simp only [if_true] at h
            split at h
            · simp only [pure, Except.pure, Except.ok.injEq, Prod.mk.injEq] at h
              exact h.2.2.symm
            · simp [throw, throwThe, MonadExceptOf.throw] at h
        · intro vcr1 hv1 _
          cases hv1
          exact ⟨b, by simp only [hfill, hev]⟩


theorem AddEvalResultsForValuesOrCardinality_inv {U : Utils} {rr : RunningBucketResults}
    {rs rs1 : List runningStats} {mr : List CValueEnclosure} {i : Nat} {e : error}
    {st : Int} {slot : runningStats} {m : MeasureAggregator}
    (hs : rs[i]? = some slot) (hm : rr.currStats[i]? = some m)
    (h : AddEvalResultsForValuesOrCardinality U rr rs mr i = Except.ok (rs1, st, e)) :
    rs1 = rs.set i (valuesSlot U m mr i slot) ∧ st = valuesSkip U m mr i ∧
      (e ≠ none → valuesSlot U m mr i slot = valuesInit slot) ∧
      (e = none → ∃ s, valuesString U m mr i = some (Except.ok s)) := by
  unfold AddEvalResultsForValuesOrCardinality at h
  simp only [index_of_getElem? hs, index_of_getElem? hm, bind, Except.bind] at h
  cases hc : (valuesInit slot).rawVal.CVal with
  | nil => simp [hc, throw, throwThe, MonadExceptOf.throw] at h
  | uint64 n => simp [hc, throw, throwThe, MonadExceptOf.throw] at h
  | int64 n => simp [hc, throw, throwThe, MonadExceptOf.throw] at h
  | float mant expo => simp [hc, throw, throwThe, MonadExceptOf.throw] at h
  | string n => simp [hc, throw, throwThe, MonadExceptOf.throw] at h
  | stringSet strSet =>
    simp only [hc] at h
    unfold valuesSlot valuesSkip valuesString
    cases hv : m.ValueColRequest with
    | none =>
      simp only [hv] at h ⊢
      cases hx : index mr i with
      | error f => simp [hx] at h
      | ok v =>
        have hx' := (index_ok_iff _ _ _).1 hx
        simp only [hx] at h
        simp only [hx', Option.map_some']
        cases hg : U.GetString v with
        | error msg =>
          simp only [hg, pure, Except.pure, Except.ok.injEq, Prod.mk.injEq] at h
          obtain ⟨h1, h2, h3⟩ := h
          subst h1; subst h2; subst h3
          exact ⟨rfl, rfl, fun _ => rfl, by simp⟩
        | ok strVal =>
          simp only [hg, pure, Except.pure, Except.ok.injEq, Prod.mk.injEq] at h
          obtain ⟨h1, h2, h3⟩ := h
          subst h1; subst h2; subst h3
          refine ⟨?_, rfl, by simp, fun _ => ⟨strVal, rfl⟩⟩
          simp only [valuesInsert, hc]
    | some vcr =>
      simp only [hv] at h ⊢
      cases hfill : fillFieldToValue mr vcr.GetFields i (fun _ => none) with
      | error f => simp [hfill] at h
      | ok fm =>
        simp only [hfill] at h ⊢
        cases hg : vcr.EvaluateToString fm with
        | error msg =>
          simp only [hg, pure, Except.pure, Except.ok.injEq, Prod.mk.injEq] at h
          obtain ⟨h1, h2, h3⟩ := h
          subst h1; subst h2; subst h3
          exact ⟨rfl, rfl, fun _ => rfl, by simp⟩
        | ok strVal =>
          simp only [hg, pure, Except.pure, Except.ok.injEq, Prod.mk.injEq] at h
          obtain ⟨h1, h2, h3⟩ := h
          subst h1; subst h2; subst h3
          refine ⟨?_, rfl, by simp, fun _ => ⟨strVal, rfl⟩⟩
          simp only [valuesInsert, hc]


theorem AddMeasureResultsBody_inv {U : Utils} {rr : RunningBucketResults}
    {rs rs1 : List runningStats} {mr : List CValueEnclosure} {cnt : Nat} {utc : Bool}
    {i : Nat} {i1 : Int} {e : error} {slot : runningStats}
    (hs : rs[i]? = some slot)
    (h : AddMeasureResultsBody U rr mr cnt utc rs i = Except.ok (rs1, i1, e)) :
    ∃ m, rr.currStats[i]? = some m ∧
      rs1 = rs.set i (addSlot U m mr cnt utc i slot) ∧
      i1 = (i : Int) + addStep U m mr i ∧
      (e ≠ none → addSlot U m mr cnt utc i slot =
        if usesStringSet m then valuesInit slot else slot) ∧
      (e = none → ∀ vcr, m.ValueColRequest = some vcr → skipsFields m = true →
        addStep U m mr i = (vcr.GetFields.length : Int) - 1) := by
  unfold AddMeasureResultsBody at h
  cases hmi : index rr.currStats i with
  | error f => simp [hmi, bind, Except.bind] at h
  | ok m =>
    have hm := (index_ok_iff _ _ _).1 hmi
    refine ⟨m, hm, ?_⟩
    simp only [hmi, bind, Except.bind] at h
    have hself : rs = rs.set i slot := (set_self_of_getElem? hs).symm
    have hvalues : ∀ (_ : usesStringSet m = true) (r1 : List runningStats) (st : Int)
        (e0 : error),
        AddEvalResultsForValuesOrCardinality U rr rs mr i = Except.ok (r1, st, e0) →
        r1 = rs.set i (valuesSlot U m mr i slot) ∧
        (i : Int) + st = (i : Int) + valuesSkip U m mr i ∧
        (e0 ≠ none → valuesSlot U m mr i slot =
          if usesStringSet m then valuesInit slot else slot) ∧
        (e0 = none → ∀ vcr, m.ValueColRequest = some vcr → skipsFields m = true →
          valuesSkip U m mr i = (vcr.GetFields.length : Int) - 1) := by
      intro hu r1 st e0 hh
      obtain ⟨g1, g2, g3, g4⟩ := AddEvalResultsForValuesOrCardinality_inv hs hm hh
      refine ⟨g1, by rw [g2], ?_, ?_⟩
      · intro hne; rw [g3 hne, hu]; simp
      · intro hnone vcr hv _
        obtain ⟨sv, hsv⟩ := g4 hnone
        simp only [valuesSkip, hv, hsv]
    cases hfn : m.MeasureFunc with
    | Count =>
      simp only [hfn] at h
      cases hh : AddEvalResultsForCount U rr rs mr i utc cnt with
      | error f => simp [hh] at h
      | ok r =>
        obtain ⟨r1, st, e0⟩ := r
        simp only [hh, pure, Except.pure, Except.ok.injEq, Prod.mk.injEq] at h
        obtain ⟨h1, h2, h3⟩ := h
        subst h1; subst h2; subst h3
        obtain ⟨g1, g2, g3, g4⟩ := AddEvalResultsForCount_inv hs hm hh
        simp only [addSlot, addStep, hfn, usesStringSet]
        refine ⟨g1, by rw [g2], ?_, ?_⟩
        · intro hne; rw [g3 hne]; simp
        · intro hnone vcr hv _
          obtain ⟨b, hb⟩ := g4 vcr hv hnone
          simp only [countSkip, hv, hb]
    | Min =>
      simp only [hfn] at h
      cases hh : AddEvalResultsForMinOrMaxOrSum U rr rs mr i with
      | error f => simp [hh] at h
      | ok r =>
        obtain ⟨r1, e0⟩ := r
        simp only [hh, pure, Except.pure, Except.ok.injEq, Prod.mk.injEq] at h
        obtain ⟨h1, h2, h3⟩ := h
        subst h1; subst h2; subst h3
        obtain ⟨g1, g3⟩ := AddEvalResultsForMinOrMaxOrSum_inv hs hm hh
        simp only [addSlot, addStep, hfn, usesStringSet, skipsFields]
        refine ⟨g1, by simp, ?_, ?_⟩
        · intro hne; rw [g3 hne]; simp
        · intro _ vcr _ hsk; simp at hsk
    | Max =>
      simp only [hfn] at h
      cases hh : AddEvalResultsForMinOrMaxOrSum U rr rs mr i with
      | error f => simp [hh] at h
      | ok r =>
        obtain ⟨r1, e0⟩ := r
        simp only [hh, pure, Except.pure, Except.ok.injEq, Prod.mk.injEq] at h
        obtain ⟨h1, h2, h3⟩ := h
        subst h1; subst h2; subst h3
        obtain ⟨g1, g3⟩ := AddEvalResultsForMinOrMaxOrSum_inv hs hm hh
        simp only [addSlot, addStep, hfn, usesStringSet, skipsFields]
        refine ⟨g1, by simp, ?_, ?_⟩
        · intro hne; rw [g3 hne]; simp
        · intro _ vcr _ hsk; simp at hsk
    | Sum =>
      simp only [hfn] at h
      cases hh : AddEvalResultsForMinOrMaxOrSum U rr rs mr i with
      | error f => simp [hh] at h
      | ok r =>
        obtain ⟨r1, e0⟩ := r
        simp only [hh, pure, Except.pure, Except.ok.injEq, Prod.mk.injEq] at h
        obtain ⟨h1, h2, h3⟩ := h
        subst h1; subst h2; subst h3
        obtain ⟨g1, g3⟩ := AddEvalResultsForMinOrMaxOrSum_inv hs hm hh
        simp only [addSlot, addStep, hfn, usesStringSet, skipsFields]
        refine ⟨g1, by simp, ?_, ?_⟩
        · intro hne; rw [g3 hne]; simp
        · intro _ vcr _ hsk; simp at hsk
    | Values =>
      simp only [hfn] at h
      have hu : usesStringSet m = true := by simp [usesStringSet, hfn]
      simp only [addSlot, addStep, hfn]
      cases hh : AddEvalResultsForValuesOrCardinality U rr rs mr i with
      | error f => simp [hh] at h
      | ok r =>
        obtain ⟨r1, st, e0⟩ := r
        simp only [hh, pure, Except.pure, Except.ok.injEq, Prod.mk.injEq] at h
        obtain ⟨h1, h2, h3⟩ := h
        subst h1; subst h2; subst h3
        exact hvalues hu _ _ _ hh
    | Other code =>
      simp only [hfn] at h
      cases hx : index mr i with
      | error f => simp [hx] at h
      | ok v =>
        have hx' := (index_ok_iff _ _ _).1 hx
        obtain ⟨e0, hpr, he0, _⟩ := ProcessReduce_eq (U := U) v hs hm
        simp only [hx, hpr, pure, Except.pure, Except.ok.injEq, Prod.mk.injEq] at h
        obtain ⟨h1, h2, h3⟩ := h
        subst h1; subst h2; subst h3
        simp only [addSlot, addStep, hfn, usesStringSet, skipsFields, hx', Option.getD_some]
        rw [hfn] at he0
        refine ⟨trivial, by simp, ?_, ?_⟩
        · intro hne; rw [he0 hne]; simp
        · intro _ vcr _ hsk; simp at hsk
    | Cardinality =>
      simp only [hfn] at h
      cases hv : m.ValueColRequest with
      | some vcr =>
        simp only [hv] at h
        have hu : usesStringSet m = true := by simp [usesStringSet, hfn, hv]
        simp only [addSlot, addStep, hfn, hv]
        cases hh : AddEvalResultsForValuesOrCardinality U rr rs mr i with
        | error f => simp [hh] at h
        | ok r =>
          obtain ⟨r1, st, e0⟩ := r
          simp only [hh, pure, Except.pure, Except.ok.injEq, Prod.mk.injEq] at h
          obtain ⟨h1, h2, h3⟩ := h
          subst h1; subst h2; subst h3
          have := hvalues hu _ _ _ hh
          rw [hv] at this
          exact this
      | none =>
        simp only [hv] at h
        simp only [addSlot, addStep, hfn, hv, usesStringSet, skipsFields, sketchSlot]
        cases hx : index mr i with
        | error f => simp [hx] at h
        | ok v =>
          have hx' := (index_ok_iff _ _ _).1 hx
          simp only [hx] at h
          simp only [hx', Option.getD_some]
          cases hg : U.GetUIntValue v with
          | error msg =>
            simp only [hg, pure, Except.pure, Except.ok.injEq, Prod.mk.injEq] at h
            obtain ⟨h1, h2, h3⟩ := h
            subst h1; subst h2; subst h3
            exact ⟨hself, by simp, fun _ => by simp, fun _ vcr hc => by cases hc⟩
          | ok rawVal =>
            simp only [hg, index_of_getElem? hs] at h
            cases hh : slot.hll with
            | none => simp [hh, throw, throwThe, MonadExceptOf.throw] at h
            | some sk =>
              simp only [hh, pure, Except.pure, Except.ok.injEq, Prod.mk.injEq] at h
              obtain ⟨h1, h2, h3⟩ := h
              subst h1; subst h2; subst h3
              exact ⟨by simp, by simp, fun hc => absurd rfl hc, fun _ vcr hc => by cases hc⟩


/-- The merge body returns unless it merges a peer sketch into an absent one,
and then does what `mergeSlot` and `mergeStep` say. -/
theorem mergeRunningStatsBody_eq {U : Utils} {rr : RunningBucketResults}
    {rs tjs : List runningStats} {i : Nat} {slot tj : runningStats} {m : MeasureAggregator}
    (hs : rs[i]? = some slot) (hm : rr.currStats[i]? = some m) (ht : tjs[i]? = some tj)
    (hsk : m.MeasureFunc = AggregateFunctions.Cardinality → m.ValueColRequest = none →
      tj.hll ≠ none → slot.hll ≠ none) :
    ∃ e, mergeRunningStatsBody U rr tjs rs i =
      Except.ok (rs.set i (mergeSlot U m tj slot), (i : Int) + mergeStep m, e) := by
  unfold mergeRunningStatsBody
  simp only [index_of_getElem? hm, index_of_getElem? ht, index_of_getElem? hs, bind,
    Except.bind]
  obtain ⟨e0, hpr, _, _⟩ := ProcessReduce_eq (U := U) tj.rawVal hs hm
  cases hfn : m.MeasureFunc with
  | Cardinality =>
    cases hv : m.ValueColRequest with
    | some vcr =>
      exact ⟨e0, by simp [hpr, mergeSlot, mergeStep, hfn, hv, pure, Except.pure]⟩
    | none =>
      simp only [mergeSlot, mergeStep, hfn, hv, hllMerge]
      cases hth : tj.hll with
      | none =>
        refine ⟨none, ?_⟩
        simp only [pure, Except.pure, add_zero]
      | some o =>
        cases hsh : slot.hll with
        | none => exact absurd hsh (hsk hfn hv (by simp [hth]))
        | some s => exact ⟨none, by simp [pure, Except.pure]⟩
  | Values =>
    cases hv : m.ValueColRequest with
    | some vcr =>
      exact ⟨e0, by simp [hpr, mergeSlot, mergeStep, hfn, hv, pure, Except.pure]⟩
    | none =>
      exact ⟨e0, by simp [hpr, mergeSlot, mergeStep, hfn, hv, pure, Except.pure]⟩
  | Count =>
    cases hv : m.ValueColRequest with
    | some vcr =>
      exact ⟨e0, by simp [hpr, mergeSlot, mergeStep, hfn, hv, pure, Except.pure]⟩
    | none =>
      exact ⟨e0, by simp [hpr, mergeSlot, mergeStep, hfn, hv, pure, Except.pure]⟩
  | Min => exact ⟨e0, by simp [hpr, mergeSlot, mergeStep, hfn, pure, Except.pure]⟩
  | Max => exact ⟨e0, by simp [hpr, mergeSlot, mergeStep, hfn, pure, Except.pure]⟩
  | Sum => exact ⟨e0, by simp [hpr, mergeSlot, mergeStep, hfn, pure, Except.pure]⟩
  | Other c => exact ⟨e0, by simp [hpr, mergeSlot, mergeStep, hfn, pure, Except.pure]⟩

theorem mergeRunningStatsBody_inv {U : Utils} {rr : RunningBucketResults}
    {rs rs1 tjs : List runningStats} {i : Nat} {i1 : Int} {e : error}
    (hi : i < tjs.length)
    (h : mergeRunningStatsBody U rr tjs rs i = Except.ok (rs1, i1, e)) :
    ∃ slot m tj, rs[i]? = some slot ∧ rr.currStats[i]? = some m ∧ tjs[i]? = some tj ∧
      rs1 = rs.set i (mergeSlot U m tj slot) ∧ i1 = (i : Int) + mergeStep m := by
  have ht : tjs[i]? = some tjs[i] := List.getElem?_eq_getElem hi
  cases hmi : index rr.currStats i with
  | error f => simp [mergeRunningStatsBody, hmi, bind, Except.bind] at h
  | ok m =>
    have hm := (index_ok_iff _ _ _).1 hmi
    cases hsi : index rs i with
    | error f =>
      exfalso
      unfold mergeRunningStatsBody at h
      simp only [hmi, index_of_getElem? ht, bind, Except.bind, ProcessReduce, hsi] at h
      cases hfn : m.MeasureFunc <;> cases hv : m.ValueColRequest <;> simp [hfn, hv] at h
    | ok slot =>
      have hs := (index_ok_iff _ _ _).1 hsi
      refine ⟨slot, m, tjs[i], hs, hm, ht, ?_⟩
      by_cases hsk : m.MeasureFunc = AggregateFunctions.Cardinality → m.ValueColRequest = none →
          (tjs[i]).hll ≠ none → slot.hll ≠ none
      · obtain ⟨e0, he0⟩ := mergeRunningStatsBody_eq (U := U) hs hm ht hsk
        rw [he0] at h
        simp only [Except.ok.injEq, Prod.mk.injEq] at h
        exact ⟨h.1.symm, h.2.1.symm⟩
      · exfalso
        simp only [not_forall] at hsk
        obtain ⟨hfn, hv, hth, hsh⟩ := hsk
        simp only [ne_eq, not_not] at hsh
        unfold mergeRunningStatsBody at h
        simp only [hmi, index_of_getElem? ht, hsi, bind, Except.bind, hfn, hv, hllMerge,
          hsh] at h
        cases hth2 : (tjs[i]).hll with
        | none => exact hth hth2
        | some o => simp [hth2, throw, throwThe, MonadExceptOf.throw] at h

theorem addStep_ge (U : Utils) (m : MeasureAggregator) (mr : List CValueEnclosure) (i : Nat) :
    (-1 : Int) ≤ addStep U m mr i := by
  unfold addStep countSkip valuesSkip
  repeat' split
  all_goals omega

theorem mergeStep_ge (m : MeasureAggregator) : (-1 : Int) ≤ mergeStep m := by
  unfold mergeStep
  repeat' split
  all_goals omega

theorem boundByLength_length : BoundByLength List.length := fun _ _ h => h

theorem boundByLength_const (n : Nat) : BoundByLength (fun _ => n) := fun _ _ _ => rfl

theorem AddMeasureResultsBody_local (U : Utils) (rr : RunningBucketResults)
    (mr : List CValueEnclosure) (cnt : Nat) (utc : Bool) :
    BodyLocal List.length (AddMeasureResultsBody U rr mr cnt utc) := by
  intro rs i rs1 i1 e hi h
  obtain ⟨m, _, h1, h2, _⟩ := AddMeasureResultsBody_inv (List.getElem?_eq_getElem hi) h
  refine ⟨⟨_, h1⟩, ?_⟩
  have := addStep_ge U m mr i
  omega

theorem AddMeasureResultsBody_fixed (U : Utils) (rr : RunningBucketResults)
    (mr : List CValueEnclosure) (cnt : Nat) (utc : Bool) :
    StepFixed List.length (AddMeasureResultsBody U rr mr cnt utc) := by
  intro i rs rs1 i1 e rs2 rs3 i3 e3 hi hi2 h h2
  obtain ⟨m, hm, _, h1, _⟩ := AddMeasureResultsBody_inv (List.getElem?_eq_getElem hi) h
  obtain ⟨m2, hm2, _, h3, _⟩ := AddMeasureResultsBody_inv (List.getElem?_eq_getElem hi2) h2
  rw [hm] at hm2
  cases hm2
  rw [h1, h3]

theorem mergeRunningStatsBody_local (U : Utils) (rr : RunningBucketResults)
    (tjs : List runningStats) :
    BodyLocal (fun _ => tjs.length) (mergeRunningStatsBody U rr tjs) := by
  intro rs i rs1 i1 e hi h
  obtain ⟨slot, m, tj, _, _, _, h1, h2⟩ := mergeRunningStatsBody_inv hi h
  refine ⟨⟨_, h1⟩, ?_⟩
  have := mergeStep_ge m
  omega

theorem mergeRunningStatsBody_fixed (U : Utils) (rr : RunningBucketResults)
    (tjs : List runningStats) :
    StepFixed (fun _ => tjs.length) (mergeRunningStatsBody U rr tjs) := by
  intro i rs rs1 i1 e rs2 rs3 i3 e3 hi hi2 h h2
  obtain ⟨_, m, _, _, hm, _, _, h1⟩ := mergeRunningStatsBody_inv hi h
  obtain ⟨_, m2, _, _, hm2, _, _, h3⟩ := mergeRunningStatsBody_inv hi2 h2
  rw [hm] at hm2
  cases hm2
  rw [h1, h3]

/-- What a returning `AddMeasureResults` did at a dispatched index. -/
theorem AddMeasureResults_dispatched {U : Utils} {fuel : Nat} {rr rr1 : RunningBucketResults}
    {rs rs1 : List runningStats} {mr : List CValueEnclosure} {qid cnt : Nat} {utc : Bool}
    {i : Nat} {e : error}
    (h : AddMeasureResults U fuel rr rs mr qid cnt utc = Except.ok (rs1, rr1))
    (hd : (i, e) ∈ AddMeasureResultsTrace U fuel rr rs mr cnt utc) :
    ∃ slot m, rs[i]? = some slot ∧ rr.currStats[i]? = some m ∧
      rs1[i]? = some (addSlot U m mr cnt utc i slot) ∧
      (0 : Int) ≤ addStep U m mr i ∧
      (e ≠ none → addSlot U m mr cnt utc i slot =
        if usesStringSet m then valuesInit slot else slot) ∧
      (e = none → ∀ vcr, m.ValueColRequest = some vcr → skipsFields m = true →
        addStep U m mr i = (vcr.GetFields.length : Int) - 1) ∧
      (∀ x e2, (x, e2) ∈ AddMeasureResultsTrace U fuel rr rs mr cnt utc →
        x < i ∨ (x = i ∧ e2 = e) ∨ (i : Int) + addStep U m mr i < x) := by
  unfold AddMeasureResults at h
  cases hl : forLoop List.length (AddMeasureResultsBody U rr mr cnt utc) fuel 0 rs with
  | error f => simp [hl, bind, Except.bind] at h
  | ok r =>
    simp only [hl, bind, Except.bind, pure, Except.pure, Except.ok.injEq, Prod.mk.injEq] at h
    obtain ⟨h1, _⟩ := h
    subst h1
    obtain ⟨rsm, rsm1, i1, hlen, hib, hg, hb, hres, hp, hall⟩ :=
      forLoop_dispatched boundByLength_length (AddMeasureResultsBody_local U rr mr cnt utc)
        (AddMeasureResultsBody_fixed U rr mr cnt utc) fuel 0 rs r i e hl hd
    have hsm : rsm[i]? = some rsm[i] := List.getElem?_eq_getElem hib
    obtain ⟨m, hm, hr1, hi1, herr, hnone⟩ := AddMeasureResultsBody_inv hsm hb
    refine ⟨rsm[i], m, by rw [← hg, hsm], hm, ?_, by omega, herr, hnone, ?_⟩
    · rw [hres, hr1, List.getElem?_set]
      simp [hib]
    · intro x e2 hx
      rcases hall x e2 hx with h1 | h1 | h1
      · exact Or.inl h1
      · exact Or.inr (Or.inl h1)
      · right; right; omega

/-- A returning `AddMeasureResults` keeps every slot it does not dispatch. -/
theorem AddMeasureResults_not_dispatched {U : Utils} {fuel : Nat}
    {rr rr1 : RunningBucketResults}
    {rs rs1 : List runningStats} {mr : List CValueEnclosure} {qid cnt : Nat} {utc : Bool}
    {i : Nat}
    (h : AddMeasureResults U fuel rr rs mr qid cnt utc = Except.ok (rs1, rr1))
    (hd : ∀ e, (i, e) ∉ AddMeasureResultsTrace U fuel rr rs mr cnt utc) :
    rs1[i]? = rs[i]? := by
  unfold AddMeasureResults at h
  cases hl : forLoop List.length (AddMeasureResultsBody U rr mr cnt utc) fuel 0 rs with
  | error f => simp [hl, bind, Except.bind] at h
  | ok r =>
    simp only [hl, bind, Except.bind, pure, Except.pure, Except.ok.injEq, Prod.mk.injEq] at h
    obtain ⟨h1, _⟩ := h
    subst h1
    exact forLoop_not_dispatched (AddMeasureResultsBody_local U rr mr cnt utc) fuel 0 rs r i
      hl hd

theorem AddMeasureResults_frame {U : Utils} {fuel : Nat} {rr rr1 : RunningBucketResults}
    {rs rs1 : List runningStats} {mr : List CValueEnclosure} {qid cnt : Nat} {utc : Bool}
    (h : AddMeasureResults U fuel rr rs mr qid cnt utc = Except.ok (rs1, rr1)) :
    rs1.length = rs.length ∧ rr1 = { rr with count := wrapU64 (rr.count + cnt) } := by
  unfold AddMeasureResults at h
  cases hl : forLoop List.length (AddMeasureResultsBody U rr mr cnt utc) fuel 0 rs with
  | error f => simp [hl, bind, Except.bind] at h
  | ok r =>
    simp only [hl, bind, Except.bind, pure, Except.pure, Except.ok.injEq, Prod.mk.injEq] at h
    obtain ⟨h1, h2⟩ := h
    subst h1
    exact ⟨(forLoop_frame (AddMeasureResultsBody_local U rr mr cnt utc) fuel 0 rs r hl).1,
      h2.symm⟩

theorem AddMeasureResultsTop_inv {U : Utils} {fuel : Nat} {rr rr1 : RunningBucketResults}
    {mr : List CValueEnclosure} {qid cnt : Nat} {utc : Bool}
    (h : AddMeasureResultsTop U fuel rr mr qid cnt utc = Except.ok rr1) :
    AddMeasureResults U fuel rr rr.runningStats mr qid cnt utc =
        Except.ok (rr1.runningStats, { rr with count := wrapU64 (rr.count + cnt) }) ∧
      rr1.currStats = rr.currStats ∧ rr1.groupedRunningStats = rr.groupedRunningStats ∧
      rr1.count = wrapU64 (rr.count + cnt) := by
  unfold AddMeasureResultsTop at h
  cases hl : AddMeasureResults U fuel rr rr.runningStats mr qid cnt utc with
  | error f => simp [hl, bind, Except.bind] at h
  | ok r =>
    obtain ⟨rs1, rr2⟩ := r
    simp only [hl, bind, Except.bind, pure, Except.pure, Except.ok.injEq] at h
    obtain ⟨_, h2⟩ := AddMeasureResults_frame hl
    subst h2
    subst h
    exact ⟨rfl, rfl, rfl, rfl⟩

/-! ## Conditional count -/

theorem wrapI64_succ (z : Int) : wrapI64 (wrapI64 z + 1) = wrapI64 (z + 1) := by
  unfold wrapI64
  omega

theorem wrapI64_of_lt (k : Nat) (h : k < 2 ^ 63) : wrapI64 (k : Int) = (k : Int) := by
  unfold wrapI64
  omega

theorem initRunningStats_getElem? (ms : List MeasureAggregator) (i : Nat)
    (m : MeasureAggregator) (hm : ms[i]? = some m)
    (hfn : m.MeasureFunc ≠ AggregateFunctions.Cardinality) :
    (initRunningStats ms)[i]? = some runningStats.zero := by
  unfold initRunningStats
  rw [List.getElem?_map, hm]
  simp only [Option.map_some', Option.some.injEq]

theorem countStep_zero (b : Bool) :
    countStep b runningStats.zero = countedSlot (if b then 1 else 0) := by
  cases b <;> simp [countStep, countInit, runningStats.zero, CValueEnclosure.zero, countedSlot,
    wrapI64]

theorem countStep_counted (b : Bool) (k : Nat) :
    countStep b (countedSlot k) = countedSlot (k + if b then 1 else 0) := by
  cases b
  · simp [countStep, countInit, countedSlot]
  · simp [countStep, countInit, countedSlot, wrapI64_succ]

theorem AddRun_count {U : Utils} {fuel i : Nat} {P : ValueExpr}
    {rr rr1 : RunningBucketResults} {calls : List AddCall}
    (hrun : AddRun U fuel i rr calls rr1) :
    rr.currStats[i]? = some { MeasureFunc := AggregateFunctions.Count, ValueColRequest := some P } →
    (∀ c ∈ calls, ∃ b, condBool P c.measureResults i = some (Except.ok b)) →
    ∀ k, rr.runningStats[i]? = some (countedSlot k) →
      rr1.runningStats[i]? = some (countedSlot
        (k + calls.countP (fun c => condTrue P c.measureResults i))) := by
  induction hrun with
  | done rr => intro _ _ k hk; simpa using hk
  | call rr rr1 rr2 c calls e hcall hd _ ih =>
    intro hm hP k hk
    obtain ⟨hadd, hcs, _, _⟩ := AddMeasureResultsTop_inv hcall
    obtain ⟨slot, m, hs, hm1, hr, _⟩ := AddMeasureResults_dispatched hadd hd
    rw [hm] at hm1; cases hm1
    rw [hk] at hs; cases hs
    obtain ⟨b, hb⟩ := hP c (List.mem_cons_self _ _)
    have hslot : addSlot U { MeasureFunc := AggregateFunctions.Count, ValueColRequest := some P }
        c.measureResults c.cnt c.usedByTimechart i (countedSlot k) =
        countedSlot (k + if b then 1 else 0) := by
      simp only [addSlot, countSlot, hb]
      exact countStep_counted b k
    rw [hslot] at hr
    have := ih (by rw [hcs]; exact hm) (fun c hc => hP c (List.mem_cons_of_mem _ hc)) _ hr
    rw [this]
    have hct : condTrue P c.measureResults i = b := by
      cases b <;> simp [condTrue, hb]
    rw [List.countP_cons, hct]
    cases b
    · simp
    · simp only [if_true, Nat.add_assoc, Nat.add_comm 1]

/-! ## `mergeRunningStats` as a whole -/

/-- What a returning `mergeRunningStats` did at a dispatched index. -/
theorem mergeRunningStats_dispatched {U : Utils} {fuel : Nat} {rr : RunningBucketResults}
    {rs rs1 tjs : List runningStats} {i : Nat} {e : error}
    (h : mergeRunningStats U fuel rr rs tjs = Except.ok rs1)
    (hd : (i, e) ∈ mergeRunningStatsTrace U fuel rr rs tjs) :
    ∃ slot m tj, rs[i]? = some slot ∧ rr.currStats[i]? = some m ∧ tjs[i]? = some tj ∧
      rs1[i]? = some (mergeSlot U m tj slot) ∧ (0 : Int) ≤ mergeStep m ∧
      (∀ x e2, (x, e2) ∈ mergeRunningStatsTrace U fuel rr rs tjs →
        x < i ∨ (x = i ∧ e2 = e) ∨ (i : Int) + mergeStep m < x) := by
  unfold mergeRunningStats at h
  obtain ⟨rsm, rsm1, i1, hlen, hib, hg, hb, hres, hp, hall⟩ :=
    forLoop_dispatched (boundByLength_const tjs.length) (mergeRunningStatsBody_local U rr tjs)
      (mergeRunningStatsBody_fixed U rr tjs) fuel 0 rs rs1 i e h hd
  obtain ⟨slot, m, tj, hs, hm, ht, hr1, hi1⟩ := mergeRunningStatsBody_inv hib hb
  have hil : i < rsm.length := by
    by_contra hc
    rw [List.getElem?_eq_none (by omega)] at hs
    cases hs
  refine ⟨slot, m, tj, by rw [← hg, hs], hm, ht, ?_, by omega, ?_⟩
  · rw [hres, hr1, List.getElem?_set]
    simp [hil]
  · intro x e2 hx
    rcases hall x e2 hx with h1 | h1 | h1
    · exact Or.inl h1
    · exact Or.inr (Or.inl h1)
    · right; right; omega

/-- A returning `mergeRunningStats` keeps every slot it does not dispatch, and
the length of the slot list. -/
theorem mergeRunningStats_not_dispatched {U : Utils} {fuel : Nat} {rr : RunningBucketResults}
    {rs rs1 tjs : List runningStats} {i : Nat}
    (h : mergeRunningStats U fuel rr rs tjs = Except.ok rs1)
    (hd : ∀ e, (i, e) ∉ mergeRunningStatsTrace U fuel rr rs tjs) :
    rs1[i]? = rs[i]? :=
  forLoop_not_dispatched (mergeRunningStatsBody_local U rr tjs) fuel 0 rs rs1 i h hd

theorem mergeRunningStats_length {U : Utils} {fuel : Nat} {rr : RunningBucketResults}
    {rs rs1 tjs : List runningStats}
    (h : mergeRunningStats U fuel rr rs tjs = Except.ok rs1) : rs1.length = rs.length :=
  (forLoop_frame (mergeRunningStatsBody_local U rr tjs) fuel 0 rs rs1 h).1

theorem wrapI64_add_assoc (a b c : Int) :
    wrapI64 (wrapI64 (a + b) + c) = wrapI64 (a + wrapI64 (b + c)) := by
  unfold wrapI64
  omega

theorem getElem?_lt_of_some {α : Type} {xs : List α} {k : Nat} {x : α} (h : xs[k]? = some x) :
    k < xs.length := by
  by_contra hc
  rw [List.getElem?_eq_none (by omega)] at h
  cases h

/-- A loop whose body returns on every slot list of length `L`, keeps the
length and never moves the loop variable back, returns within `L` iterations. -/
theorem forLoop_returns (bound : List runningStats → Nat) (body : Body) (L : Nat)
    (hbound : ∀ rs : List runningStats, rs.length = L → bound rs = L)
    (hbody : ∀ (rs : List runningStats) (i : Nat), rs.length = L → i < L →
      ∃ rs1 i1 e, body rs i = Except.ok (rs1, i1, e) ∧ rs1.length = L ∧ (i : Int) ≤ i1) :
    ∀ (fuel i : Nat) (rs : List runningStats), rs.length = L → L - i ≤ fuel →
      ∃ rs', forLoop bound body fuel i rs = Except.ok rs' := by
  intro fuel
  induction fuel with
  | zero =>
    intro i rs hlen hfuel
    exact ⟨rs, forLoop_exit 0 (by rw [hbound rs hlen]; omega)⟩
  | succ fuel ih =>
    intro i rs hlen hfuel
    by_cases hi : i < L
    · obtain ⟨rs1, i1, e, hb, hl1, hge⟩ := hbody rs i hlen hi
      obtain ⟨rs', hrun⟩ := ih (i1 + 1).toNat rs1 hl1 (by omega)
      refine ⟨rs', ?_⟩
      have hb' : i < bound rs := by rw [hbound rs hlen]; exact hi
      simp [forLoop, hb', hb, bind, Except.bind, hrun]
    · exact ⟨rs, forLoop_exit _ (by rw [hbound rs hlen]; omega)⟩

/-- Two returning loops with the same bound whose bodies move the loop variable
alike dispatch the same indices. -/
theorem forTrace_indices_eq (L : Nat) (body1 body2 : Body)
    (hstep : ∀ (rs1 rs2 : List runningStats) (i : Nat) (r1 r2 : List runningStats)
      (i1 i2 : Int) (e1 e2 : error), i < L → body1 rs1 i = Except.ok (r1, i1, e1) →
      body2 rs2 i = Except.ok (r2, i2, e2) → i1 = i2) :
    ∀ (fuel i : Nat) (rs1 rs2 r1 r2 : List runningStats),
      forLoop (fun _ => L) body1 fuel i rs1 = Except.ok r1 →
      forLoop (fun _ => L) body2 fuel i rs2 = Except.ok r2 →
      (forTrace (fun _ => L) body1 fuel i rs1).map Prod.fst =
        (forTrace (fun _ => L) body2 fuel i rs2).map Prod.fst := by
  intro fuel
  induction fuel with
  | zero => intro i rs1 rs2 r1 r2 _ _; simp [forTrace]
  | succ fuel ih =>
    intro i rs1 rs2 r1 r2 h1 h2
    by_cases hi : i < L
    · obtain ⟨s1, j1, e1, hb1, hrest1⟩ := @forLoop_succ_ok (fun _ => L) _ _ _ _ _ hi h1
      obtain ⟨s2, j2, e2, hb2, hrest2⟩ := @forLoop_succ_ok (fun _ => L) _ _ _ _ _ hi h2
      have hj := hstep rs1 rs2 i s1 s2 j1 j2 e1 e2 hi hb1 hb2
      subst hj
      simp only [forTrace, hi, if_true, hb1, hb2, List.map_cons]
      rw [ih _ s1 s2 r1 r2 hrest1 hrest2]
    · simp [forTrace, hi]

theorem mergeable_spec {m : MeasureAggregator} (h : mergeable m = true) :
    (0 : Int) ≤ mergeStep m ∧ (∀ (U : Utils) (tj slot : runningStats),
      mergeSlot U m tj slot = reduceSlot U m.MeasureFunc slot tj.rawVal) ∧
      ¬ (m.MeasureFunc = AggregateFunctions.Cardinality ∧ m.ValueColRequest = none) := by
  unfold mergeable at h
  unfold mergeStep mergeSlot
  cases hfn : m.MeasureFunc <;> cases hv : m.ValueColRequest <;> simp [hfn, hv] at h ⊢ <;>
    omega

/-- Over measures that are merged by a scalar reduce and declare at least one
field when they skip, with slot lists as long as the measure list,
`mergeRunningStats` returns. -/
theorem mergeRunningStats_returns (U : Utils) (fuel : Nat) (rr : RunningBucketResults)
    (rs tjs : List runningStats)
    (hms : ∀ m ∈ rr.currStats, mergeable m = true)
    (hlen : rs.length = rr.currStats.length)
    (htj : tjs.length = rr.currStats.length) (hfuel : rr.currStats.length ≤ fuel) :
    ∃ rs1, mergeRunningStats U fuel rr rs tjs = Except.ok rs1 := by
  refine forLoop_returns (fun _ => tjs.length) (mergeRunningStatsBody U rr tjs) rs.length
    (fun _ _ => by show tjs.length = rs.length; omega) ?_ fuel 0 rs rfl (by omega)
  intro rs2 i hl hi
  have hs : rs2[i]? = some rs2[i] := List.getElem?_eq_getElem (by omega)
  have hm : rr.currStats[i]? = some rr.currStats[i] := List.getElem?_eq_getElem (by omega)
  have ht : tjs[i]? = some tjs[i] := List.getElem?_eq_getElem (by omega)
  obtain ⟨h0, _, hnc⟩ := mergeable_spec (hms _ (List.getElem_mem (by omega : i < rr.currStats.length)))
  obtain ⟨e, he⟩ := mergeRunningStatsBody_eq (U := U) hs hm ht (fun h1 h2 => absurd ⟨h1, h2⟩ hnc)
  exact ⟨_, _, e, he, by simp [hl], by omega⟩

/-- Returning merges over the same measure list and peers of the same length
dispatch the same indices, whatever the slots hold. -/
theorem mergeRunningStatsTrace_indices (U : Utils) (fuel : Nat) (rr rr2 : RunningBucketResults)
    (rs tjs rs2 tjs2 r1 r2 : List runningStats)
    (hcs : rr2.currStats = rr.currStats) (hl : tjs2.length = tjs.length)
    (h1 : mergeRunningStats U fuel rr rs tjs = Except.ok r1)
    (h2 : mergeRunningStats U fuel rr2 rs2 tjs2 = Except.ok r2) :
    (mergeRunningStatsTrace U fuel rr rs tjs).map Prod.fst =
      (mergeRunningStatsTrace U fuel rr2 rs2 tjs2).map Prod.fst := by
  unfold mergeRunningStats at h1 h2
  unfold mergeRunningStatsTrace
  rw [hl] at h2 ⊢
  refine forTrace_indices_eq tjs.length _ _ ?_ fuel 0 rs rs2 r1 r2 h1 h2
  intro s1 s2 i q1 q2 i1 i2 e1 e2 hi hb1 hb2
  obtain ⟨_, m, _, _, hm, _, _, hi1⟩ := mergeRunningStatsBody_inv hi hb1
  obtain ⟨_, m2, _, _, hm2, _, _, hi2⟩ := mergeRunningStatsBody_inv (by omega) hb2
  rw [hcs, hm] at hm2
  cases hm2
  rw [hi1, hi2]

/-- `MergeRunningBuckets` on a receiver without grouped slots is the merge of
the top-level slots and the sum of the counts. -/
theorem MergeRunningBuckets_top {U : Utils} {fuel : Nat} {rr peer : RunningBucketResults}
    {rs1 : List runningStats} (hg : rr.groupedRunningStats = [])
    (h : mergeRunningStats U fuel rr rr.runningStats peer.runningStats = Except.ok rs1) :
    MergeRunningBuckets U fuel rr (some peer) =
      Except.ok { rr with runningStats := rs1, count := wrapU64 (rr.count + peer.count) } := by
  simp only [MergeRunningBuckets, hg, List.length_nil, gt_iff_lt, Nat.lt_irrefl, if_false, bind,
    Except.bind, pure, Except.pure, h]

/-- The loop over the grouped slots, entry by entry: the keys are kept, an
entry whose key the peer lacks is kept as it is, an entry whose key the peer
has is merged with the peer's list. -/
theorem mergeGrouped_lookup (U : Utils) (fuel : Nat) (rr : RunningBucketResults)
    (tjG : List (String × List runningStats)) :
    ∀ (entries out : List (String × List runningStats)),
      mergeGrouped U fuel rr tjG entries = Except.ok out →
      out.map Prod.fst = entries.map Prod.fst ∧
      ∀ key : String,
        (entries.lookup key = none → out.lookup key = none) ∧
        (∀ la, entries.lookup key = some la →
          (tjG.lookup key = none → out.lookup key = some la) ∧
          (∀ lb, tjG.lookup key = some lb →
            ∃ r, mergeRunningStats U fuel rr la lb = Except.ok r ∧ out.lookup key = some r)) := by
  intro entries
  induction entries with
  | nil =>
    intro out h
    simp only [mergeGrouped, pure, Except.pure, Except.ok.injEq] at h
    subst h
    simp
  | cons entry rest ih =>
    intro out h
    obtain ⟨g, la0⟩ := entry
    have key_step : ∀ (merged : List runningStats) (rest1 : List (String × List runningStats)),
        mergeGrouped U fuel rr tjG rest = Except.ok rest1 →
        (tjG.lookup g = none → merged = la0) →
        (∀ lb, tjG.lookup g = some lb → mergeRunningStats U fuel rr la0 lb = Except.ok merged) →
        ((g, merged) :: rest1).map Prod.fst = ((g, la0) :: rest).map Prod.fst ∧
        ∀ key : String,
          (((g, la0) :: rest).lookup key = none → ((g, merged) :: rest1).lookup key = none) ∧
          (∀ la, ((g, la0) :: rest).lookup key = some la →
            (tjG.lookup key = none → ((g, merged) :: rest1).lookup key = some la) ∧
            (∀ lb, tjG.lookup key = some lb →
              ∃ r, mergeRunningStats U fuel rr la lb = Except.ok r ∧
                ((g, merged) :: rest1).lookup key = some r)) := by
      intro merged rest1 hrest hnone hsome
      obtain ⟨hkeys, hlook⟩ := ih rest1 hrest
      refine ⟨by simp [hkeys], ?_⟩
      intro key
      by_cases hkg : key = g
      · subst hkg
        simp only [List.lookup_cons, beq_self_eq_true]
        refine ⟨by simp, ?_⟩
        intro la hla
        simp only [Option.some.injEq] at hla
        subst hla
        exact ⟨fun h0 => by rw [hnone h0], fun lb hlb => ⟨merged, hsome lb hlb, rfl⟩⟩
      · have hne : (key == g) = false := by simpa using hkg
        simp only [List.lookup_cons, hne]
        exact hlook key
    simp only [mergeGrouped, bind, Except.bind] at h
    cases hl : tjG.lookup g with
    | none =>
      simp only [hl, pure, Except.pure] at h
      cases hrest : mergeGrouped U fuel rr tjG rest with
      | error f => simp [hrest] at h
      | ok rest1 =>
        simp only [hrest, Except.ok.injEq] at h
        subst h
        exact key_step la0 rest1 hrest (fun _ => rfl) (fun lb hlb => by rw [hl] at hlb; cases hlb)
    | some lb0 =>
      simp only [hl] at h
      cases hm : mergeRunningStats U fuel rr la0 lb0 with
      | error f => simp [hm] at h
      | ok merged =>
        simp only [hm] at h
        cases hrest : mergeGrouped U fuel rr tjG rest with
        | error f => simp [hrest] at h
        | ok rest1 =>
          simp only [hrest, pure, Except.pure, Except.ok.injEq] at h
          subst h
          exact key_step merged rest1 hrest (fun h0 => by rw [hl] at h0; cases h0)
            (fun lb hlb => by rw [hl] at hlb; cases hlb; exact hm)

/-- The loop over the grouped slots returns when every merge it makes does. -/
theorem mergeGrouped_returns (U : Utils) (fuel : Nat) (rr : RunningBucketResults)
    (tjG : List (String × List runningStats)) :
    ∀ (entries : List (String × List runningStats)),
      (∀ key la lb, (key, la) ∈ entries → tjG.lookup key = some lb →
        ∃ r, mergeRunningStats U fuel rr la lb = Except.ok r) →
      ∃ out, mergeGrouped U fuel rr tjG entries = Except.ok out := by
  intro entries
  induction entries with
  | nil => intro _; exact ⟨[], rfl⟩
  | cons entry rest ih =>
    intro hall
    obtain ⟨g, la0⟩ := entry
    obtain ⟨rest1, hrest⟩ := ih (fun key la lb hmem hl =>
      hall key la lb (List.mem_cons_of_mem _ hmem) hl)
    cases hl : tjG.lookup g with
    | none =>
      exact ⟨(g, la0) :: rest1, by
        simp [mergeGrouped, hl, hrest, bind, Except.bind, pure, Except.pure]⟩
    | some lb0 =>
      obtain ⟨r, hr⟩ := hall g la0 lb0 (List.mem_cons_self _ _) hl
      exact ⟨(g, r) :: rest1, by
        simp [mergeGrouped, hl, hr, hrest, bind, Except.bind, pure, Except.pure]⟩

set_option maxRecDepth 8000

theorem mem_trace_of_indices_eq {T1 T2 : List (Nat × error)}
    (h : T1.map Prod.fst = T2.map Prod.fst) {k : Nat} {e : error} (hk : (k, e) ∈ T1) :
    ∃ e2, (k, e2) ∈ T2 := by
  have : k ∈ T2.map Prod.fst := by
    rw [← h]
    exact List.mem_map.2 ⟨(k, e), hk, rfl⟩
  obtain ⟨⟨k2, e2⟩, hmem, hfst⟩ := List.mem_map.1 this
  simp only at hfst
  subst hfst
  exact ⟨e2, hmem⟩

/-- What a returning `mergeRunningStats` over mergeable measures leaves at a
dispatched index: the reduce of the slot with the accumulator of the peer. -/
theorem mergeRunningStats_reduced {U : Utils} {fuel : Nat} {rr : RunningBucketResults}
    {rs rs1 tjs : List runningStats} {k : Nat} {e : error}
    (hms : ∀ m ∈ rr.currStats, mergeable m = true)
    (h : mergeRunningStats U fuel rr rs tjs = Except.ok rs1)
    (hd : (k, e) ∈ mergeRunningStatsTrace U fuel rr rs tjs) :
    ∃ m s t, rr.currStats[k]? = some m ∧ rs[k]? = some s ∧ tjs[k]? = some t ∧
      rs1[k]? = some (reduceSlot U m.MeasureFunc s t.rawVal) := by
  obtain ⟨s, m, t, hs, hm, ht, hr, _⟩ := mergeRunningStats_dispatched h hd
  refine ⟨m, s, t, hm, hs, ht, ?_⟩
  rw [hr, (mergeable_spec (hms m (List.getElem?_mem hm))).2.1]

theorem reduceInto_of_ok {U : Utils} {fn : AggregateFunctions} {a b r : CValueEnclosure}
    (h : U.Reduce a b fn = Except.ok r) : reduceInto U fn a b = r := by
  simp [reduceInto, h]

/-- On a domain where the reduce is defined, commutative and associative, the
two merge orders of three accumulators agree. -/
theorem reduceInto_rotate (U : Utils) (D : AggregateFunctions → CValueEnclosure → Prop)
    (hclosed : ∀ fn a b, D fn a → D fn b → ∃ r, U.Reduce a b fn = Except.ok r ∧ D fn r)
    (hcomm : ∀ fn a b, D fn a → D fn b → U.Reduce a b fn = U.Reduce b a fn)
    (hassoc : ∀ fn a b c ab bc, D fn a → D fn b → D fn c → U.Reduce a b fn = Except.ok ab →
      U.Reduce b c fn = Except.ok bc → U.Reduce ab c fn = U.Reduce a bc fn)
    (fn : AggregateFunctions) (a b c : CValueEnclosure) (ha : D fn a) (hb : D fn b)
    (hc : D fn c) :
    reduceInto U fn (reduceInto U fn a b) c = reduceInto U fn (reduceInto U fn b c) a := by
  obtain ⟨ab, hab, hDab⟩ := hclosed fn a b ha hb
  obtain ⟨bc, hbc, hDbc⟩ := hclosed fn b c hb hc
  obtain ⟨abc, habc, _⟩ := hclosed fn ab c hDab hc
  have h1 : U.Reduce bc a fn = Except.ok abc := by
    rw [← hcomm fn a bc ha hDbc, ← hassoc fn a b c ab bc ha hb hc hab hbc, habc]
  rw [reduceInto_of_ok hab, reduceInto_of_ok hbc, reduceInto_of_ok habc, reduceInto_of_ok h1]


/-- C2, as amended (associativity and commutativity of merge on the top-level
state). Let `A`, `B`, `C` be bucket states over the same measure list, without
grouped slots, with slot lists as long as the measure list; let every measure
be merged by a scalar reduce (no sketch merge) and every conditional
expression of a count, values or cardinality measure declare at least one
field; let the scalar reduce be defined, commutative and associative on a
domain `D` that holds the accumulators of the dispatched slots. Then merging
`B` then `C` into `A` and merging `C` then `A` into `B` return, with the same
count and the same accumulator in every slot the merge loop dispatches; a slot
it does not dispatch (a trailing position of a conditional expression with
several fields) keeps the slot of the receiver, `A` in one order and `B` in the
other. -/
theorem merge_assoc_comm (U : Utils) (fuel : Nat) (ms : List MeasureAggregator)
    (A B C : RunningBucketResults) (D : AggregateFunctions → CValueEnclosure → Prop)
    (hA : A.currStats = ms) (hB : B.currStats = ms)
    (hgA : A.groupedRunningStats = []) (hgB : B.groupedRunningStats = [])
    (hlA : A.runningStats.length = ms.length) (hlB : B.runningStats.length = ms.length)
    (hlC : C.runningStats.length = ms.length)
    (hms : ∀ m ∈ ms, mergeable m = true)
    (hclosed : ∀ fn a b, D fn a → D fn b → ∃ r, U.Reduce a b fn = Except.ok r ∧ D fn r)
    (hcomm : ∀ fn a b, D fn a → D fn b → U.Reduce a b fn = U.Reduce b a fn)
    (hassoc : ∀ fn a b c ab bc, D fn a → D fn b → D fn c → U.Reduce a b fn = Except.ok ab →
      U.Reduce b c fn = Except.ok bc → U.Reduce ab c fn = U.Reduce a bc fn)
    (hD : ∀ (k : Nat) (e : error) (m : MeasureAggregator) (s : runningStats),
      (k, e) ∈ mergeRunningStatsTrace U fuel A A.runningStats B.runningStats →
      ms[k]? = some m →
      A.runningStats[k]? = some s ∨ B.runningStats[k]? = some s ∨ C.runningStats[k]? = some s →
      D m.MeasureFunc s.rawVal)
    (hfuel : ms.length ≤ fuel) :
    ∃ AB r1 BC r2,
      MergeRunningBuckets U fuel A (some B) = Except.ok AB ∧
      MergeRunningBuckets U fuel AB (some C) = Except.ok r1 ∧
      MergeRunningBuckets U fuel B (some C) = Except.ok BC ∧
      MergeRunningBuckets U fuel BC (some A) = Except.ok r2 ∧
      r1.count = r2.count ∧
      (∀ (k : Nat) (e : error),
        (k, e) ∈ mergeRunningStatsTrace U fuel A A.runningStats B.runningStats →
        (r1.runningStats[k]?).map (fun s => s.rawVal) =
          (r2.runningStats[k]?).map (fun s => s.rawVal)) ∧
      (∀ k : Nat,
        (∀ e, (k, e) ∉ mergeRunningStatsTrace U fuel A A.runningStats B.runningStats) →
        r1.runningStats[k]? = A.runningStats[k]? ∧
          r2.runningStats[k]? = B.runningStats[k]?) := by
  subst hA
  have hmsB : ∀ m ∈ B.currStats, mergeable m = true := by rw [hB]; exact hms
  -- the four merges return
  obtain ⟨rsAB, hAB⟩ := mergeRunningStats_returns U fuel A A.runningStats B.runningStats hms hlA
    hlB hfuel
  have hlAB := mergeRunningStats_length hAB
  obtain ⟨rs1, h1⟩ := mergeRunningStats_returns U fuel
    { A with runningStats := rsAB, count := wrapU64 (A.count + B.count) } rsAB C.runningStats
    hms (by show rsAB.length = A.currStats.length; omega) hlC hfuel
  obtain ⟨rsBC, hBC⟩ := mergeRunningStats_returns U fuel B B.runningStats C.runningStats hmsB
    (by rw [hB]; exact hlB) (by rw [hB]; exact hlC) (by rw [hB]; exact hfuel)
  have hlBC := mergeRunningStats_length hBC
  obtain ⟨rs2, h2⟩ := mergeRunningStats_returns U fuel
    { B with runningStats := rsBC, count := wrapU64 (B.count + C.count) } rsBC A.runningStats
    hmsB (by show rsBC.length = B.currStats.length; rw [hB]; omega)
    (by show _ = B.currStats.length; rw [hB]; exact hlA)
    (by show B.currStats.length ≤ fuel; rw [hB]; exact hfuel)
  -- they dispatch the same indices
  have hI1 := mergeRunningStatsTrace_indices U fuel A
    { A with runningStats := rsAB, count := wrapU64 (A.count + B.count) }
    A.runningStats B.runningStats rsAB C.runningStats rsAB rs1 rfl (by omega) hAB h1
  have hI2 := mergeRunningStatsTrace_indices U fuel A B
    A.runningStats B.runningStats B.runningStats C.runningStats rsAB rsBC hB (by omega) hAB hBC
  have hI3 := mergeRunningStatsTrace_indices U fuel A
    { B with runningStats := rsBC, count := wrapU64 (B.count + C.count) }
    A.runningStats B.runningStats rsBC A.runningStats rsAB rs2 hB (by omega) hAB h2
  refine ⟨_, _, _, _, MergeRunningBuckets_top hgA hAB,
    @MergeRunningBuckets_top U fuel
      { A with runningStats := rsAB, count := wrapU64 (A.count + B.count) } C rs1 hgA h1,
    MergeRunningBuckets_top hgB hBC,
    @MergeRunningBuckets_top U fuel
      { B with runningStats := rsBC, count := wrapU64 (B.count + C.count) } A rs2 hgB h2,
    ?_, ?_, ?_⟩
  · show wrapU64 (wrapU64 (A.count + B.count) + C.count) =
      wrapU64 (wrapU64 (B.count + C.count) + A.count)
    unfold wrapU64
    omega
  · intro k e hk
    show (rs1[k]?).map (fun s => s.rawVal) = (rs2[k]?).map (fun s => s.rawVal)
    obtain ⟨e1, hk1⟩ := mem_trace_of_indices_eq hI1 hk
    obtain ⟨e2, hk2⟩ := mem_trace_of_indices_eq hI2 hk
    obtain ⟨e3, hk3⟩ := mem_trace_of_indices_eq hI3 hk
    obtain ⟨m, a, b, hm, ha, hb, hab⟩ := mergeRunningStats_reduced hms hAB hk
    obtain ⟨m1, ab, c, hm1, hab1, hc, hr1⟩ := @mergeRunningStats_reduced U fuel
      { A with runningStats := rsAB, count := wrapU64 (A.count + B.count) } _ _ _ _ _ hms h1 hk1
    obtain ⟨m2, b2, c2, hm2, hb2, hc2, hbc⟩ := mergeRunningStats_reduced hmsB hBC hk2
    obtain ⟨m3, bc, a3, hm3, hbc3, ha3, hr2⟩ := @mergeRunningStats_reduced U fuel
      { B with runningStats := rsBC, count := wrapU64 (B.count + C.count) } _ _ _ _ _ hmsB h2 hk3
    have hm1' : A.currStats[k]? = some m1 := hm1
    have hm3' : B.currStats[k]? = some m3 := hm3
    rw [hm] at hm1'; cases hm1'
    rw [hB, hm] at hm2; cases hm2
    rw [hB, hm] at hm3'; cases hm3'
    rw [hab] at hab1; cases hab1
    rw [hb] at hb2; cases hb2
    rw [hc] at hc2; cases hc2
    rw [hbc] at hbc3; cases hbc3
    rw [ha] at ha3; cases ha3
    rw [hr1, hr2]
    simp only [Option.map_some', reduceSlot, Option.some.injEq]
    exact reduceInto_rotate U D hclosed hcomm hassoc m.MeasureFunc a.rawVal b.rawVal c.rawVal
      (hD k e m a hk hm (Or.inl ha)) (hD k e m b hk hm (Or.inr (Or.inl hb)))
      (hD k e m c hk hm (Or.inr (Or.inr hc)))
  · intro k hk
    have hno : ∀ (T : List (Nat × error)),
        (mergeRunningStatsTrace U fuel A A.runningStats B.runningStats).map Prod.fst =
          T.map Prod.fst → ∀ e, (k, e) ∉ T := by
      intro T hT e he
      obtain ⟨e0, he0⟩ := mem_trace_of_indices_eq hT.symm he
      exact hk e0 he0
    constructor
    · show rs1[k]? = A.runningStats[k]?
      rw [mergeRunningStats_not_dispatched h1 (hno _ hI1),
        mergeRunningStats_not_dispatched hAB hk]
    · show rs2[k]? = B.runningStats[k]?
      rw [mergeRunningStats_not_dispatched h2 (hno _ hI3),
        mergeRunningStats_not_dispatched hBC (hno _ hI2)]


/-- C2, counterexample. Three buckets over a count with a two-field conditional
expression followed by a sum, each built by two adds; they differ in slot 1,
which the merge loop skips. No reduce errs (the only reduces add signed
counts), yet the two merge orders differ in slot 1: it is the slot of `A` in one
and the slot of `B` in the other. -/
theorem merge_assoc_comm_counterexample :
    ((skewBucket 5).toOption.map fun r => r.runningStats) =
        some [⟨signedNum 1, none⟩, ⟨unsignedNum 5, none⟩] ∧
      ((skewBucket 7).toOption.map fun r => r.runningStats) =
        some [⟨signedNum 1, none⟩, ⟨unsignedNum 7, none⟩] ∧
      ((skewBucket 9).toOption.map fun r => r.runningStats) =
        some [⟨signedNum 1, none⟩, ⟨unsignedNum 9, none⟩] ∧
      mergeRunningStatsTrace specUtils 2 (skewState 5) (skewState 5).runningStats
        (skewState 7).runningStats = [(0, none)] ∧
      ((mergeThree specUtils 2 (skewState 5) (skewState 7) (skewState 9)).toOption.map
        fun r => r.runningStats) = some [⟨signedNum 3, none⟩, ⟨unsignedNum 5, none⟩] ∧
      ((mergeThree specUtils 2 (skewState 7) (skewState 9) (skewState 5)).toOption.map
        fun r => r.runningStats) = some [⟨signedNum 3, none⟩, ⟨unsignedNum 7, none⟩] := by
  decide

theorem merge_assoc_comm_witness :
    ∃ AB r1 BC r2,
      MergeRunningBuckets specUtils 2 (skewState 5) (some (skewState 7)) = Except.ok AB ∧
      MergeRunningBuckets specUtils 2 AB (some (skewState 9)) = Except.ok r1 ∧
      MergeRunningBuckets specUtils 2 (skewState 7) (some (skewState 9)) = Except.ok BC ∧
      MergeRunningBuckets specUtils 2 BC (some (skewState 5)) = Except.ok r2 ∧
      r1.count = r2.count ∧
      (r1.runningStats[0]?).map (fun s => s.rawVal) =
        (r2.runningStats[0]?).map (fun s => s.rawVal) ∧
      r1.runningStats[1]? = (skewState 5).runningStats[1]? ∧
      r2.runningStats[1]? = (skewState 7).runningStats[1]? := by
  have ht : mergeRunningStatsTrace specUtils 2 (skewState 5) (skewState 5).runningStats
      (skewState 7).runningStats = [(0, none)] := by decide
  obtain ⟨AB, r1, BC, r2, h1, h2, h3, h4, hc, hd, hn⟩ :=
    merge_assoc_comm specUtils 2 skewMeasures (skewState 5) (skewState 7) (skewState 9)
      (fun fn a => fn = AggregateFunctions.Count ∧ hasKind NumKind.signed a = true)
      rfl rfl rfl rfl rfl rfl rfl (by decide)
      (by
        rintro fn ⟨d, x⟩ ⟨d2, y⟩ ⟨rfl, ha⟩ ⟨_, hb⟩
        cases d <;> cases x <;> simp [hasKind] at ha
        cases d2 <;> cases y <;> simp [hasKind] at hb
        simp [specUtils, specReduce, hasKind])
      (by
        rintro fn ⟨d, x⟩ ⟨d2, y⟩ ⟨rfl, ha⟩ ⟨_, hb⟩
        cases d <;> cases x <;> simp [hasKind] at ha
        cases d2 <;> cases y <;> simp [hasKind] at hb
        simp [specUtils, specReduce, Int.add_comm])
      (by
        rintro fn ⟨d, x⟩ ⟨d2, y⟩ ⟨d3, z⟩ ab bc ⟨rfl, ha⟩ ⟨_, hb⟩ ⟨_, hc⟩ hab hbc
        cases d <;> cases x <;> simp [hasKind] at ha
        cases d2 <;> cases y <;> simp [hasKind] at hb
        cases d3 <;> cases z <;> simp [hasKind] at hc
        simp only [specUtils, specReduce, ne_eq, not_true_eq_false, if_false,
          Except.ok.injEq] at hab hbc
        subst hab
        subst hbc
        simp [specUtils, specReduce, wrapI64_add_assoc])
      (by
        intro k e m s hk hm hs
        rw [ht] at hk
        simp only [List.mem_singleton, Prod.mk.injEq] at hk
        obtain ⟨rfl, _⟩ := hk
        have hm0 : m = ⟨AggregateFunctions.Count, some exprAGtB⟩ := by
          simpa [skewMeasures] using hm.symm
        subst hm0
        have hs0 : s = ⟨signedNum 1, none⟩ := by
          rcases hs with hs | hs | hs <;> exact (Option.some.inj hs).symm
        subst hs0
        exact ⟨rfl, rfl⟩)
      (by decide)
  refine ⟨AB, r1, BC, r2, h1, h2, h3, h4, hc, hd 0 none (by rw [ht]; simp), hn 1 ?_⟩
  intro e he
  rw [ht] at he
  simp at he

/-- What a run of returning calls that dispatch a conditional count leaves: on
a fresh bucket whose measure at index `i` is a count with conditional
expression `P`, after a run of `n ≥ 1` calls on which `P` evaluates without
error, the accumulator of slot `i` is the signed integer `k`, the number of
calls on which `P` evaluated to true (as an `int64`, so `k` itself below
`2^63`). -/
theorem AddRun_conditional_count (U : Utils) (fuel : Nat) (ms : List MeasureAggregator)
    (i : Nat) (P : ValueExpr) (calls : List AddCall) (rr1 : RunningBucketResults)
    (hm : ms[i]? = some { MeasureFunc := AggregateFunctions.Count, ValueColRequest := some P })
    (hrun : AddRun U fuel i (initRunningGroupByBucket ms) calls rr1)
    (hne : calls ≠ [])
    (hP : ∀ c ∈ calls, ∃ b, condBool P c.measureResults i = some (Except.ok b)) :
    (rr1.runningStats[i]?).map (fun s => s.rawVal) =
        some { Dtype := SS_DTYPE.SS_DT_SIGNED_NUM
               CVal := CVal.int64
                 (wrapI64 (calls.countP (fun c => condTrue P c.measureResults i) : Nat)) } ∧
      (calls.countP (fun c => condTrue P c.measureResults i) < 2 ^ 63 →
        (rr1.runningStats[i]?).map (fun s => s.rawVal) =
          some { Dtype := SS_DTYPE.SS_DT_SIGNED_NUM
                 CVal := CVal.int64
                   (calls.countP (fun c => condTrue P c.measureResults i) : Nat) }) := by
  have main : rr1.runningStats[i]? =
      some (countedSlot (calls.countP (fun c => condTrue P c.measureResults i))) := by
    cases hrun with
    | done => exact absurd rfl hne
    | call _ rrm _ c rest e hcall hd hrest =>
      obtain ⟨hadd, hcs, _, _⟩ := AddMeasureResultsTop_inv hcall
      obtain ⟨slot, m, hs, hm1, hr, _⟩ := AddMeasureResults_dispatched hadd hd
      have hm0 : (initRunningGroupByBucket ms).currStats = ms := rfl
      rw [hm0, hm] at hm1; cases hm1
      have hz : (initRunningGroupByBucket ms).runningStats[i]? = some runningStats.zero :=
        initRunningStats_getElem? ms i _ hm (by simp)
      rw [hz] at hs; cases hs
      obtain ⟨b, hb⟩ := hP c (List.mem_cons_self _ _)
      have hslot : addSlot U
          { MeasureFunc := AggregateFunctions.Count, ValueColRequest := some P }
          c.measureResults c.cnt c.usedByTimechart i runningStats.zero =
          countedSlot (if b then 1 else 0) := by
        simp only [addSlot, countSlot, hb]
        exact countStep_zero b
      rw [hslot] at hr
      have := AddRun_count hrest (P := P) (by rw [hcs, hm0]; exact hm)
        (fun c hc => hP c (List.mem_cons_of_mem _ hc)) _ hr
      rw [this]
      have hct : condTrue P c.measureResults i = b := by
        cases b <;> simp [condTrue, hb]
      rw [List.countP_cons, hct]
      cases b
      · simp
      · simp only [if_true, Nat.add_comm 1]
  refine ⟨by rw [main]; rfl, fun hk => ?_⟩
  rw [main]
  simp [countedSlot, wrapI64_of_lt _ hk]

/-- C5, counterexample. A sum measure whose conditional expression declares two
fields: its handler returns an error and index 1 is dispatched as a measure of
its own, by `AddMeasureResults` (which writes slot 1) and by
`mergeRunningStats`. -/
theorem index_skip_counterexample :
    (AddMeasureResultsTrace specUtils 2
        (initRunningGroupByBucket [⟨AggregateFunctions.Sum, some exprAGtB⟩,
          ⟨AggregateFunctions.Sum, none⟩])
        [runningStats.zero, runningStats.zero] [unsignedNum 5, unsignedNum 1] 3 false).map
        Prod.fst = [0, 1] ∧
      ((AddMeasureResultsTop specUtils 2
        (initRunningGroupByBucket [⟨AggregateFunctions.Sum, some exprAGtB⟩,
          ⟨AggregateFunctions.Sum, none⟩])
        [unsignedNum 5, unsignedNum 1] 0 3 false).toOption.map fun r => r.runningStats) =
        some [runningStats.zero, ⟨unsignedNum 1, none⟩] ∧
      (mergeRunningStatsTrace specUtils 2
        (initRunningGroupByBucket [⟨AggregateFunctions.Sum, some exprAGtB⟩,
          ⟨AggregateFunctions.Sum, none⟩])
        [runningStats.zero, runningStats.zero]
        [⟨unsignedNum 5, none⟩, ⟨unsignedNum 1, none⟩]).map Prod.fst = [0, 1] := by
  decide

/-- C5, as amended (index skip). Let the measure at index `i` be a count, a
values or a cardinality measure with a conditional expression that declares `f`
fields (`f = 2` in the claim). When a returning `AddMeasureResults` dispatches
`i` and the handler returns no error, and whenever a returning
`mergeRunningStats` dispatches `i`, no index `j` with `i < j < i + f` is
dispatched by that call and slot `j` is left unchanged. -/
theorem index_skip (U : Utils) (fuel : Nat) (rr : RunningBucketResults) (i j : Nat)
    (m : MeasureAggregator) (vcr : ValueExpr)
    (hm : rr.currStats[i]? = some m) (hv : m.ValueColRequest = some vcr)
    (hsk : skipsFields m = true) (hij : i < j) (hjf : j < i + vcr.GetFields.length) :
    (∀ (rs rs1 : List runningStats) (rr1 : RunningBucketResults)
        (mr : List CValueEnclosure) (qid cnt : Nat) (utc : Bool),
        AddMeasureResults U fuel rr rs mr qid cnt utc = Except.ok (rs1, rr1) →
        (i, none) ∈ AddMeasureResultsTrace U fuel rr rs mr cnt utc →
        (∀ e, (j, e) ∉ AddMeasureResultsTrace U fuel rr rs mr cnt utc) ∧ rs1[j]? = rs[j]?) ∧
      (∀ (rs rs1 tjs : List runningStats) (e : error),
        mergeRunningStats U fuel rr rs tjs = Except.ok rs1 →
        (i, e) ∈ mergeRunningStatsTrace U fuel rr rs tjs →
        (∀ e2, (j, e2) ∉ mergeRunningStatsTrace U fuel rr rs tjs) ∧ rs1[j]? = rs[j]?) := by
  constructor
  · intro rs rs1 rr1 mr qid cnt utc h hd
    obtain ⟨slot, m1, _, hm1, _, _, _, hstep, hall⟩ := AddMeasureResults_dispatched h hd
    rw [hm] at hm1; cases hm1
    have hst := hstep rfl vcr hv hsk
    have hno : ∀ e, (j, e) ∉ AddMeasureResultsTrace U fuel rr rs mr cnt utc := by
      intro e he
      rcases hall j e he with h1 | h1 | h1
      · omega
      · omega
      · rw [hst] at h1; omega
    exact ⟨hno, AddMeasureResults_not_dispatched h hno⟩
  · intro rs rs1 tjs e h hd
    obtain ⟨slot, m1, tj, _, hm1, _, _, _, hall⟩ := mergeRunningStats_dispatched h hd
    rw [hm] at hm1; cases hm1
    have hst : mergeStep m = (vcr.GetFields.length : Int) - 1 := by
      unfold skipsFields at hsk
      unfold mergeStep
      cases hfn : m.MeasureFunc <;> simp [hfn, hv] at hsk ⊢
    have hno : ∀ e2, (j, e2) ∉ mergeRunningStatsTrace U fuel rr rs tjs := by
      intro e2 he
      rcases hall j e2 he with h1 | h1 | h1
      · omega
      · omega
      · rw [hst] at h1; omega
    exact ⟨hno, mergeRunningStats_not_dispatched h hno⟩

theorem index_skip_witness :
    ((∀ e, (1, e) ∉ AddMeasureResultsTrace specUtils 2
          (initRunningGroupByBucket [⟨AggregateFunctions.Count, some exprAGtB⟩,
            ⟨AggregateFunctions.Sum, none⟩])
          [runningStats.zero, runningStats.zero] [unsignedNum 5, unsignedNum 1] 3 false) ∧
      (resultOr [] (Except.map Prod.fst (AddMeasureResults specUtils 2
          (initRunningGroupByBucket [⟨AggregateFunctions.Count, some exprAGtB⟩,
            ⟨AggregateFunctions.Sum, none⟩])
          [runningStats.zero, runningStats.zero] [unsignedNum 5, unsignedNum 1] 0 3 false)))[1]? =
        [runningStats.zero, runningStats.zero][1]?) ∧
    ((∀ e2, (1, e2) ∉ mergeRunningStatsTrace specUtils 2
          (initRunningGroupByBucket [⟨AggregateFunctions.Count, some exprAGtB⟩,
            ⟨AggregateFunctions.Sum, none⟩])
          [⟨signedNum 1, none⟩, runningStats.zero] [⟨signedNum 2, none⟩, ⟨unsignedNum 7, none⟩]) ∧
      (resultOr [] (mergeRunningStats specUtils 2
          (initRunningGroupByBucket [⟨AggregateFunctions.Count, some exprAGtB⟩,
            ⟨AggregateFunctions.Sum, none⟩])
          [⟨signedNum 1, none⟩, runningStats.zero]
          [⟨signedNum 2, none⟩, ⟨unsignedNum 7, none⟩]))[1]? =
        [⟨signedNum 1, none⟩, runningStats.zero][1]?) :=
  ⟨(index_skip specUtils 2
      (initRunningGroupByBucket [⟨AggregateFunctions.Count, some exprAGtB⟩,
        ⟨AggregateFunctions.Sum, none⟩]) 0 1 ⟨AggregateFunctions.Count, some exprAGtB⟩ exprAGtB
      rfl rfl rfl (by decide) (by decide)).1 _ _ _ _ 0 3 false rfl (by decide),
   (index_skip specUtils 2
      (initRunningGroupByBucket [⟨AggregateFunctions.Count, some exprAGtB⟩,
        ⟨AggregateFunctions.Sum, none⟩]) 0 1 ⟨AggregateFunctions.Count, some exprAGtB⟩ exprAGtB
      rfl rfl rfl (by decide) (by decide)).2 _ _ _ none rfl (by decide)⟩

/-- C6, counterexample. A values measure on a still-empty accumulator whose
expression fails to evaluate to a string: the handler returns an error (it is
the one entry of the trace), the call returns, and slot 0 has changed from the
empty accumulator to the empty set of strings. -/
theorem unchanged_on_error_counterexample :
    AddMeasureResultsTrace specUtils 1
        (initRunningGroupByBucket [⟨AggregateFunctions.Values, some exprYGt10⟩])
        [runningStats.zero] [unsignedNum 5] 3 false =
        [(0, some "AddEvalResultsForValuesOrCardinality: there are some errors in the eval function that is inside the count function")] ∧
      (initRunningGroupByBucket [⟨AggregateFunctions.Values, some exprYGt10⟩]).runningStats =
        [runningStats.zero] ∧
      ((AddMeasureResultsTop specUtils 1
        (initRunningGroupByBucket [⟨AggregateFunctions.Values, some exprYGt10⟩])
        [unsignedNum 5] 0 3 false).toOption.map fun r => r.runningStats) =
        some [⟨⟨SS_DTYPE.SS_DT_STRING_SET, CVal.stringSet ∅⟩, none⟩] ∧
      (⟨⟨SS_DTYPE.SS_DT_STRING_SET, CVal.stringSet ∅⟩, none⟩ : runningStats) ≠
        runningStats.zero := by
  decide

/-- C6, as amended (slot after a handler error). For every bucket state, every
input vector and every index `i` whose handler returns an error during a
returning `AddMeasureResults`, slot `i` after the call is slot `i` before the
call, except that the handler of a values measure, or of a cardinality measure
with a conditional expression, has by then replaced an empty accumulator by the
empty set of strings (`valuesInit`); the sketch is unchanged in every case. -/
theorem slot_after_handler_error (U : Utils) (fuel : Nat) (rr rr1 : RunningBucketResults)
    (mr : List CValueEnclosure) (qid cnt : Nat) (utc : Bool) (i : Nat) (msg : String)
    (slot : runningStats) (m : MeasureAggregator)
    (h : AddMeasureResultsTop U fuel rr mr qid cnt utc = Except.ok rr1)
    (hd : (i, some msg) ∈ AddMeasureResultsTrace U fuel rr rr.runningStats mr cnt utc)
    (hs : rr.runningStats[i]? = some slot) (hm : rr.currStats[i]? = some m) :
    rr1.runningStats[i]? = some (if usesStringSet m then valuesInit slot else slot) ∧
      (usesStringSet m = false ∨ slot.rawVal.CVal ≠ CVal.nil →
        rr1.runningStats[i]? = some slot) ∧
      (rr1.runningStats[i]?).map (fun s => s.hll) = some slot.hll := by
  obtain ⟨slot1, m1, hs1, hm1, hr, _, herr, _⟩ :=
    AddMeasureResults_dispatched (AddMeasureResultsTop_inv h).1 hd
  rw [hs] at hs1; cases hs1
  rw [hm] at hm1; cases hm1
  rw [herr (by simp)] at hr
  refine ⟨hr, ?_, ?_⟩
  · intro hcase
    rw [hr]
    rcases hcase with hc | hc
    · simp [hc]
    · have : valuesInit slot = slot := by
        unfold valuesInit
        cases hcv : slot.rawVal.CVal <;> simp_all
      simp [this]
  · rw [hr]
    cases usesStringSet m
    · simp
    · simp only [if_true, Option.map_some', Option.some.injEq]
      unfold valuesInit
      cases slot.rawVal.CVal <;> rfl

theorem slot_after_handler_error_witness :
    (resultOr initRunningTimeBucket
        (AddMeasureResultsTop specUtils 1 sumBucket4 [stringVal "x"] 0 3 false)).runningStats[0]? =
      some (⟨unsignedNum 4, none⟩ : runningStats) :=
  (slot_after_handler_error specUtils 1 sumBucket4 _ [stringVal "x"] 0 3 false 0
    "ProcessReduce: failed to add measurement to running stats"
    ⟨unsignedNum 4, none⟩ ⟨AggregateFunctions.Sum, none⟩ rfl (by decide) rfl rfl).1

theorem MergeRunningBuckets_inv {U : Utils} {fuel : Nat} {rr peer rr1 : RunningBucketResults}
    (h : MergeRunningBuckets U fuel rr (some peer) = Except.ok rr1) :
    ∃ grouped rs,
      (if rr.groupedRunningStats.length > 0 then
          mergeGrouped U fuel rr peer.groupedRunningStats rr.groupedRunningStats
        else Except.ok rr.groupedRunningStats) = Except.ok grouped ∧
      mergeRunningStats U fuel rr rr.runningStats peer.runningStats = Except.ok rs ∧
      rr1 = { rr with
        groupedRunningStats := grouped
        runningStats := rs
        count := wrapU64 (rr.count + peer.count) } := by
  unfold MergeRunningBuckets at h
  simp only [bind, Except.bind, pure, Except.pure] at h
  by_cases hlen : rr.groupedRunningStats.length > 0
  · simp only [hlen, if_true] at h ⊢
    cases hg : mergeGrouped U fuel rr peer.groupedRunningStats rr.groupedRunningStats with
    | error f => simp [hg] at h
    | ok grouped =>
      simp only [hg] at h
      cases hr : mergeRunningStats U fuel rr rr.runningStats peer.runningStats with
      | error f => simp [hr] at h
      | ok rs =>
        simp only [hr, Except.ok.injEq] at h
        exact ⟨grouped, rs, rfl, rfl, h.symm⟩
  · simp only [hlen, if_false] at h ⊢
    cases hr : mergeRunningStats U fuel rr rr.runningStats peer.runningStats with
    | error f => simp [hr] at h
    | ok rs =>
      simp only [hr, Except.ok.injEq] at h
      exact ⟨rr.groupedRunningStats, rs, rfl, rfl, h.symm⟩

theorem MergeRunningBuckets_count {U : Utils} {fuel : Nat} {rr peer rr1 : RunningBucketResults}
    (h : MergeRunningBuckets U fuel rr (some peer) = Except.ok rr1) :
    rr1.count = wrapU64 (rr.count + peer.count) ∧ rr1.currStats = rr.currStats := by
  obtain ⟨grouped, rs, _, _, h1⟩ := MergeRunningBuckets_inv h
  subst h1
  exact ⟨rfl, rfl⟩

theorem MergeRunningBuckets_nil (U : Utils) (fuel : Nat) (rr : RunningBucketResults) :
    MergeRunningBuckets U fuel rr none = Except.ok rr := rfl

theorem Built_count {U : Utils} {fuel : Nat} {rr : RunningBucketResults} {total : Nat}
    (h : Built U fuel rr total) : rr.count = total % 2 ^ 64 := by
  induction h with
  | fresh ms => rfl
  | freshTime => rfl
  | add rr rr1 total mr qid cnt utc _ hcall ih =>
    rw [(AddMeasureResultsTop_inv hcall).2.2.2, ih]
    unfold wrapU64
    omega
  | addTime rr total c _ ih =>
    simp only [AddTimeToBucketStats, ih]
    unfold wrapU64
    omega
  | merge rr peer rr1 total peerTotal _ _ hcall ih ihp =>
    rw [(MergeRunningBuckets_count hcall).1, ih, ihp]
    unfold wrapU64
    omega
  | mergeNil rr rr1 total _ hcall ih =>
    rw [MergeRunningBuckets_nil] at hcall
    cases hcall
    exact ih

/-- C7 (totalCount accounting). Every returning `AddMeasureResults` with row
count `cnt` sets `count` to the old count plus `cnt`, `AddTimeToBucketStats c`
to the old count plus `c`, and every returning `MergeRunningBuckets` with a
non-nil peer to the old count plus the peer's count, all in `uint64`
arithmetic and whatever the handlers returned. Hence in a state built from a
fresh bucket by adds and merges `count` is the sum `total` of the row counts
folded in, directly or through merged peers, modulo `2^64`; it is `total`
itself while `total < 2^64`, and then no further add or merge decreases it. -/
theorem totalCount_accounting (U : Utils) (fuel : Nat) :
    (∀ (rr rr1 : RunningBucketResults) (mr : List CValueEnclosure) (qid cnt : Nat)
        (utc : Bool), AddMeasureResultsTop U fuel rr mr qid cnt utc = Except.ok rr1 →
        rr1.count = wrapU64 (rr.count + cnt)) ∧
      (∀ (rr : RunningBucketResults) (rs rs1 : List runningStats) (rr1 : RunningBucketResults)
        (mr : List CValueEnclosure) (qid cnt : Nat) (utc : Bool),
        AddMeasureResults U fuel rr rs mr qid cnt utc = Except.ok (rs1, rr1) →
        rr1.count = wrapU64 (rr.count + cnt)) ∧
      (∀ (rr : RunningBucketResults) (c : Nat),
        (AddTimeToBucketStats rr c).count = wrapU64 (rr.count + c)) ∧
      (∀ (rr peer rr1 : RunningBucketResults),
        MergeRunningBuckets U fuel rr (some peer) = Except.ok rr1 →
        rr1.count = wrapU64 (rr.count + peer.count)) ∧
      (∀ (rr : RunningBucketResults) (total : Nat), Built U fuel rr total →
        rr.count = total % 2 ^ 64 ∧ (total < 2 ^ 64 → rr.count = total)) ∧
      (∀ (rr rr1 : RunningBucketResults) (total total1 : Nat), Built U fuel rr total →
        Built U fuel rr1 total1 → total ≤ total1 → total1 < 2 ^ 64 → rr.count ≤ rr1.count) := by
  refine ⟨?_, ?_, ?_, ?_, ?_, ?_⟩
  · intro rr rr1 mr qid cnt utc h
    exact (AddMeasureResultsTop_inv h).2.2.2
  · intro rr rs rs1 rr1 mr qid cnt utc h
    rw [(AddMeasureResults_frame h).2]
  · intro rr c
    rfl
  · intro rr peer rr1 h
    exact (MergeRunningBuckets_count h).1
  · intro rr total h
    have := Built_count h
    exact ⟨this, fun hlt => by rw [this]; exact Nat.mod_eq_of_lt hlt⟩
  · intro rr rr1 total total1 h h1 hle hlt
    rw [Built_count h, Built_count h1, Nat.mod_eq_of_lt hlt, Nat.mod_eq_of_lt (by omega)]
    exact hle

/-- C7 on the blocks of the spec scenario: a fresh bucket over `sum(x)`, a
block of three rows, then a merge with a peer that received a block of two
rows, holds a count of five. -/
theorem totalCount_accounting_witness :
    (resultOr initRunningTimeBucket
      (do
        let a ← AddMeasureResultsTop specUtils 1
          (initRunningGroupByBucket [⟨AggregateFunctions.Sum, none⟩]) [unsignedNum 5] 0 3 false
        let b ← AddMeasureResultsTop specUtils 1
          (initRunningGroupByBucket [⟨AggregateFunctions.Sum, none⟩]) [unsignedNum 9] 0 2 false
        MergeRunningBuckets specUtils 1 a (some b))).count = 5 :=
  ((totalCount_accounting specUtils 1).2.2.2.2.1 _ (0 + 3 + (0 + 2))
    (Built.merge _ _ _ _ _
      (Built.add _ _ _ [unsignedNum 5] 0 3 false
        (Built.fresh [⟨AggregateFunctions.Sum, none⟩]) rfl)
      (Built.add _ _ _ [unsignedNum 9] 0 2 false
        (Built.fresh [⟨AggregateFunctions.Sum, none⟩]) rfl)
      rfl)).2 (by decide)

/-- C8, counterexample. In the spec scenario the count accumulator is the
signed 0, not 1: `y > 10` is evaluated on `y = 1` in the first block and on
`y = 0` in the second, and is false on both. -/
theorem spec_scenario_counterexample :
    (scenarioRun.toOption.map fun r => (r.runningStats.map fun s => s.rawVal)[1]?) =
        some (some (signedNum 0)) ∧
      (scenarioRun.toOption.map fun r => (r.runningStats.map fun s => s.rawVal)[1]?) ≠
        some (some (signedNum 1)) ∧
      (scenarioRun.toOption.map fun r => (r.runningStats.map fun s => s.rawVal)[1]?) ≠
        some (some (unsignedNum 1)) := by
  decide

/-- C8, as amended (spec scenario). On a fresh bucket over `[sum(x), count()
where y>10, cardinality(z)]`, after `AddMeasureResults` with `rawValues = [5, 1,
42]`, `rowCount = 3` and then with `rawValues = [9, 0, 42]`, `rowCount = 2`
(`usedByTimechart = false`, the spec's reduce), both calls return, the sum
accumulator is 14, the count accumulator is the signed 0 (no block has
`y > 10`), the sketch of the cardinality slot holds the one hash 42 (estimate
1) with its scalar accumulator still empty, and `count` is 5. -/
theorem spec_scenario :
    (scenarioRun.toOption.map fun r => r.runningStats) =
        some [⟨unsignedNum 14, none⟩, ⟨signedNum 0, none⟩, ⟨CValueEnclosure.zero, some {42}⟩] ∧
      (scenarioRun.toOption.map fun r => r.runningStats.map fun s => s.hll.map Finset.card) =
        some [none, none, some 1] ∧
      (scenarioRun.toOption.map fun r => r.count) = some 5 := by
  decide

theorem initRunningStats_rawVal (ms : List MeasureAggregator) (i : Nat)
    (m : MeasureAggregator) (hm : ms[i]? = some m) :
    ∃ slot, (initRunningStats ms)[i]? = some slot ∧ slot.rawVal = CValueEnclosure.zero := by
  unfold initRunningStats
  rw [List.getElem?_map, hm]
  simp only [Option.map_some', Option.some.injEq, exists_eq_left']
  cases m.MeasureFunc <;> rfl

theorem valuesInsert_zero (s : String) (slot : runningStats)
    (h : slot.rawVal = CValueEnclosure.zero) :
    (valuesInsert s slot).rawVal =
      { Dtype := SS_DTYPE.SS_DT_STRING_SET, CVal := CVal.stringSet {s} } := by
  simp [valuesInsert, valuesInit, h, CValueEnclosure.zero]

theorem valuesInsert_set (s : String) (slot : runningStats) (S : Finset String)
    (h : slot.rawVal = { Dtype := SS_DTYPE.SS_DT_STRING_SET, CVal := CVal.stringSet S }) :
    (valuesInsert s slot).rawVal =
      { Dtype := SS_DTYPE.SS_DT_STRING_SET, CVal := CVal.stringSet (insert s S) } := by
  simp [valuesInsert, valuesInit, h]

theorem addSlot_values {U : Utils} {m : MeasureAggregator} {mr : List CValueEnclosure}
    {cnt : Nat} {utc : Bool} {i : Nat} {slot : runningStats} {s : String}
    (hu : usesStringSet m = true) (hs : valuesString U m mr i = some (Except.ok s)) :
    addSlot U m mr cnt utc i slot = valuesInsert s slot := by
  unfold usesStringSet at hu
  unfold addSlot
  cases hfn : m.MeasureFunc <;> cases hv : m.ValueColRequest <;>
    simp [hfn, hv] at hu ⊢ <;> simp [valuesSlot, hs]

theorem AddRun_values {U : Utils} {fuel i : Nat} {m : MeasureAggregator}
    {rr rr1 : RunningBucketResults} {calls : List AddCall}
    (hrun : AddRun U fuel i rr calls rr1) :
    rr.currStats[i]? = some m → usesStringSet m = true →
    (∀ c ∈ calls, ∃ s, valuesString U m c.measureResults i = some (Except.ok s)) →
    ∀ slot S, rr.runningStats[i]? = some slot →
      slot.rawVal = { Dtype := SS_DTYPE.SS_DT_STRING_SET, CVal := CVal.stringSet S } →
      (rr1.runningStats[i]?).map (fun s => s.rawVal) =
        some { Dtype := SS_DTYPE.SS_DT_STRING_SET
               CVal := CVal.stringSet
                 (S ∪ (calls.filterMap fun c => extractedString U m c.measureResults i).toFinset) } := by
  induction hrun with
  | done rr => intro _ _ _ slot S hs hS; simp [hs, hS]
  | call rr rr1 rr2 c calls e hcall hd _ ih =>
    intro hm hu hP slot S hs hS
    obtain ⟨hadd, hcs, _, _⟩ := AddMeasureResultsTop_inv hcall
    obtain ⟨slot1, m1, hs1, hm1, hr, _⟩ := AddMeasureResults_dispatched hadd hd
    rw [hm] at hm1; cases hm1
    rw [hs] at hs1; cases hs1
    obtain ⟨s, hsv⟩ := hP c (List.mem_cons_self _ _)
    rw [addSlot_values hu hsv] at hr
    have := ih (by rw [hcs]; exact hm) hu (fun c hc => hP c (List.mem_cons_of_mem _ hc)) _ _ hr
      (valuesInsert_set s slot S hS)
    rw [this]
    have hex : extractedString U m c.measureResults i = some s := by
      simp [extractedString, hsv]
    simp only [List.filterMap_cons, hex, List.toFinset_cons]
    congr 3
    ext x
    simp only [Finset.mem_union, Finset.mem_insert]
    tauto

/-- What a run of returning calls that dispatch a measure keeping a set of
strings leaves: on a fresh bucket whose measure at index `i` is a values
measure or a cardinality measure with a conditional expression, after a run of
`n ≥ 1` calls whose string extraction succeeds, the accumulator of slot `i` is
the set of exactly the strings the calls produced, and its size is the number
of distinct strings among them. -/
theorem AddRun_distinct_set (U : Utils) (fuel : Nat) (ms : List MeasureAggregator)
    (i : Nat) (m : MeasureAggregator) (calls : List AddCall) (rr1 : RunningBucketResults)
    (hm : ms[i]? = some m) (hu : usesStringSet m = true)
    (hrun : AddRun U fuel i (initRunningGroupByBucket ms) calls rr1)
    (hne : calls ≠ [])
    (hS : ∀ c ∈ calls, ∃ s, valuesString U m c.measureResults i = some (Except.ok s)) :
    (rr1.runningStats[i]?).map (fun s => s.rawVal) =
        some { Dtype := SS_DTYPE.SS_DT_STRING_SET
               CVal := CVal.stringSet
                 (calls.filterMap fun c => extractedString U m c.measureResults i).toFinset } ∧
      (∀ x, x ∈ (calls.filterMap fun c => extractedString U m c.measureResults i).toFinset ↔
        ∃ c ∈ calls, valuesString U m c.measureResults i = some (Except.ok x)) ∧
      (calls.filterMap fun c => extractedString U m c.measureResults i).toFinset.card =
        (calls.filterMap fun c => extractedString U m c.measureResults i).dedup.length := by
  refine ⟨?_, ?_, List.card_toFinset _⟩
  · cases hrun with
    | done => exact absurd rfl hne
    | call _ rrm _ c rest e hcall hd hrest =>
      obtain ⟨hadd, hcs, _, _⟩ := AddMeasureResultsTop_inv hcall
      obtain ⟨slot, m1, hs, hm1, hr, _⟩ := AddMeasureResults_dispatched hadd hd
      have hm0 : (initRunningGroupByBucket ms).currStats = ms := rfl
      rw [hm0, hm] at hm1; cases hm1
      obtain ⟨slot0, hz, hraw⟩ := initRunningStats_rawVal ms i _ hm
      have hz0 : (initRunningGroupByBucket ms).runningStats[i]? = some slot0 := hz
      rw [hz0] at hs; cases hs
      obtain ⟨s, hsv⟩ := hS c (List.mem_cons_self _ _)
      rw [addSlot_values hu hsv] at hr
      have := AddRun_values hrest (m := m) (by rw [hcs, hm0]; exact hm) hu
        (fun c hc => hS c (List.mem_cons_of_mem _ hc)) _ _ hr (valuesInsert_zero s slot hraw)
      rw [this]
      have hex : extractedString U m c.measureResults i = some s := by
        simp [extractedString, hsv]
      simp only [List.filterMap_cons, hex, List.toFinset_cons]
      congr 3
  · intro x
    simp only [List.mem_toFinset, List.mem_filterMap]
    constructor
    · rintro ⟨c, hc, hx⟩
      refine ⟨c, hc, ?_⟩
      obtain ⟨s, hsv⟩ := hS c hc
      simp only [extractedString, hsv, Option.some.injEq] at hx
      rw [hsv, hx]
    · rintro ⟨c, hc, hx⟩
      exact ⟨c, hc, by simp [extractedString, hx]⟩

theorem mem_of_lookup {β : Type} :
    ∀ (l : List (String × β)) (key : String) (v : β), l.lookup key = some v → (key, v) ∈ l := by
  intro l
  induction l with
  | nil => intro key v h; simp at h
  | cons entry rest ih =>
    intro key v h
    obtain ⟨g, w⟩ := entry
    by_cases hkg : key = g
    · subst hkg
      simp only [List.lookup_cons, beq_self_eq_true, Option.some.injEq] at h
      subst h
      exact List.mem_cons_self _ _
    · have hne : (key == g) = false := by simpa using hkg
      simp only [List.lookup_cons, hne] at h
      exact List.mem_cons_of_mem _ (ih key v h)

/-- `MergeRunningBuckets` from the result of its two steps. -/
theorem MergeRunningBuckets_of {U : Utils} {fuel : Nat} {rr peer : RunningBucketResults}
    {out : List (String × List runningStats)} {rs1 : List runningStats}
    (hg : mergeGrouped U fuel rr peer.groupedRunningStats rr.groupedRunningStats = Except.ok out)
    (h : mergeRunningStats U fuel rr rr.runningStats peer.runningStats = Except.ok rs1) :
    MergeRunningBuckets U fuel rr (some peer) =
      Except.ok { rr with groupedRunningStats := out, runningStats := rs1, count := wrapU64 (rr.count + peer.count) } := by
  by_cases hlen : rr.groupedRunningStats.length > 0
  · simp only [MergeRunningBuckets, hlen, if_true, hg, bind, Except.bind, pure, Except.pure, h]
  · have hnil : rr.groupedRunningStats = [] := by
      cases hrg : rr.groupedRunningStats with
      | nil => rfl
      | cons x xs => rw [hrg] at hlen; simp at hlen
    rw [hnil] at hg
    simp only [mergeGrouped, pure, Except.pure, Except.ok.injEq] at hg
    subst hg
    simp only [MergeRunningBuckets, hnil, List.length_nil, gt_iff_lt, Nat.lt_irrefl, if_false,
      bind, Except.bind, pure, Except.pure, h]

theorem reduceInto_comm_of (U : Utils) (D : AggregateFunctions → CValueEnclosure → Prop)
    (hdef : ∀ fn a b, D fn a → D fn b → ∃ r, U.Reduce a b fn = Except.ok r)
    (hcomm : ∀ fn a b, D fn a → D fn b → U.Reduce a b fn = U.Reduce b a fn)
    (fn : AggregateFunctions) (a b : CValueEnclosure) (ha : D fn a) (hb : D fn b) :
    reduceInto U fn a b = reduceInto U fn b a := by
  obtain ⟨r, hr⟩ := hdef fn a b ha hb
  have hr2 : U.Reduce b a fn = Except.ok r := by rw [← hcomm fn a b ha hb, hr]
  rw [reduceInto_of_ok hr, reduceInto_of_ok hr2]

/-- C10, as amended (order-independence of merge on grouped slots). Let `A`
and `B` be bucket states over the same measure list that carry the same group
keys, every slot list as long as the measure list; let every measure be merged
by a scalar reduce (no sketch merge) and every conditional expression of a
count, values or cardinality measure declare at least one field; let the
scalar reduce be defined and commutative on a domain `D` that holds the
accumulators of the dispatched grouped slots. Then merging `B` into `A` and
merging `A` into `B` return with the same group keys, and under every key the
two results hold the same accumulator in every slot the merge loop dispatches;
a slot it does not dispatch keeps the slot of the receiver. -/
theorem grouped_merge_order_independent (U : Utils) (fuel : Nat) (ms : List MeasureAggregator)
    (A B : RunningBucketResults) (D : AggregateFunctions → CValueEnclosure → Prop)
    (hA : A.currStats = ms) (hB : B.currStats = ms)
    (hlA : A.runningStats.length = ms.length) (hlB : B.runningStats.length = ms.length)
    (hgA : ∀ key l, (key, l) ∈ A.groupedRunningStats → l.length = ms.length)
    (hgB : ∀ key l, (key, l) ∈ B.groupedRunningStats → l.length = ms.length)
    (hkeys : ∀ key : String, (A.groupedRunningStats.lookup key).isSome =
      (B.groupedRunningStats.lookup key).isSome)
    (hms : ∀ m ∈ ms, mergeable m = true)
    (hdef : ∀ fn a b, D fn a → D fn b → ∃ r, U.Reduce a b fn = Except.ok r)
    (hcomm : ∀ fn a b, D fn a → D fn b → U.Reduce a b fn = U.Reduce b a fn)
    (hD : ∀ (key : String) (la lb : List runningStats) (k : Nat) (e : error)
      (m : MeasureAggregator) (s : runningStats),
      A.groupedRunningStats.lookup key = some la → B.groupedRunningStats.lookup key = some lb →
      (k, e) ∈ mergeRunningStatsTrace U fuel A la lb → ms[k]? = some m →
      la[k]? = some s ∨ lb[k]? = some s → D m.MeasureFunc s.rawVal)
    (hfuel : ms.length ≤ fuel) :
    ∃ rAB rBA,
      MergeRunningBuckets U fuel A (some B) = Except.ok rAB ∧
      MergeRunningBuckets U fuel B (some A) = Except.ok rBA ∧
      ∀ key : String,
        (rAB.groupedRunningStats.lookup key).isSome =
          (rBA.groupedRunningStats.lookup key).isSome ∧
        ∀ la lb, A.groupedRunningStats.lookup key = some la →
          B.groupedRunningStats.lookup key = some lb →
          ∃ ra rb, rAB.groupedRunningStats.lookup key = some ra ∧
            rBA.groupedRunningStats.lookup key = some rb ∧
            (∀ (k : Nat) (e : error), (k, e) ∈ mergeRunningStatsTrace U fuel A la lb →
              (ra[k]?).map (fun s => s.rawVal) = (rb[k]?).map (fun s => s.rawVal)) ∧
            (∀ k : Nat, (∀ e, (k, e) ∉ mergeRunningStatsTrace U fuel A la lb) →
              ra[k]? = la[k]? ∧ rb[k]? = lb[k]?) := by
  subst hA
  have hmsB : ∀ m ∈ B.currStats, mergeable m = true := by rw [hB]; exact hms
  -- both calls return
  obtain ⟨gAB, hgAB⟩ := mergeGrouped_returns U fuel A B.groupedRunningStats
    A.groupedRunningStats (fun key la lb hmem hl =>
      mergeRunningStats_returns U fuel A la lb hms (hgA key la hmem)
        (hgB key lb (mem_of_lookup _ _ _ hl)) hfuel)
  obtain ⟨gBA, hgBA⟩ := mergeGrouped_returns U fuel B A.groupedRunningStats
    B.groupedRunningStats (fun key lb la hmem hl =>
      mergeRunningStats_returns U fuel B lb la hmsB (by rw [hB]; exact hgB key lb hmem)
        (by rw [hB]; exact hgA key la (mem_of_lookup _ _ _ hl)) (by rw [hB]; exact hfuel))
  obtain ⟨rsAB, hAB⟩ := mergeRunningStats_returns U fuel A A.runningStats B.runningStats hms hlA
    hlB hfuel
  obtain ⟨rsBA, hBA⟩ := mergeRunningStats_returns U fuel B B.runningStats A.runningStats hmsB
    (by rw [hB]; exact hlB) (by rw [hB]; exact hlA) (by rw [hB]; exact hfuel)
  refine ⟨_, _, MergeRunningBuckets_of hgAB hAB, MergeRunningBuckets_of hgBA hBA, ?_⟩
  obtain ⟨_, hlookAB⟩ := mergeGrouped_lookup U fuel A B.groupedRunningStats _ _ hgAB
  obtain ⟨_, hlookBA⟩ := mergeGrouped_lookup U fuel B A.groupedRunningStats _ _ hgBA
  intro key
  show (gAB.lookup key).isSome = (gBA.lookup key).isSome ∧ _
  have hk := hkeys key
  cases hla : A.groupedRunningStats.lookup key with
  | none =>
    rw [hla] at hk
    cases hlb : B.groupedRunningStats.lookup key with
    | some lb => rw [hlb] at hk; simp at hk
    | none =>
      rw [(hlookAB key).1 hla, (hlookBA key).1 hlb]
      exact ⟨rfl, fun la lb h => by cases h⟩
  | some la =>
    rw [hla] at hk
    cases hlb : B.groupedRunningStats.lookup key with
    | none => rw [hlb] at hk; simp at hk
    | some lb =>
      obtain ⟨ra, hra, hlra⟩ := ((hlookAB key).2 la hla).2 lb hlb
      obtain ⟨rb, hrb, hlrb⟩ := ((hlookBA key).2 lb hlb).2 la hla
      rw [hlra, hlrb]
      refine ⟨rfl, ?_⟩
      intro la1 lb1 h1 h2
      cases h1
      cases h2
      have hlen_a : la.length = A.currStats.length := hgA key la (mem_of_lookup _ _ _ hla)
      have hlen_b : lb.length = A.currStats.length := hgB key lb (mem_of_lookup _ _ _ hlb)
      have hI := mergeRunningStatsTrace_indices U fuel A B la lb lb la ra rb hB (by omega) hra hrb
      refine ⟨ra, rb, rfl, rfl, ?_, ?_⟩
      · intro k e hke
        obtain ⟨e2, hke2⟩ := mem_trace_of_indices_eq hI hke
        obtain ⟨m, a, b, hm, ha, hb, hab⟩ := mergeRunningStats_reduced hms hra hke
        obtain ⟨m2, b2, a2, hm2, hb2, ha2, hba⟩ := mergeRunningStats_reduced hmsB hrb hke2
        rw [hB, hm] at hm2; cases hm2
        rw [hb] at hb2; cases hb2
        rw [ha] at ha2; cases ha2
        rw [hab, hba]
        simp only [Option.map_some', reduceSlot, Option.some.injEq]
        exact reduceInto_comm_of U D hdef hcomm m.MeasureFunc a.rawVal b.rawVal
          (hD key la lb k e m a hla hlb hke hm (Or.inl ha))
          (hD key la lb k e m b hla hlb hke hm (Or.inr hb))
      · intro k hk0
        refine ⟨mergeRunningStats_not_dispatched hra hk0,
          mergeRunningStats_not_dispatched hrb ?_⟩
        intro e he
        obtain ⟨e0, he0⟩ := mem_trace_of_indices_eq hI.symm he
        exact hk0 e0 he0


/-- C10, counterexample. Two buckets with different group keys: merging `B`
into `A` keeps the one key of `A`, merging `A` into `B` the one key of `B`, so
the two results map the key `"a"` to a slot list in one order and to none in
the other. -/
theorem grouped_merge_counterexample :
    ((MergeRunningBuckets specUtils 1 (groupedBucket "a" 1)
        (some (groupedBucket "b" 2))).toOption.map fun r => r.groupedRunningStats) =
        some [("a", [⟨unsignedNum 1, none⟩])] ∧
      ((MergeRunningBuckets specUtils 1 (groupedBucket "b" 2)
        (some (groupedBucket "a" 1))).toOption.map fun r => r.groupedRunningStats) =
        some [("b", [⟨unsignedNum 2, none⟩])] ∧
      ((MergeRunningBuckets specUtils 1 (groupedBucket "a" 1)
        (some (groupedBucket "b" 2))).toOption.map fun r => r.groupedRunningStats.lookup "a") ≠
      ((MergeRunningBuckets specUtils 1 (groupedBucket "b" 2)
        (some (groupedBucket "a" 1))).toOption.map fun r => r.groupedRunningStats.lookup "a") := by
  decide

theorem grouped_merge_order_independent_witness :
    ∃ rAB rBA ra rb,
      MergeRunningBuckets specUtils 1 (groupedBucket "g" 1) (some (groupedBucket "g" 2)) =
        Except.ok rAB ∧
      MergeRunningBuckets specUtils 1 (groupedBucket "g" 2) (some (groupedBucket "g" 1)) =
        Except.ok rBA ∧
      rAB.groupedRunningStats.lookup "g" = some ra ∧
      rBA.groupedRunningStats.lookup "g" = some rb ∧
      (ra[0]?).map (fun s => s.rawVal) = (rb[0]?).map (fun s => s.rawVal) := by
  obtain ⟨rAB, rBA, h1, h2, hall⟩ :=
    grouped_merge_order_independent specUtils 1 [⟨AggregateFunctions.Sum, none⟩]
      (groupedBucket "g" 1) (groupedBucket "g" 2)
      (fun fn a => fn = AggregateFunctions.Sum ∧ hasKind NumKind.unsigned a = true)
      rfl rfl rfl rfl
      (by
        intro key l hmem
        simp only [groupedBucket, List.mem_singleton, Prod.mk.injEq] at hmem
        rw [hmem.2]
        rfl)
      (by
        intro key l hmem
        simp only [groupedBucket, List.mem_singleton, Prod.mk.injEq] at hmem
        rw [hmem.2]
        rfl)
      (by
        intro key
        simp only [groupedBucket, List.lookup_cons, List.lookup_nil]
        cases key == "g" <;> rfl)
      (by decide)
      (by
        rintro fn ⟨d, x⟩ ⟨d2, y⟩ ⟨rfl, ha⟩ ⟨_, hb⟩
        cases d <;> cases x <;> simp [hasKind] at ha
        cases d2 <;> cases y <;> simp [hasKind] at hb
        simp [specUtils, specReduce])
      (by
        rintro fn ⟨d, x⟩ ⟨d2, y⟩ ⟨rfl, ha⟩ ⟨_, hb⟩
        cases d <;> cases x <;> simp [hasKind] at ha
        cases d2 <;> cases y <;> simp [hasKind] at hb
        simp [specUtils, specReduce, Nat.add_comm])
      (by
        intro key la lb k e m s hla hlb _ hm hs
        have hkey : (key == "g") = true := by
          cases hkg : key == "g"
          · simp [groupedBucket, List.lookup_cons, hkg] at hla
          · rfl
        simp only [groupedBucket, List.lookup_cons, hkey, Option.some.injEq] at hla hlb
        subst hla
        subst hlb
        have hk : k = 0 := by
          have := getElem?_lt_of_some hm
          simp at this
          exact this
        subst hk
        simp only [List.getElem?_cons_zero, Option.some.injEq] at hm hs
        subst hm
        rcases hs with hs | hs <;> subst hs <;> exact ⟨rfl, rfl⟩)
      (by decide)
  obtain ⟨ra, rb, hra, hrb, hd, _⟩ := (hall "g").2 _ _ rfl rfl
  exact ⟨rAB, rBA, ra, rb, h1, h2, hra, hrb, hd 0 none (by decide)⟩

/-! ## Loops: invariants, faults and the next dispatched index -/

/-- A loop whose body keeps an invariant of the slot list, and under it ends
with no fault of the class `F`, ends with no fault of that class and keeps the
invariant. -/
theorem forLoop_invariant {bound : List runningStats → Nat} {body : Body}
    (Inv : List runningStats → Prop) (F : Fault → Prop) (hF : ¬ F Fault.outOfFuel)
    (hbody : ∀ (rs : List runningStats) (i : Nat), Inv rs → i < bound rs →
      (∀ f, body rs i = Except.error f → ¬ F f) ∧
      (∀ rs1 i1 e, body rs i = Except.ok (rs1, i1, e) → Inv rs1)) :
    ∀ (fuel i : Nat) (rs : List runningStats), Inv rs →
      (∀ f, forLoop bound body fuel i rs = Except.error f → ¬ F f) ∧
      (∀ rs', forLoop bound body fuel i rs = Except.ok rs' → Inv rs') := by
  intro fuel
  induction fuel with
  | zero =>
    intro i rs hinv
    by_cases hi : i < bound rs
    · simp only [forLoop, hi, if_true, throw, throwThe, MonadExceptOf.throw]
      refine ⟨?_, ?_⟩
      · intro f hf
        cases hf
        exact hF
      · intro rs' h
        cases h
    · rw [forLoop_exit 0 hi]
      refine ⟨fun f h => (by cases h), fun rs' h => ?_⟩
      cases h
      exact hinv
  | succ n ih =>
    intro i rs hinv
    by_cases hi : i < bound rs
    · obtain ⟨hb1, hb2⟩ := hbody rs i hinv hi
      simp only [forLoop, hi, if_true]
      cases hb : body rs i with
      | error f =>
        simp only [bind, Except.bind]
        refine ⟨?_, ?_⟩
        · intro f2 hf
          cases hf
          exact hb1 f hb
        · intro rs' h
          cases h
      | ok r =>
        obtain ⟨rs1, i1, e⟩ := r
        simp only [bind, Except.bind]
        exact ih (i1 + 1).toNat rs1 (hb2 rs1 i1 e hb)
    · rw [forLoop_exit (n + 1) hi]
      refine ⟨fun f h => (by cases h), fun rs' h => ?_⟩
      cases h
      exact hinv

/-- In a returning loop, the index dispatched right after `i` is the value the
body at `i` leaves in the loop variable, plus one, when that is below the
bound. -/
theorem forLoop_next {bound : List runningStats → Nat} {body : Body}
    (hbd : BoundByLength bound) (hloc : BodyLocal bound body) (i : Nat) (i1 : Int)
    (hst : ∀ rs rs1 x e, i < bound rs → body rs i = Except.ok (rs1, x, e) → x = i1) :
    ∀ (fuel j : Nat) (rs rs' : List runningStats) (e : error),
      forLoop bound body fuel j rs = Except.ok rs' →
      (i, e) ∈ forTrace bound body fuel j rs →
      (i1 + 1).toNat < bound rs →
      ∃ e2, ((i1 + 1).toNat, e2) ∈ forTrace bound body fuel j rs := by
  intro fuel
  induction fuel with
  | zero =>
    intro j rs rs' e _ hmem
    simp [forTrace] at hmem
  | succ n ih =>
    intro j rs rs' e h hmem hlt
    by_cases hj : j < bound rs
    · obtain ⟨rs1, j1, err, hb, hrest⟩ := forLoop_succ_ok hj h
      have hlen : bound rs1 = bound rs := by
        obtain ⟨⟨s, hs⟩, _⟩ := hloc rs j rs1 j1 err hj hb
        apply hbd
        rw [hs, List.length_set]
      simp only [forTrace, hj, if_true, hb, List.mem_cons, Prod.mk.injEq] at hmem ⊢
      rcases hmem with ⟨hij, _⟩ | htail
      · subst hij
        have hj1 : j1 = i1 := hst rs rs1 j1 err hj hb
        subst hj1
        have hnext : (j1 + 1).toNat < bound rs1 := by rw [hlen]; exact hlt
        cases n with
        | zero =>
          simp [forLoop, hnext, throw, throwThe, MonadExceptOf.throw] at hrest
        | succ k =>
          obtain ⟨rs2, j2, err2, hb2, _⟩ := forLoop_succ_ok hnext hrest
          refine ⟨err2, Or.inr ?_⟩
          simp [forTrace, hnext, hb2]
      · obtain ⟨e2, he2⟩ := ih (j1 + 1).toNat rs1 rs' e hrest htail (by rw [hlen]; exact hlt)
        exact ⟨e2, Or.inr he2⟩
    · simp [forTrace, hj] at hmem

/-- A loop whose body, under an invariant of the slot list, hands the loop
variable back one below the index it was dispatched on runs out of any fuel,
dispatching that one index at every iteration. -/
theorem forLoop_spin {bound : List runningStats → Nat} {body : Body}
    (Inv : List runningStats → Prop) (i : Nat)
    (hbody : ∀ rs, Inv rs → i < bound rs ∧
      ∃ rs1 e, body rs i = Except.ok (rs1, (i : Int) - 1, e) ∧ Inv rs1) :
    ∀ (fuel : Nat) (rs : List runningStats), Inv rs →
      forLoop bound body fuel i rs = Except.error Fault.outOfFuel ∧
      (forTrace bound body fuel i rs).map Prod.fst = List.replicate fuel i := by
  intro fuel
  induction fuel with
  | zero =>
    intro rs hinv
    obtain ⟨hi, _⟩ := hbody rs hinv
    simp [forLoop, forTrace, hi, throw, throwThe, MonadExceptOf.throw]
  | succ n ih =>
    intro rs hinv
    obtain ⟨hi, rs1, e, hb, hinv1⟩ := hbody rs hinv
    obtain ⟨h1, h2⟩ := ih rs1 hinv1
    have hback : ((i : Int) - 1 + 1).toNat = i := by omega
    simp only [forLoop, forTrace, hi, if_true, hb, bind, Except.bind, hback, h1, List.map_cons,
      h2, List.replicate_succ, and_self]

/-- A loop whose body keeps the length of the slot list and never moves the
loop variable back does not run out of a fuel of at least the number of
indices left. -/
theorem forLoop_enough_fuel {bound : List runningStats → Nat} {body : Body} (L : Nat)
    (hbound : ∀ rs : List runningStats, rs.length = L → bound rs ≤ L)
    (hfault : ∀ (rs : List runningStats) (i : Nat), rs.length = L → i < bound rs →
      body rs i ≠ Except.error Fault.outOfFuel)
    (hbody : ∀ (rs rs1 : List runningStats) (i : Nat) (i1 : Int) (e : error),
      rs.length = L → i < bound rs → body rs i = Except.ok (rs1, i1, e) →
      rs1.length = L ∧ (i : Int) ≤ i1) :
    ∀ (fuel i : Nat) (rs : List runningStats), rs.length = L → L - i ≤ fuel →
      forLoop bound body fuel i rs ≠ Except.error Fault.outOfFuel := by
  intro fuel
  induction fuel with
  | zero =>
    intro i rs hlen hfuel
    have hi : ¬ i < bound rs := by
      have := hbound rs hlen
      omega
    rw [forLoop_exit 0 hi]
    intro h
    cases h
  | succ n ih =>
    intro i rs hlen hfuel
    by_cases hi : i < bound rs
    · simp only [forLoop, hi, if_true]
      cases hb : body rs i with
      | error f =>
        simp only [bind, Except.bind]
        intro h
        simp only [Except.error.injEq] at h
        subst h
        exact hfault rs i hlen hi hb
      | ok r =>
        obtain ⟨rs1, i1, e⟩ := r
        simp only [bind, Except.bind]
        obtain ⟨hl1, hge⟩ := hbody rs rs1 i i1 e hlen hi hb
        exact ih (i1 + 1).toNat rs1 hl1 (by omega)
    · rw [forLoop_exit (n + 1) hi]
      intro h
      cases h

/-! ## Faults of the handlers -/

theorem index_fault {α : Type} {xs : List α} {i : Nat} {f : Fault}
    (h : index xs i = Except.error f) : f = Fault.indexOutOfRange ∧ xs.length ≤ i := by
  unfold index at h
  cases hx : xs[i]? with
  | some x => simp [hx] at h
  | none =>
    simp only [hx, Except.error.injEq] at h
    exact ⟨h.symm, List.getElem?_eq_none_iff.1 hx⟩

theorem fillFieldToValue_fault {mr : List CValueEnclosure} :
    ∀ (fields : List String) (idx : Nat) (fm : FieldMap) (f : Fault),
      fillFieldToValue mr fields idx fm = Except.error f →
      f = Fault.indexOutOfRange ∧ mr.length < idx + fields.length := by
  intro fields
  induction fields with
  | nil =>
    intro idx fm f h
    simp [fillFieldToValue, pure, Except.pure] at h
  | cons field rest ih =>
    intro idx fm f h
    simp only [fillFieldToValue, bind, Except.bind] at h
    cases hx : index mr idx with
    | error f2 =>
      simp only [hx, Except.error.injEq] at h
      subst h
      obtain ⟨h1, h2⟩ := index_fault hx
      refine ⟨h1, ?_⟩
      simp only [List.length_cons]
      omega
    | ok v =>
      simp only [hx] at h
      obtain ⟨h1, h2⟩ := ih (idx + 1) _ f h
      refine ⟨h1, ?_⟩
      simp only [List.length_cons]
      omega

theorem AddEvalResultsForMinOrMaxOrSum_fault {U : Utils} {rr : RunningBucketResults}
    {rs : List runningStats} {mr : List CValueEnclosure} {i : Nat} {f : Fault}
    {slot : runningStats} {m : MeasureAggregator}
    (hs : rs[i]? = some slot) (hm : rr.currStats[i]? = some m)
    (h : AddEvalResultsForMinOrMaxOrSum U rr rs mr i = Except.error f) :
    f = Fault.indexOutOfRange ∧ mr.length ≤ i := by
  unfold AddEvalResultsForMinOrMaxOrSum at h
  simp only [index_of_getElem? hm, bind, Except.bind] at h
  cases hx : index mr i with
  | error f2 =>
    obtain ⟨h1, h2⟩ := index_fault hx
    cases hv : m.ValueColRequest with
    | none =>
      simp only [hv, hx, Except.error.injEq] at h
      subst h
      exact ⟨h1, h2⟩
    | some vcr =>
      simp only [hv] at h
      split at h
      · simp only [hx, Except.error.injEq] at h
        subst h
        exact ⟨h1, h2⟩
      · simp [pure, Except.pure] at h
  | ok v =>
    exfalso
    have hvx := (index_ok_iff _ _ _).1 hx
    cases hv : m.ValueColRequest with
    | none =>
      obtain ⟨e0, hpr, _⟩ := ProcessReduce_eq (U := U) v hs hm
      simp [hv, hx, hpr] at h
    | some vcr =>
      simp only [hv] at h
      split at h
      · simp only [hx] at h
        split at h
        · simp [pure, Except.pure] at h
        · split at h
          · obtain ⟨e0, hpr, _⟩ := ProcessReduce_eq (U := U) v hs hm
            simp only [hpr] at h
            split at h <;> simp [pure, Except.pure] at h
          · simp [pure, Except.pure] at h
      · simp [pure, Except.pure] at h

theorem countInit_int {slot : runningStats} (h : isEmptyOrInt slot.rawVal = true) :
    ∃ z, (countInit slot).rawVal.CVal = CVal.int64 z := by
  unfold isEmptyOrInt at h
  unfold countInit
  cases hc : slot.rawVal.CVal <;> simp [hc] at h ⊢

theorem valuesInit_set {slot : runningStats} (h : isEmptyOrSet slot.rawVal = true) :
    ∃ S, (valuesInit slot).rawVal.CVal = CVal.stringSet S := by
  unfold isEmptyOrSet at h
  unfold valuesInit
  cases hc : slot.rawVal.CVal <;> simp [hc] at h ⊢

theorem AddEvalResultsForCount_fault {U : Utils} {rr : RunningBucketResults}
    {rs : List runningStats} {mr : List CValueEnclosure} {i : Nat} {f : Fault}
    {utc : Bool} {cnt : Nat} {slot : runningStats} {m : MeasureAggregator}
    (hs : rs[i]? = some slot) (hm : rr.currStats[i]? = some m)
    (h : AddEvalResultsForCount U rr rs mr i utc cnt = Except.error f) :
    (f = Fault.indexOutOfRange ∧
        (mr.length ≤ i ∨ ∃ vcr, m.ValueColRequest = some vcr ∧
          mr.length < i + vcr.GetFields.length)) ∨
      (f = Fault.typeAssertion ∧ m.ValueColRequest ≠ none ∧
        isEmptyOrInt slot.rawVal = false) := by
  unfold AddEvalResultsForCount at h
  simp only [index_of_getElem? hm, bind, Except.bind] at h
  cases hv : m.ValueColRequest with
  | none =>
    simp only [hv] at h
    cases utc with
    | true =>
      obtain ⟨e0, hpr, _⟩ := ProcessReduce_eq (U := U)
        { Dtype := SS_DTYPE.SS_DT_UNSIGNED_NUM, CVal := CVal.uint64 cnt } hs hm
      simp [hpr, pure, Except.pure] at h
    | false =>
      simp only [Bool.false_eq_true, if_false] at h
      cases hx : index mr i with
      | error f2 =>
        simp only [hx, Except.error.injEq] at h
        subst h
        obtain ⟨h1, h2⟩ := index_fault hx
        exact Or.inl ⟨h1, Or.inl h2⟩
      | ok v =>
        obtain ⟨e0, hpr, _⟩ := ProcessReduce_eq (U := U) v hs hm
        simp [hx, hpr, pure, Except.pure] at h
  | some vcr =>
    simp only [hv] at h
    cases hfill : fillFieldToValue mr vcr.GetFields i (fun _ => none) with
    | error f2 =>
      simp only [hfill, Except.error.injEq] at h
      subst h
      obtain ⟨h1, h2⟩ := fillFieldToValue_fault _ _ _ _ hfill
      exact Or.inl ⟨h1, Or.inr ⟨vcr, rfl, h2⟩⟩
    | ok fm =>
      simp only [hfill] at h
      cases hev : vcr.Evaluate fm with
      | error msg => simp [hev, pure, Except.pure] at h
      | ok b =>
        simp only [hev, index_of_getElem? hs] at h
        cases b with
        | false => simp [pure, Except.pure] at h
        | true =>
          simp only [if_true] at h
          right
          cases hk : isEmptyOrInt slot.rawVal with
          | true =>
            obtain ⟨z, hz⟩ := countInit_int hk
            simp [hz, pure, Except.pure] at h
          | false =>
            split at h
            · simp [pure, Except.pure] at h
            · simp only [throw, throwThe, MonadExceptOf.throw, Except.error.injEq] at h
              exact ⟨h.symm, by simp, rfl⟩

theorem AddEvalResultsForValuesOrCardinality_fault {U : Utils} {rr : RunningBucketResults}
    {rs : List runningStats} {mr : List CValueEnclosure} {i : Nat} {f : Fault}
    {slot : runningStats} {m : MeasureAggregator}
    (hs : rs[i]? = some slot) (hm : rr.currStats[i]? = some m)
    (h : AddEvalResultsForValuesOrCardinality U rr rs mr i = Except.error f) :
    (f = Fault.indexOutOfRange ∧
        (mr.length ≤ i ∨ ∃ vcr, m.ValueColRequest = some vcr ∧
          mr.length < i + vcr.GetFields.length)) ∨
      (f = Fault.typeAssertion ∧ isEmptyOrSet slot.rawVal = false) := by
  unfold AddEvalResultsForValuesOrCardinality at h
  simp only [index_of_getElem? hs, bind, Except.bind] at h
  cases hk : isEmptyOrSet slot.rawVal with
  | false =>
    right
    refine ⟨?_, rfl⟩
    split at h
    · rename_i S hS
      exfalso
      unfold isEmptyOrSet at hk
      unfold valuesInit at hS
      cases hc : slot.rawVal.CVal <;> simp [hc] at hk hS
    · simp only [throw, throwThe, MonadExceptOf.throw, Except.error.injEq] at h
      exact h.symm
  | true =>
    left
    obtain ⟨S, hS⟩ := valuesInit_set hk
    simp only [hS, index_of_getElem? hm] at h
    cases hv : m.ValueColRequest with
    | none =>
      simp only [hv] at h
      cases hx : index mr i with
      | error f2 =>
        simp only [hx, Except.error.injEq] at h
        subst h
        obtain ⟨h1, h2⟩ := index_fault hx
        exact ⟨h1, Or.inl h2⟩
      | ok v =>
        simp only [hx] at h
        split at h <;> simp [pure, Except.pure] at h
    | some vcr =>
      simp only [hv] at h
      cases hfill : fillFieldToValue mr vcr.GetFields i (fun _ => none) with
      | error f2 =>
        simp only [hfill, Except.error.injEq] at h
        subst h
        obtain ⟨h1, h2⟩ := fillFieldToValue_fault _ _ _ _ hfill
        exact ⟨h1, Or.inr ⟨vcr, rfl, h2⟩⟩
      | ok fm =>
        simp only [hfill] at h
        split at h <;> simp [pure, Except.pure] at h

/-- The faults of one dispatch of `AddMeasureResults` on an existing slot: a
read past the end of the measure list or of the input vector, a sketch that is
absent, or a failed cast of the accumulator. -/
theorem AddMeasureResultsBody_fault {U : Utils} {rr : RunningBucketResults}
    {rs : List runningStats} {mr : List CValueEnclosure} {cnt : Nat} {utc : Bool}
    {i : Nat} {f : Fault} {slot : runningStats}
    (hs : rs[i]? = some slot)
    (h : AddMeasureResultsBody U rr mr cnt utc rs i = Except.error f) :
    (f = Fault.indexOutOfRange ∧ rr.currStats.length ≤ i) ∨
      ∃ m, rr.currStats[i]? = some m ∧
        ((f = Fault.indexOutOfRange ∧
            (mr.length ≤ i ∨ ∃ vcr, m.ValueColRequest = some vcr ∧
              mr.length < i + vcr.GetFields.length)) ∨
          (f = Fault.nilDereference ∧ m.MeasureFunc = AggregateFunctions.Cardinality ∧
            m.ValueColRequest = none ∧ slot.hll = none) ∨
          (f = Fault.typeAssertion ∧
            ((m.MeasureFunc = AggregateFunctions.Count ∧ m.ValueColRequest ≠ none ∧
                isEmptyOrInt slot.rawVal = false) ∨
              (usesStringSet m = true ∧ isEmptyOrSet slot.rawVal = false)))) := by
  unfold AddMeasureResultsBody at h
  cases hmi : index rr.currStats i with
  | error f2 =>
    simp only [hmi, bind, Except.bind, Except.error.injEq] at h
    subst h
    exact Or.inl (index_fault hmi)
  | ok m =>
    have hm := (index_ok_iff _ _ _).1 hmi
    refine Or.inr ⟨m, hm, ?_⟩
    simp only [hmi, bind, Except.bind] at h
    have hreduce : ∀ f0,
        (do
          let v ← index mr i
          let r ← ProcessReduce U rr rs v i
          (pure (r.1, (i : Int), r.2) : Run (List runningStats × Int × error))) =
          Except.error f0 →
        f0 = Fault.indexOutOfRange ∧ mr.length ≤ i := by
      intro f0 hh
      simp only [bind, Except.bind] at hh
      cases hx : index mr i with
      | error f2 =>
        simp only [hx, Except.error.injEq] at hh
        subst hh
        exact index_fault hx
      | ok v =>
        obtain ⟨e0, hpr, _⟩ := ProcessReduce_eq (U := U) v hs hm
        simp [hx, hpr, pure, Except.pure] at hh
    cases hfn : m.MeasureFunc with
    | Count =>
      simp only [hfn] at h
      cases hh : AddEvalResultsForCount U rr rs mr i utc cnt with
      | ok r => simp [hh, pure, Except.pure] at h
      | error f0 =>
        simp only [hh, Except.error.injEq] at h
        subst h
        rcases AddEvalResultsForCount_fault hs hm hh with ⟨g1, g2⟩ | ⟨g1, g2, g3⟩
        · exact Or.inl ⟨g1, g2⟩
        · exact Or.inr (Or.inr ⟨g1, Or.inl ⟨rfl, g2, g3⟩⟩)
    | Min =>
      simp only [hfn] at h
      cases hh : AddEvalResultsForMinOrMaxOrSum U rr rs mr i with
      | ok r => simp [hh, pure, Except.pure] at h
      | error f0 =>
        simp only [hh, Except.error.injEq] at h
        subst h
        obtain ⟨g1, g2⟩ := AddEvalResultsForMinOrMaxOrSum_fault hs hm hh
        exact Or.inl ⟨g1, Or.inl g2⟩
    | Max =>
      simp only [hfn] at h
      cases hh : AddEvalResultsForMinOrMaxOrSum U rr rs mr i with
      | ok r => simp [hh, pure, Except.pure] at h
      | error f0 =>
        simp only [hh, Except.error.injEq] at h
        subst h
        obtain ⟨g1, g2⟩ := AddEvalResultsForMinOrMaxOrSum_fault hs hm hh
        exact Or.inl ⟨g1, Or.inl g2⟩
    | Sum =>
      simp only [hfn] at h
      cases hh : AddEvalResultsForMinOrMaxOrSum U rr rs mr i with
      | ok r => simp [hh, pure, Except.pure] at h
      | error f0 =>
        simp only [hh, Except.error.injEq] at h
        subst h
        obtain ⟨g1, g2⟩ := AddEvalResultsForMinOrMaxOrSum_fault hs hm hh
        exact Or.inl ⟨g1, Or.inl g2⟩
    | Values =>
      simp only [hfn] at h
      have hu : usesStringSet m = true := by simp [usesStringSet, hfn]
      cases hh : AddEvalResultsForValuesOrCardinality U rr rs mr i with
      | ok r => simp [hh, pure, Except.pure] at h
      | error f0 =>
        simp only [hh, Except.error.injEq] at h
        subst h
        rcases AddEvalResultsForValuesOrCardinality_fault hs hm hh with ⟨g1, g2⟩ | ⟨g1, g2⟩
        · exact Or.inl ⟨g1, g2⟩
        · exact Or.inr (Or.inr ⟨g1, Or.inr ⟨hu, g2⟩⟩)
    | Cardinality =>
      simp only [hfn] at h
      cases hv : m.ValueColRequest with
      | none =>
        simp only [hv] at h
        cases hx : index mr i with
        | error f2 =>
          simp only [hx, Except.error.injEq] at h
          subst h
          obtain ⟨g1, g2⟩ := index_fault hx
          exact Or.inl ⟨g1, Or.inl g2⟩
        | ok v =>
          simp only [hx] at h
          cases hg : U.GetUIntValue v with
          | error msg => simp [hg, pure, Except.pure] at h
          | ok n =>
            simp only [hg, index_of_getElem? hs] at h
            cases hh : slot.hll with
            | some sk => simp [hh, pure, Except.pure] at h
            | none =>
              simp only [hh, throw, throwThe, MonadExceptOf.throw, Except.error.injEq] at h
              exact Or.inr (Or.inl ⟨h.symm, rfl, rfl, rfl⟩)
      | some vcr =>
        simp only [hv] at h
        have hu : usesStringSet m = true := by simp [usesStringSet, hfn, hv]
        cases hh : AddEvalResultsForValuesOrCardinality U rr rs mr i with
        | ok r => simp [hh, pure, Except.pure] at h
        | error f0 =>
          simp only [hh, Except.error.injEq] at h
          subst h
          rcases AddEvalResultsForValuesOrCardinality_fault hs hm hh with ⟨g1, g2⟩ | ⟨g1, g2⟩
          · rw [hv] at g2
            exact Or.inl ⟨g1, g2⟩
          · exact Or.inr (Or.inr ⟨g1, Or.inr ⟨hu, g2⟩⟩)
    | Other code =>
      simp only [hfn] at h
      obtain ⟨g1, g2⟩ := hreduce f h
      exact Or.inl ⟨g1, Or.inl g2⟩

/-- The one fault of a dispatch of `mergeRunningStats` whose three reads are in
range: the sketch merge into an absent sketch. -/
theorem mergeRunningStatsBody_fault {U : Utils} {rr : RunningBucketResults}
    {rs tjs : List runningStats} {i : Nat} {slot tj : runningStats} {m : MeasureAggregator}
    {f : Fault}
    (hs : rs[i]? = some slot) (hm : rr.currStats[i]? = some m) (ht : tjs[i]? = some tj)
    (h : mergeRunningStatsBody U rr tjs rs i = Except.error f) :
    f = Fault.nilDereference ∧ m.MeasureFunc = AggregateFunctions.Cardinality ∧
      m.ValueColRequest = none ∧ slot.hll = none ∧ tj.hll ≠ none := by
  by_cases hsk : m.MeasureFunc = AggregateFunctions.Cardinality → m.ValueColRequest = none →
      tj.hll ≠ none → slot.hll ≠ none
  · obtain ⟨e, he⟩ := mergeRunningStatsBody_eq (U := U) hs hm ht hsk
    rw [he] at h
    cases h
  · push_neg at hsk
    obtain ⟨hfn, hv, hth, hsh⟩ := hsk
    refine ⟨?_, hfn, hv, hsh, hth⟩
    unfold mergeRunningStatsBody at h
    simp only [index_of_getElem? hm, index_of_getElem? ht, index_of_getElem? hs, bind,
      Except.bind, hfn, hv, hllMerge, hsh] at h
    cases hto : tj.hll with
    | none => exact absurd hto hth
    | some o =>
      simp only [hto, throw, throwThe, MonadExceptOf.throw, Except.error.injEq] at h
      exact h.symm

theorem AddMeasureResults_loop {U : Utils} {fuel : Nat} {rr rr1 : RunningBucketResults}
    {rs rs1 : List runningStats} {mr : List CValueEnclosure} {qid cnt : Nat} {utc : Bool}
    (h : AddMeasureResults U fuel rr rs mr qid cnt utc = Except.ok (rs1, rr1)) :
    forLoop List.length (AddMeasureResultsBody U rr mr cnt utc) fuel 0 rs = Except.ok rs1 := by
  unfold AddMeasureResults at h
  cases hl : forLoop List.length (AddMeasureResultsBody U rr mr cnt utc) fuel 0 rs with
  | error f => simp [hl, bind, Except.bind] at h
  | ok r =>
    simp only [hl, bind, Except.bind, pure, Except.pure, Except.ok.injEq, Prod.mk.injEq] at h
    rw [h.1]

theorem AddMeasureResultsTop_loop {U : Utils} {fuel : Nat} {rr rr1 : RunningBucketResults}
    {mr : List CValueEnclosure} {qid cnt : Nat} {utc : Bool}
    (h : AddMeasureResultsTop U fuel rr mr qid cnt utc = Except.ok rr1) :
    forLoop List.length (AddMeasureResultsBody U rr mr cnt utc) fuel 0 rr.runningStats =
      Except.ok rr1.runningStats :=
  AddMeasureResults_loop (AddMeasureResultsTop_inv h).1

theorem AddMeasureResultsTop_fault {U : Utils} {fuel : Nat} {rr : RunningBucketResults}
    {mr : List CValueEnclosure} {qid cnt : Nat} {utc : Bool} {f : Fault}
    (h : AddMeasureResultsTop U fuel rr mr qid cnt utc = Except.error f) :
    forLoop List.length (AddMeasureResultsBody U rr mr cnt utc) fuel 0 rr.runningStats =
      Except.error f := by
  unfold AddMeasureResultsTop AddMeasureResults at h
  cases hl : forLoop List.length (AddMeasureResultsBody U rr mr cnt utc) fuel 0
      rr.runningStats with
  | error f2 =>
    simp only [hl, bind, Except.bind, Except.error.injEq] at h
    rw [h]
  | ok r => simp [hl, bind, Except.bind, pure, Except.pure] at h

/-- A dispatch of `AddMeasureResults` neither creates nor removes a sketch. -/
theorem addSlot_hll (U : Utils) (m : MeasureAggregator) (mr : List CValueEnclosure)
    (cnt : Nat) (utc : Bool) (i : Nat) (slot : runningStats) :
    (addSlot U m mr cnt utc i slot).hll = none ↔ slot.hll = none := by
  have hred : ∀ (fn : AggregateFunctions) (v : CValueEnclosure),
      (reduceSlot U fn slot v).hll = slot.hll := fun _ _ => rfl
  have hci : (countInit slot).hll = slot.hll := by
    unfold countInit
    split <;> rfl
  have hvi : (valuesInit slot).hll = slot.hll := by
    unfold valuesInit
    split <;> rfl
  have hcount : (countSlot U m mr cnt utc i slot).hll = slot.hll := by
    unfold countSlot
    split
    · exact hred _ _
    · split
      · unfold countStep
        split
        · split
          · exact hci
          · exact hci
        · exact hci
      · rfl
  have hvalues : (valuesSlot U m mr i slot).hll = slot.hll := by
    unfold valuesSlot
    split
    · unfold valuesInsert
      split
      · exact hvi
      · exact hvi
    · exact hvi
  have hmms : (minMaxSumSlot U m mr i slot).hll = slot.hll := by
    unfold minMaxSumSlot
    simp only
    split
    · exact hred _ _
    · split
      · split
        · exact hred _ _
        · rfl
      · rfl
  unfold addSlot
  split
  · rw [hmms]
  · rw [hmms]
  · rw [hmms]
  · rw [hcount]
  · split
    · unfold sketchSlot
      split
      · cases slot.hll <;> simp
      · rfl
    · rw [hvalues]
  · rw [hvalues]
  · rw [hred]

/-- In a returning `AddMeasureResults`, the dispatch of the measure at `i` is
followed by the dispatch of index `i + step + 1`, `step` being what the handler
adds to the loop variable, when that index is within the slot list. -/
theorem AddMeasureResults_next {U : Utils} {fuel : Nat} {rr rr1 : RunningBucketResults}
    {rs rs1 : List runningStats} {mr : List CValueEnclosure} {qid cnt : Nat} {utc : Bool}
    {i : Nat} {e : error} {m : MeasureAggregator}
    (h : AddMeasureResults U fuel rr rs mr qid cnt utc = Except.ok (rs1, rr1))
    (hd : (i, e) ∈ AddMeasureResultsTrace U fuel rr rs mr cnt utc)
    (hm : rr.currStats[i]? = some m) (k : Nat)
    (hk : (k : Int) = (i : Int) + addStep U m mr i + 1) (hlt : k < rs.length) :
    ∃ e2, (k, e2) ∈ AddMeasureResultsTrace U fuel rr rs mr cnt utc := by
  have hl := AddMeasureResults_loop h
  have hst : ∀ (rs0 rs2 : List runningStats) (x : Int) (e0 : error), i < rs0.length →
      AddMeasureResultsBody U rr mr cnt utc rs0 i = Except.ok (rs2, x, e0) →
      x = (i : Int) + addStep U m mr i := by
    intro rs0 rs2 x e0 hi hb
    obtain ⟨m2, hm2, _, hx, _⟩ := AddMeasureResultsBody_inv (List.getElem?_eq_getElem hi) hb
    rw [hm] at hm2
    cases hm2
    exact hx
  have hkk : ((i : Int) + addStep U m mr i + 1).toNat = k := by omega
  have := forLoop_next boundByLength_length (AddMeasureResultsBody_local U rr mr cnt utc) i
    ((i : Int) + addStep U m mr i) hst fuel 0 rs rs1 e hl hd (by rw [hkk]; exact hlt)
  rw [hkk] at this
  exact this

/-- The same for `mergeRunningStats`. -/
theorem mergeRunningStats_next {U : Utils} {fuel : Nat} {rr : RunningBucketResults}
    {rs rs1 tjs : List runningStats} {i : Nat} {e : error} {m : MeasureAggregator}
    (h : mergeRunningStats U fuel rr rs tjs = Except.ok rs1)
    (hd : (i, e) ∈ mergeRunningStatsTrace U fuel rr rs tjs)
    (hm : rr.currStats[i]? = some m) (k : Nat)
    (hk : (k : Int) = (i : Int) + mergeStep m + 1) (hlt : k < tjs.length) :
    ∃ e2, (k, e2) ∈ mergeRunningStatsTrace U fuel rr rs tjs := by
  have hst : ∀ (rs0 rs2 : List runningStats) (x : Int) (e0 : error), i < tjs.length →
      mergeRunningStatsBody U rr tjs rs0 i = Except.ok (rs2, x, e0) →
      x = (i : Int) + mergeStep m := by
    intro rs0 rs2 x e0 hi hb
    obtain ⟨_, m2, _, _, hm2, _, _, hx⟩ := mergeRunningStatsBody_inv hi hb
    rw [hm] at hm2
    cases hm2
    exact hx
  have hkk : ((i : Int) + mergeStep m + 1).toNat = k := by omega
  have := forLoop_next (boundByLength_const tjs.length) (mergeRunningStatsBody_local U rr tjs) i
    ((i : Int) + mergeStep m) hst fuel 0 rs rs1 e h hd (by rw [hkk]; exact hlt)
  rw [hkk] at this
  exact this

/-- A returning dispatch of a sum, min or max measure whose conditional
expression declares exactly one field has read `measureResults[i]`. -/
theorem AddMeasureResults_gated_read {U : Utils} {fuel : Nat} {rr rr1 : RunningBucketResults}
    {rs rs1 : List runningStats} {mr : List CValueEnclosure} {qid cnt : Nat} {utc : Bool}
    {i : Nat} {e : error} {m : MeasureAggregator} {vcr : ValueExpr} {field : String}
    (h : AddMeasureResults U fuel rr rs mr qid cnt utc = Except.ok (rs1, rr1))
    (hd : (i, e) ∈ AddMeasureResultsTrace U fuel rr rs mr cnt utc)
    (hm : rr.currStats[i]? = some m)
    (hfn : m.MeasureFunc = AggregateFunctions.Sum ∨ m.MeasureFunc = AggregateFunctions.Min ∨
      m.MeasureFunc = AggregateFunctions.Max)
    (hv : m.ValueColRequest = some vcr) (hf : vcr.GetFields = [field]) :
    ∃ v, mr[i]? = some v := by
  obtain ⟨rsm, rsm1, i1, _, _, _, hb, _⟩ :=
    forLoop_dispatched boundByLength_length (AddMeasureResultsBody_local U rr mr cnt utc)
      (AddMeasureResultsBody_fixed U rr mr cnt utc) fuel 0 rs rs1 i e
      (AddMeasureResults_loop h) hd
  cases hx : mr[i]? with
  | some v => exact ⟨v, rfl⟩
  | none =>
    exfalso
    have hix : index mr i = Except.error Fault.indexOutOfRange := by
      simp [index, hx]
    unfold AddMeasureResultsBody at hb
    simp only [index_of_getElem? hm, bind, Except.bind] at hb
    have hh : AddEvalResultsForMinOrMaxOrSum U rr rsm mr i =
        Except.error Fault.indexOutOfRange := by
      unfold AddEvalResultsForMinOrMaxOrSum
      simp only [index_of_getElem? hm, bind, Except.bind, hv, hf, hix]
    rcases hfn with hfn | hfn | hfn <;> simp [hfn, hh] at hb

/-- With at least one declared field in the conditional expression of every
count, values and cardinality measure, the loop of `AddMeasureResults` moves
forward at every iteration and ends within `len(slots)` iterations: it does not
run out of a fuel of that size. -/
theorem AddMeasureResults_enough_fuel (U : Utils) (fuel : Nat) (rr : RunningBucketResults)
    (rs : List runningStats) (mr : List CValueEnclosure) (qid cnt : Nat) (utc : Bool)
    (hpos : ∀ m ∈ rr.currStats, ∀ vcr, m.ValueColRequest = some vcr → skipsFields m = true →
      1 ≤ vcr.GetFields.length)
    (hfuel : rs.length ≤ fuel) :
    AddMeasureResults U fuel rr rs mr qid cnt utc ≠ Except.error Fault.outOfFuel := by
  intro h
  have hl : forLoop List.length (AddMeasureResultsBody U rr mr cnt utc) fuel 0 rs =
      Except.error Fault.outOfFuel := by
    unfold AddMeasureResults at h
    cases hl : forLoop List.length (AddMeasureResultsBody U rr mr cnt utc) fuel 0 rs with
    | error f2 =>
      simp only [hl, bind, Except.bind, Except.error.injEq] at h
      rw [h]
    | ok r => simp [hl, bind, Except.bind, pure, Except.pure] at h
  refine forLoop_enough_fuel rs.length (fun rs0 h0 => by rw [h0]) ?_ ?_ fuel 0 rs rfl
    (by omega) hl
  · intro rs0 i hlen hi hb
    have hs : rs0[i]? = some rs0[i] := List.getElem?_eq_getElem hi
    rcases AddMeasureResultsBody_fault hs hb with ⟨hf, _⟩ | ⟨m, _, hcase⟩
    · cases hf
    · rcases hcase with ⟨hf, _⟩ | ⟨hf, _⟩ | ⟨hf, _⟩ <;> cases hf
  · intro rs0 rs1 i i1 e hlen hi hb
    have hs : rs0[i]? = some rs0[i] := List.getElem?_eq_getElem hi
    obtain ⟨m, hm, hr1, hi1, _, _⟩ := AddMeasureResultsBody_inv hs hb
    refine ⟨by rw [hr1, List.length_set, hlen], ?_⟩
    have hmem : m ∈ rr.currStats := List.mem_iff_getElem?.2 ⟨i, hm⟩
    have hstep : (0 : Int) ≤ addStep U m mr i := by
      unfold addStep
      cases hfn : m.MeasureFunc <;> cases hv : m.ValueColRequest <;>
        simp only [countSkip, valuesSkip, hv, le_refl]
      all_goals
        rename_i vcr
        have := hpos m hmem vcr hv (by simp [skipsFields, hfn, hv])
        split <;> omega
    omega

/-- C11 (merge never creates or removes group keys). For every receiver and
every peer of a returning `MergeRunningBuckets`: the keys of the receiver's
`groupedRunningStats` are the same after the call as before, in the same
order; under a key both sides have, the receiver's slot list is the one
`mergeRunningStats` leaves from it and the peer's list (every dispatched slot
merged with the peer's slot of the same index); under a key only the receiver
has, its slot list is unchanged; a key the receiver lacks, one only the peer
has included, is absent from the result. A nil peer returns the receiver as it
is: slots, grouped slots and count. -/
theorem merge_keeps_group_keys (U : Utils) (fuel : Nat) (rr peer rr1 : RunningBucketResults)
    (h : MergeRunningBuckets U fuel rr (some peer) = Except.ok rr1) :
    rr1.groupedRunningStats.map Prod.fst = rr.groupedRunningStats.map Prod.fst ∧
      (∀ key : String,
        (rr.groupedRunningStats.lookup key = none →
          rr1.groupedRunningStats.lookup key = none) ∧
        (∀ la, rr.groupedRunningStats.lookup key = some la →
          (peer.groupedRunningStats.lookup key = none →
            rr1.groupedRunningStats.lookup key = some la) ∧
          (∀ lb, peer.groupedRunningStats.lookup key = some lb →
            ∃ r, mergeRunningStats U fuel rr la lb = Except.ok r ∧
              rr1.groupedRunningStats.lookup key = some r ∧
              (∀ (i : Nat) (e : error), (i, e) ∈ mergeRunningStatsTrace U fuel rr la lb →
                ∃ slot m tj, la[i]? = some slot ∧ rr.currStats[i]? = some m ∧
                  lb[i]? = some tj ∧ r[i]? = some (mergeSlot U m tj slot)) ∧
              (∀ i : Nat, (∀ e, (i, e) ∉ mergeRunningStatsTrace U fuel rr la lb) →
                r[i]? = la[i]?)))) ∧
      MergeRunningBuckets U fuel rr none = Except.ok rr := by
  obtain ⟨grouped, rs, hg, _, hrr1⟩ := MergeRunningBuckets_inv h
  have hgr : rr1.groupedRunningStats = grouped := by rw [hrr1]
  have hlk : mergeGrouped U fuel rr peer.groupedRunningStats rr.groupedRunningStats =
      Except.ok grouped := by
    by_cases hlen : rr.groupedRunningStats.length > 0
    · simpa [hlen] using hg
    · have hnil : rr.groupedRunningStats = [] := by
        cases hx : rr.groupedRunningStats with
        | nil => rfl
        | cons a l => rw [hx] at hlen; simp at hlen
      simp only [hlen, if_false, Except.ok.injEq] at hg
      rw [← hg, hnil]
      rfl
  obtain ⟨hkeys, hall⟩ := mergeGrouped_lookup U fuel rr peer.groupedRunningStats _ _ hlk
  rw [hgr]
  refine ⟨hkeys, ?_, rfl⟩
  intro key
  obtain ⟨h1, h2⟩ := hall key
  refine ⟨h1, ?_⟩
  intro la hla
  obtain ⟨h3, h4⟩ := h2 la hla
  refine ⟨h3, ?_⟩
  intro lb hlb
  obtain ⟨r, hr, hout⟩ := h4 lb hlb
  refine ⟨r, hr, hout, ?_, ?_⟩
  · intro i e hd
    obtain ⟨slot, m, tj, g1, g2, g3, g4, _⟩ := mergeRunningStats_dispatched hr hd
    exact ⟨slot, m, tj, g1, g2, g3, g4⟩
  · intro i hnd
    exact mergeRunningStats_not_dispatched hr hnd

/-- C11 on a receiver with the groups `a` and `b` and a peer with the groups
`b` and `c`: the result has the groups `a`, unchanged, and `b`, merged, and no
group `c`. -/
theorem merge_keeps_group_keys_witness :
    (resultOr initRunningTimeBucket (MergeRunningBuckets specUtils 1 (groupedPair "a" "b" 1 2)
        (some (groupedPair "b" "c" 10 20)))).groupedRunningStats =
        [("a", [⟨unsignedNum 1, none⟩]), ("b", [⟨unsignedNum 12, none⟩])] ∧
      (resultOr initRunningTimeBucket (MergeRunningBuckets specUtils 1 (groupedPair "a" "b" 1 2)
        (some (groupedPair "b" "c" 10 20)))).groupedRunningStats.lookup "c" = none :=
  ⟨by decide,
    ((merge_keeps_group_keys specUtils 1 (groupedPair "a" "b" 1 2) (groupedPair "b" "c" 10 20)
      _ rfl).2.1 "c").1 rfl⟩

/-- C12, counterexample. On a bucket over `max(y) where y > 10` whose
accumulator holds 50, a block with the value 3 leaves the accumulator at 50:
the predicate is false on 3, so nothing is reduced, and yet the accumulator
equals `reduce(50, 3, max) = 50`. The accumulator equal to the reduce does not
imply that the predicate was true. -/
theorem gated_reduce_counterexample :
    gatedMaxBucket.runningStats = [⟨unsignedNum 50, none⟩] ∧
      ((AddMeasureResultsTop specUtils 1 gatedMaxBucket [unsignedNum 3] 0 1 false).toOption.map
        fun r => r.runningStats) = some [⟨unsignedNum 50, none⟩] ∧
      specUtils.Reduce (unsignedNum 50) (unsignedNum 3) AggregateFunctions.Max =
        Except.ok (unsignedNum 50) ∧
      exprYGt10.Evaluate (fun k => if k = "y" then some (unsignedNum 3) else none) =
        Except.ok false :=
  ⟨by decide, by decide, rfl, rfl⟩

/-- C12, as amended (predicate-gated sum, min and max). For every bucket state,
every sum, min or max measure with a conditional expression at a dispatched
index `i` and every input vector, after a returning `AddMeasureResults`: if the
expression declares exactly one field, the predicate evaluated on the one-entry
map `{field: rawValues[i]}` returns true without error and the reduce of the
previous accumulator with `rawValues[i]` succeeds, the accumulator of slot `i`
is that reduce; in every other case (predicate false, evaluation error, a
field count other than one, reduce error) slot `i` is unchanged; and the index
`i + 1` is dispatched next when it is within the slot list. -/
theorem gated_sum_min_max (U : Utils) (fuel : Nat) (rr rr1 : RunningBucketResults)
    (mr : List CValueEnclosure) (qid cnt : Nat) (utc : Bool) (i : Nat)
    (m : MeasureAggregator) (vcr : ValueExpr) (slot : runningStats) (e : error)
    (hm : rr.currStats[i]? = some m)
    (hfn : m.MeasureFunc = AggregateFunctions.Sum ∨ m.MeasureFunc = AggregateFunctions.Min ∨
      m.MeasureFunc = AggregateFunctions.Max)
    (hv : m.ValueColRequest = some vcr)
    (hs : rr.runningStats[i]? = some slot)
    (h : AddMeasureResultsTop U fuel rr mr qid cnt utc = Except.ok rr1)
    (hd : (i, e) ∈ AddMeasureResultsTrace U fuel rr rr.runningStats mr cnt utc) :
    (∀ field v r, vcr.GetFields = [field] → mr[i]? = some v →
        vcr.Evaluate (fun k => if k = field then some v else none) = Except.ok true →
        U.Reduce slot.rawVal v m.MeasureFunc = Except.ok r →
        rr1.runningStats[i]? = some { slot with rawVal := r }) ∧
      ((¬ ∃ field v r, vcr.GetFields = [field] ∧ mr[i]? = some v ∧
          vcr.Evaluate (fun k => if k = field then some v else none) = Except.ok true ∧
          U.Reduce slot.rawVal v m.MeasureFunc = Except.ok r) →
        rr1.runningStats[i]? = some slot) ∧
      (i + 1 < rr.runningStats.length →
        ∃ e2, (i + 1, e2) ∈ AddMeasureResultsTrace U fuel rr rr.runningStats mr cnt utc) := by
  have hadd := (AddMeasureResultsTop_inv h).1
  obtain ⟨slot1, m1, hs1, hm1, hr, _⟩ := AddMeasureResults_dispatched hadd hd
  rw [hs] at hs1; cases hs1
  rw [hm] at hm1; cases hm1
  have hslot : addSlot U m mr cnt utc i slot = minMaxSumSlot U m mr i slot := by
    unfold addSlot
    rcases hfn with hf | hf | hf <;> simp [hf]
  have hstep : addStep U m mr i = 0 := by
    unfold addStep
    rcases hfn with hf | hf | hf <;> simp [hf]
  rw [hslot] at hr
  refine ⟨?_, ?_, ?_⟩
  · intro field v r hf hmr hev hred
    rw [hr]
    simp [minMaxSumSlot, hv, hf, hmr, hev, reduceSlot, reduceInto, hred]
  · intro hno
    rw [hr]
    congr 1
    unfold minMaxSumSlot
    simp only [hv]
    split
    · rename_i field hf
      split
      · rename_i hev
        cases hmr : mr[i]? with
        | none =>
          obtain ⟨v, hv2⟩ := AddMeasureResults_gated_read hadd hd hm hfn hv hf
          rw [hmr] at hv2
          cases hv2
        | some v =>
          simp only [hmr, Option.getD_some] at hev
          cases hred : U.Reduce slot.rawVal v m.MeasureFunc with
          | error msg => simp [reduceSlot, reduceInto, hmr, hred]
          | ok r => exact absurd ⟨field, v, r, hf, hmr, hev, hred⟩ hno
      · rfl
    · rfl
  · intro hlt
    exact AddMeasureResults_next hadd hd hm (i + 1) (by rw [hstep]; simp) hlt



theorem gated_sum_min_max_witness :
    gatedMaxBucket.runningStats[0]? = some ⟨unsignedNum 50, none⟩ ∧
      (resultOr initRunningTimeBucket
        (AddMeasureResultsTop specUtils 1 gatedMaxBucket [unsignedNum 70] 0 1
          false)).runningStats[0]? = some ⟨unsignedNum 70, none⟩ :=
  ⟨by decide,
    ((gated_sum_min_max specUtils 1 gatedMaxBucket _ [unsignedNum 70] 0 1 false 0
      ⟨AggregateFunctions.Max, some exprYGt10⟩ exprYGt10 ⟨unsignedNum 50, none⟩ none
      rfl (Or.inr (Or.inr rfl)) rfl rfl rfl (by decide)).1 "y" (unsignedNum 70)
      (unsignedNum 70) rfl rfl rfl rfl).trans rfl⟩

/-- C13, counterexample. On a fresh bucket over `count() where y > 10`, the
first block, with the value 42, leaves the accumulator at the signed 1, not at
the incoming unsigned 42. -/
theorem seeding_counterexample :
    ((AddMeasureResultsTop specUtils 1
        (initRunningGroupByBucket [⟨AggregateFunctions.Count, some exprYGt10⟩])
        [unsignedNum 42] 0 1 false).toOption.map fun r => r.runningStats) =
        some [⟨signedNum 1, none⟩] ∧
      signedNum 1 ≠ unsignedNum 42 := by
  decide

/-- C13, as amended (empty-accumulator seeding). Every slot of a fresh bucket
has an empty accumulator. With a scalar reduce under which an empty accumulator
adopts the incoming value, a returning `AddMeasureResults` that dispatches
index `i` on a slot whose accumulator is empty leaves in it: the incoming
`rawValues[i]`, unchanged, for a sum, min or max measure without a conditional
expression, or with one of exactly one field that evaluates to true, for an
unconditional count with `usedByTimechart = false` and for every other kind
handled by the generic reduce; the unsigned row count for an unconditional
count with `usedByTimechart = true`; the signed 1 or 0 for a count whose
conditional expression evaluates to true or false; and the one-element set of
the extracted string for a values measure or a cardinality measure with a
conditional expression. -/
theorem empty_accumulator_seeding (U : Utils) (fuel : Nat) (rr rr1 : RunningBucketResults)
    (mr : List CValueEnclosure) (qid cnt : Nat) (utc : Bool) (i : Nat)
    (m : MeasureAggregator) (slot : runningStats) (v : CValueEnclosure) (e : error)
    (hadopt : ∀ x fn, U.Reduce CValueEnclosure.zero x fn = Except.ok x)
    (hm : rr.currStats[i]? = some m) (hs : rr.runningStats[i]? = some slot)
    (hempty : slot.rawVal = CValueEnclosure.zero) (hmr : mr[i]? = some v)
    (h : AddMeasureResultsTop U fuel rr mr qid cnt utc = Except.ok rr1)
    (hd : (i, e) ∈ AddMeasureResultsTrace U fuel rr rr.runningStats mr cnt utc) :
    (∀ (ms : List MeasureAggregator) (k : Nat) (s : runningStats),
        (initRunningGroupByBucket ms).runningStats[k]? = some s →
        s.rawVal = CValueEnclosure.zero) ∧
      ((m.MeasureFunc = AggregateFunctions.Sum ∨ m.MeasureFunc = AggregateFunctions.Min ∨
          m.MeasureFunc = AggregateFunctions.Max) →
        (m.ValueColRequest = none ∨ ∃ vcr field, m.ValueColRequest = some vcr ∧
          vcr.GetFields = [field] ∧
          vcr.Evaluate (fun k => if k = field then some v else none) = Except.ok true) →
        (rr1.runningStats[i]?).map (fun s => s.rawVal) = some v) ∧
      (m.MeasureFunc = AggregateFunctions.Count → m.ValueColRequest = none →
        (rr1.runningStats[i]?).map (fun s => s.rawVal) =
          some (if utc then { Dtype := SS_DTYPE.SS_DT_UNSIGNED_NUM, CVal := CVal.uint64 cnt }
            else v)) ∧
      ((∃ code, m.MeasureFunc = AggregateFunctions.Other code) →
        (rr1.runningStats[i]?).map (fun s => s.rawVal) = some v) ∧
      (∀ vcr b, m.MeasureFunc = AggregateFunctions.Count → m.ValueColRequest = some vcr →
        condBool vcr mr i = some (Except.ok b) →
        (rr1.runningStats[i]?).map (fun s => s.rawVal) =
          some { Dtype := SS_DTYPE.SS_DT_SIGNED_NUM
                 CVal := CVal.int64 (if b then 1 else 0) }) ∧
      (∀ strVal, usesStringSet m = true →
        valuesString U m mr i = some (Except.ok strVal) →
        (rr1.runningStats[i]?).map (fun s => s.rawVal) =
          some { Dtype := SS_DTYPE.SS_DT_STRING_SET, CVal := CVal.stringSet {strVal} }) := by
  have hadd := (AddMeasureResultsTop_inv h).1
  obtain ⟨slot1, m1, hs1, hm1, hr, _⟩ := AddMeasureResults_dispatched hadd hd
  rw [hs] at hs1; cases hs1
  rw [hm] at hm1; cases hm1
  have hred : ∀ fn x, (reduceSlot U fn slot x).rawVal = x := by
    intro fn x
    simp [reduceSlot, reduceInto, hempty, hadopt]
  rw [hr]
  simp only [Option.map_some', Option.some.injEq]
  refine ⟨?_, ?_, ?_, ?_, ?_, ?_⟩
  · intro ms k s hk
    have hk2 : (initRunningStats ms)[k]? = some s := hk
    unfold initRunningStats at hk2
    rw [List.getElem?_map] at hk2
    cases hmk : ms[k]? with
    | none => simp [hmk] at hk2
    | some mk =>
      simp only [hmk, Option.map_some', Option.some.injEq] at hk2
      rw [← hk2]
      split <;> rfl
  · intro hfn hgate
    have hslot : addSlot U m mr cnt utc i slot = minMaxSumSlot U m mr i slot := by
      unfold addSlot
      rcases hfn with hf | hf | hf <;> simp [hf]
    rw [hslot]
    unfold minMaxSumSlot
    rcases hgate with hv | ⟨vcr, field, hv, hf, hev⟩
    · simp only [hv, hmr, Option.getD_some]
      exact hred _ _
    · simp only [hv, hf, hmr, Option.getD_some, hev]
      exact hred _ _
  · intro hfn hv
    simp only [addSlot, hfn, countSlot, hv, hmr, Option.getD_some]
    rw [← hfn]
    exact hred _ _
  · rintro ⟨code, hfn⟩
    simp only [addSlot, hfn, hmr, Option.getD_some]
    rw [← hfn]
    exact hred _ _
  · intro vcr b hfn hv hb
    simp only [addSlot, hfn, countSlot, hv, hb]
    cases b <;> simp [countStep, countInit, hempty, CValueEnclosure.zero, wrapI64]
  · intro strVal hu hsv
    have hslot : addSlot U m mr cnt utc i slot = valuesSlot U m mr i slot := by
      unfold usesStringSet at hu
      unfold addSlot
      cases hfn : m.MeasureFunc <;> cases hv : m.ValueColRequest <;> simp [hfn, hv] at hu ⊢
    rw [hslot]
    simp [valuesSlot, hsv, valuesInsert, valuesInit, hempty, CValueEnclosure.zero]

theorem empty_accumulator_seeding_witness :
    ((resultOr initRunningTimeBucket
        (AddMeasureResultsTop specUtils 1
          (initRunningGroupByBucket [⟨AggregateFunctions.Sum, none⟩])
          [unsignedNum 7] 0 1 false)).runningStats[0]?).map (fun s => s.rawVal) =
      some (unsignedNum 7) :=
  (empty_accumulator_seeding specUtils 1
    (initRunningGroupByBucket [⟨AggregateFunctions.Sum, none⟩]) _ [unsignedNum 7] 0 1 false 0
    ⟨AggregateFunctions.Sum, none⟩ runningStats.zero (unsignedNum 7) none
    (fun _ _ => rfl) rfl rfl rfl rfl rfl (by decide)).2.1 (Or.inl rfl) (Or.inl rfl)

/-- The merge of the grouped slot lists keeps every key in place with a slot
list as long as before. -/
theorem mergeGrouped_lengths (U : Utils) (fuel : Nat) (rr : RunningBucketResults)
    (tjG : List (String × List runningStats)) :
    ∀ (entries out : List (String × List runningStats)),
      mergeGrouped U fuel rr tjG entries = Except.ok out →
      out.map (fun p => (p.1, p.2.length)) = entries.map (fun p => (p.1, p.2.length)) := by
  intro entries
  induction entries with
  | nil =>
    intro out h
    simp only [mergeGrouped, pure, Except.pure, Except.ok.injEq] at h
    rw [← h]
  | cons entry rest ih =>
    intro out h
    obtain ⟨g, la0⟩ := entry
    simp only [mergeGrouped, bind, Except.bind] at h
    cases hl : tjG.lookup g with
    | none =>
      simp only [hl, pure, Except.pure] at h
      cases hrest : mergeGrouped U fuel rr tjG rest with
      | error f => simp [hrest] at h
      | ok rest1 =>
        simp only [hrest, Except.ok.injEq] at h
        subst h
        simp only [List.map_cons, ih rest1 hrest]
    | some lb0 =>
      simp only [hl] at h
      cases hm : mergeRunningStats U fuel rr la0 lb0 with
      | error f => simp [hm] at h
      | ok merged =>
        simp only [hm] at h
        cases hrest : mergeGrouped U fuel rr tjG rest with
        | error f => simp [hrest] at h
        | ok rest1 =>
          simp only [hrest, pure, Except.pure, Except.ok.injEq] at h
          subst h
          simp only [List.map_cons, ih rest1 hrest, mergeRunningStats_length hm]

theorem MergeRunningBuckets_lengths {U : Utils} {fuel : Nat}
    {rr peer rr1 : RunningBucketResults}
    (h : MergeRunningBuckets U fuel rr (some peer) = Except.ok rr1) :
    rr1.runningStats.length = rr.runningStats.length ∧ rr1.currStats = rr.currStats ∧
      rr1.groupedRunningStats.map (fun p => (p.1, p.2.length)) =
        rr.groupedRunningStats.map (fun p => (p.1, p.2.length)) := by
  obtain ⟨grouped, rs, hg, hrs, hrr1⟩ := MergeRunningBuckets_inv h
  rw [hrr1]
  refine ⟨mergeRunningStats_length hrs, rfl, ?_⟩
  show grouped.map _ = _
  by_cases hlen : rr.groupedRunningStats.length > 0
  · simp only [hlen, if_true] at hg
    exact mergeGrouped_lengths U fuel rr _ _ _ hg
  · simp only [hlen, if_false, Except.ok.injEq] at hg
    rw [hg]

theorem Built_lengths {U : Utils} {fuel : Nat} {rr : RunningBucketResults} {total : Nat}
    (h : Built U fuel rr total) : rr.runningStats.length = rr.currStats.length := by
  induction h with
  | fresh ms => simp [initRunningGroupByBucket, initRunningStats]
  | freshTime => rfl
  | add rr rr1 total mr qid cnt utc _ hcall ih =>
    obtain ⟨hadd, hcs, _, _⟩ := AddMeasureResultsTop_inv hcall
    rw [(AddMeasureResults_frame hadd).1, hcs]
    exact ih
  | addTime rr total count _ ih => exact ih
  | merge rr peer rr1 total peerTotal _ _ hcall ih _ =>
    obtain ⟨h1, h2, _⟩ := MergeRunningBuckets_lengths hcall
    rw [h1, h2]
    exact ih
  | mergeNil rr rr1 total _ hcall ih =>
    simp only [MergeRunningBuckets, pure, Except.pure, Except.ok.injEq] at hcall
    rw [← hcall]
    exact ih

/-- C14 (length invariant). `initRunningGroupByBucket` returns a state with as
many slots as measures. Every returning `AddMeasureResults` keeps the length
of the slot list it is given (the top-level one or a grouped one), the measure
list, and the length of every other slot list; every returning
`MergeRunningBuckets` keeps the length of the top-level slot list, the measure
list, and every group key with the length of its slot list. Hence
`len(slots) = len(measures)` in every state built from a fresh bucket by adds
and merges, and a grouped list as long as the slot list stays so. -/
theorem length_invariant (U : Utils) (fuel : Nat) :
    (∀ ms : List MeasureAggregator,
        (initRunningGroupByBucket ms).runningStats.length =
          (initRunningGroupByBucket ms).currStats.length) ∧
      (∀ (rr rr1 : RunningBucketResults) (rs rs1 : List runningStats)
        (mr : List CValueEnclosure) (qid cnt : Nat) (utc : Bool),
        AddMeasureResults U fuel rr rs mr qid cnt utc = Except.ok (rs1, rr1) →
        rs1.length = rs.length ∧ rr1.currStats = rr.currStats ∧
          rr1.runningStats.length = rr.runningStats.length ∧
          rr1.groupedRunningStats.map (fun p => (p.1, p.2.length)) =
            rr.groupedRunningStats.map (fun p => (p.1, p.2.length))) ∧
      (∀ (rr rr1 : RunningBucketResults) (mr : List CValueEnclosure) (qid cnt : Nat)
        (utc : Bool), AddMeasureResultsTop U fuel rr mr qid cnt utc = Except.ok rr1 →
        rr1.runningStats.length = rr.runningStats.length ∧ rr1.currStats = rr.currStats ∧
          rr1.groupedRunningStats = rr.groupedRunningStats) ∧
      (∀ (rr peer rr1 : RunningBucketResults),
        MergeRunningBuckets U fuel rr (some peer) = Except.ok rr1 →
        rr1.runningStats.length = rr.runningStats.length ∧ rr1.currStats = rr.currStats ∧
          rr1.groupedRunningStats.map (fun p => (p.1, p.2.length)) =
            rr.groupedRunningStats.map (fun p => (p.1, p.2.length)) ∧
          (rr.runningStats.length = rr.currStats.length →
            rr1.runningStats.length = rr1.currStats.length) ∧
          ((∀ p ∈ rr.groupedRunningStats, p.2.length = rr.runningStats.length) →
            ∀ p ∈ rr1.groupedRunningStats, p.2.length = rr1.runningStats.length)) ∧
      (∀ rr : RunningBucketResults, MergeRunningBuckets U fuel rr none = Except.ok rr) ∧
      (∀ (rr : RunningBucketResults) (total : Nat), Built U fuel rr total →
        rr.runningStats.length = rr.currStats.length) := by
  refine ⟨?_, ?_, ?_, ?_, fun _ => rfl, fun rr total h => Built_lengths h⟩
  · intro ms
    simp [initRunningGroupByBucket, initRunningStats]
  · intro rr rr1 rs rs1 mr qid cnt utc h
    obtain ⟨h1, h2⟩ := AddMeasureResults_frame h
    rw [h2]
    exact ⟨h1, rfl, rfl, rfl⟩
  · intro rr rr1 mr qid cnt utc h
    obtain ⟨hadd, hcs, hg, _⟩ := AddMeasureResultsTop_inv h
    exact ⟨(AddMeasureResults_frame hadd).1, hcs, hg⟩
  · intro rr peer rr1 h
    obtain ⟨h1, h2, h3⟩ := MergeRunningBuckets_lengths h
    refine ⟨h1, h2, h3, ?_, ?_⟩
    · intro hl
      rw [h1, h2]
      exact hl
    · intro hall p hp
      have hmem : (p.1, p.2.length) ∈
          rr1.groupedRunningStats.map (fun p => (p.1, p.2.length)) :=
        List.mem_map.2 ⟨p, hp, rfl⟩
      rw [h3] at hmem
      obtain ⟨q, hq, hqe⟩ := List.mem_map.1 hmem
      simp only [Prod.mk.injEq] at hqe
      rw [h1, ← hqe.2]
      exact hall q hq

/-- C14 on a bucket over the measures of the spec scenario that received a
block and was merged with a peer that received another: three slots for the
three measures. -/
theorem length_invariant_witness :
    (resultOr initRunningTimeBucket
      (do
        let a ← AddMeasureResultsTop specUtils 3 (initRunningGroupByBucket scenarioMeasures)
          [unsignedNum 5, unsignedNum 1, unsignedNum 42] 0 3 false
        let b ← AddMeasureResultsTop specUtils 3 (initRunningGroupByBucket scenarioMeasures)
          [unsignedNum 9, unsignedNum 0, unsignedNum 42] 0 2 false
        MergeRunningBuckets specUtils 3 a (some b))).runningStats.length = 3 :=
  ((length_invariant specUtils 3).2.2.2.2.2 _ (0 + 3 + (0 + 2))
    (Built.merge _ _ _ _ _
      (Built.add _ _ _ [unsignedNum 5, unsignedNum 1, unsignedNum 42] 0 3 false
        (Built.fresh scenarioMeasures) rfl)
      (Built.add _ _ _ [unsignedNum 9, unsignedNum 0, unsignedNum 42] 0 2 false
        (Built.fresh scenarioMeasures) rfl)
      rfl)).trans rfl

/-- One dispatch of `count() where 1 = 1`: the handler returns the step
`len(fields) - 1 = -1`. -/
theorem constCount_add_body (rr : RunningBucketResults) (mr : List CValueEnclosure)
    (cnt : Nat) (utc : Bool) (hcs : rr.currStats = constCountMeasures)
    (rs : List runningStats)
    (hinv : ∃ slot, rs = [slot] ∧ isEmptyOrInt slot.rawVal = true) :
    0 < rs.length ∧
      ∃ rs1 e, AddMeasureResultsBody specUtils rr mr cnt utc rs 0 =
          Except.ok (rs1, ((0 : Nat) : Int) - 1, e) ∧
        ∃ slot, rs1 = [slot] ∧ isEmptyOrInt slot.rawVal = true := by
  obtain ⟨slot, hrs, hk⟩ := hinv
  subst hrs
  refine ⟨by simp, ?_⟩
  obtain ⟨z, hz⟩ := countInit_int hk
  refine ⟨[{ countInit slot with
      rawVal := { (countInit slot).rawVal with CVal := CVal.int64 (wrapI64 (z + 1)) } }],
    none, ?_, _, rfl, by simp [isEmptyOrInt]⟩
  simp [AddMeasureResultsBody, hcs, constCountMeasures, index, AddEvalResultsForCount,
    exprConstTrue, fillFieldToValue, bind, Except.bind, pure, Except.pure, hz]

/-- One dispatch of `count() where 1 = 1` in `mergeRunningStats`: the loop
variable goes back by one. -/
theorem constCount_merge_body (U : Utils) (rr : RunningBucketResults)
    (hcs : rr.currStats = constCountMeasures) (tj : runningStats)
    (rs : List runningStats) (hinv : rs.length = 1) :
    0 < [tj].length ∧
      ∃ rs1 e, mergeRunningStatsBody U rr [tj] rs 0 =
          Except.ok (rs1, ((0 : Nat) : Int) - 1, e) ∧ rs1.length = 1 := by
  refine ⟨by simp, ?_⟩
  have hs : rs[0]? = some rs[0] := List.getElem?_eq_getElem (by omega)
  obtain ⟨e, he⟩ := @mergeRunningStatsBody_eq U rr rs [tj] 0 rs[0] tj
    ⟨AggregateFunctions.Count, some exprConstTrue⟩ hs (by rw [hcs]; rfl) rfl
    (by intro h; cases h)
  refine ⟨rs.set 0 (mergeSlot U ⟨AggregateFunctions.Count, some exprConstTrue⟩ tj rs[0]), e,
    ?_, by rw [List.length_set]; exact hinv⟩
  rw [he]
  simp [mergeStep, exprConstTrue]

/-- C16 (termination of dispatch), at a failing input: the measure list
`[count() where 1 = 1]`, whose conditional expression declares zero fields.
On the fresh bucket `AddMeasureResults` runs out of every fuel: each iteration
dispatches index 0 again, the handler having returned the step
`len(fields) - 1 = -1` that the loop's `i++` undoes. The loop of
`mergeRunningStats` over the same measure does the same. -/
theorem zero_fields_never_terminates (fuel : Nat) :
    AddMeasureResultsTop specUtils fuel (initRunningGroupByBucket constCountMeasures)
        [unsignedNum 1] 0 1 false = Except.error Fault.outOfFuel ∧
      (AddMeasureResultsTrace specUtils fuel (initRunningGroupByBucket constCountMeasures)
        (initRunningGroupByBucket constCountMeasures).runningStats [unsignedNum 1] 1
        false).map Prod.fst = List.replicate fuel 0 ∧
      mergeRunningStats specUtils fuel (initRunningGroupByBucket constCountMeasures)
        (initRunningGroupByBucket constCountMeasures).runningStats
        (initRunningGroupByBucket constCountMeasures).runningStats =
        Except.error Fault.outOfFuel ∧
      (mergeRunningStatsTrace specUtils fuel (initRunningGroupByBucket constCountMeasures)
        (initRunningGroupByBucket constCountMeasures).runningStats
        (initRunningGroupByBucket constCountMeasures).runningStats).map Prod.fst =
        List.replicate fuel 0 := by
  obtain ⟨h1, h2⟩ := forLoop_spin
    (fun rs => ∃ slot, rs = [slot] ∧ isEmptyOrInt slot.rawVal = true) 0
    (fun rs hinv => constCount_add_body (initRunningGroupByBucket constCountMeasures)
      [unsignedNum 1] 1 false rfl rs hinv)
    fuel (initRunningGroupByBucket constCountMeasures).runningStats
    ⟨runningStats.zero, rfl, rfl⟩
  obtain ⟨h3, h4⟩ := @forLoop_spin (fun _ => [runningStats.zero].length)
    (mergeRunningStatsBody specUtils (initRunningGroupByBucket constCountMeasures)
      [runningStats.zero])
    (fun rs => rs.length = 1) 0
    (fun rs hinv => constCount_merge_body specUtils
      (initRunningGroupByBucket constCountMeasures) rfl runningStats.zero rs hinv)
    fuel (initRunningGroupByBucket constCountMeasures).runningStats rfl
  refine ⟨?_, h2, h3, h4⟩
  simp only [AddMeasureResultsTop, AddMeasureResults, h1, bind, Except.bind]

theorem isEmptyOrInt_iff (v : CValueEnclosure) :
    isEmptyOrInt v = true ↔ payloadKind v.CVal = SS_DTYPE.SS_INVALID ∨
      payloadKind v.CVal = SS_DTYPE.SS_DT_SIGNED_NUM := by
  unfold isEmptyOrInt payloadKind
  cases v.CVal <;> simp

theorem isEmptyOrSet_iff (v : CValueEnclosure) :
    isEmptyOrSet v = true ↔ payloadKind v.CVal = SS_DTYPE.SS_INVALID ∨
      payloadKind v.CVal = SS_DTYPE.SS_DT_STRING_SET := by
  unfold isEmptyOrSet payloadKind
  cases v.CVal <;> simp

theorem reduceInto_kind_of {U : Utils}
    (hkind : ∀ a b fn r, U.Reduce a b fn = Except.ok r →
      payloadKind r.CVal = payloadKind a.CVal ∨ payloadKind r.CVal = payloadKind b.CVal)
    (fn : AggregateFunctions) (a b : CValueEnclosure) :
    (isEmptyOrInt a = true → isEmptyOrInt b = true → isEmptyOrInt (reduceInto U fn a b) = true) ∧
      (isEmptyOrSet a = true → isEmptyOrSet b = true →
        isEmptyOrSet (reduceInto U fn a b) = true) := by
  unfold reduceInto
  cases hr : U.Reduce a b fn with
  | error msg => exact ⟨fun h _ => h, fun h _ => h⟩
  | ok r =>
    simp only
    have hk := hkind a b fn r hr
    refine ⟨?_, ?_⟩
    · intro ha hb
      rw [isEmptyOrInt_iff] at ha hb ⊢
      rcases hk with hk | hk <;> rw [hk] <;> assumption
    · intro ha hb
      rw [isEmptyOrSet_iff] at ha hb ⊢
      rcases hk with hk | hk <;> rw [hk] <;> assumption

/-- What a dispatch of `AddMeasureResults` leaves keeps the kind of the
accumulator. -/
theorem addSlot_kinds (U : Utils) (m : MeasureAggregator) (mr : List CValueEnclosure)
    (cnt : Nat) (utc : Bool) (i : Nat) (slot : runningStats) :
    (m.MeasureFunc = AggregateFunctions.Count → m.ValueColRequest ≠ none →
        isEmptyOrInt slot.rawVal = true →
        isEmptyOrInt (addSlot U m mr cnt utc i slot).rawVal = true) ∧
      (usesStringSet m = true → isEmptyOrSet slot.rawVal = true →
        isEmptyOrSet (addSlot U m mr cnt utc i slot).rawVal = true) := by
  refine ⟨?_, ?_⟩
  · intro hfn hv hk
    cases hvc : m.ValueColRequest with
    | none => exact absurd hvc hv
    | some vcr =>
      have hci : isEmptyOrInt (countInit slot).rawVal = true := by
        obtain ⟨z, hz⟩ := countInit_int hk
        simp [isEmptyOrInt, hz]
      simp only [addSlot, hfn, countSlot, hvc]
      split
      · unfold countStep
        split
        · split
          · simp [isEmptyOrInt]
          · exact hci
        · exact hci
      · exact hk
  · intro hu hk
    have hslot : addSlot U m mr cnt utc i slot = valuesSlot U m mr i slot := by
      unfold usesStringSet at hu
      unfold addSlot
      cases hfn : m.MeasureFunc <;> cases hv : m.ValueColRequest <;> simp [hfn, hv] at hu ⊢
    have hvi : isEmptyOrSet (valuesInit slot).rawVal = true := by
      obtain ⟨S, hS⟩ := valuesInit_set hk
      simp [isEmptyOrSet, hS]
    rw [hslot]
    unfold valuesSlot
    split
    · unfold valuesInsert
      split
      · simp [isEmptyOrSet]
      · exact hvi
    · exact hvi

/-- What a dispatch of `mergeRunningStats` leaves keeps the kind of the
accumulator, the peer's accumulator being of that kind too. -/
theorem mergeSlot_kinds {U : Utils}
    (hkind : ∀ a b fn r, U.Reduce a b fn = Except.ok r →
      payloadKind r.CVal = payloadKind a.CVal ∨ payloadKind r.CVal = payloadKind b.CVal)
    (m : MeasureAggregator) (tj slot : runningStats) :
    (m.MeasureFunc = AggregateFunctions.Count → m.ValueColRequest ≠ none →
        isEmptyOrInt slot.rawVal = true → isEmptyOrInt tj.rawVal = true →
        isEmptyOrInt (mergeSlot U m tj slot).rawVal = true) ∧
      (usesStringSet m = true → isEmptyOrSet slot.rawVal = true →
        isEmptyOrSet tj.rawVal = true →
        isEmptyOrSet (mergeSlot U m tj slot).rawVal = true) := by
  refine ⟨?_, ?_⟩
  · intro hfn _ hs ht
    simp only [mergeSlot, hfn, reduceSlot]
    exact (reduceInto_kind_of hkind _ _ _).1 hs ht
  · intro hu hs ht
    have hslot : mergeSlot U m tj slot = reduceSlot U m.MeasureFunc slot tj.rawVal := by
      unfold usesStringSet at hu
      unfold mergeSlot
      cases hfn : m.MeasureFunc <;> cases hv : m.ValueColRequest <;> simp [hfn, hv] at hu ⊢
    rw [hslot]
    simp only [reduceSlot]
    exact (reduceInto_kind_of hkind _ _ _).2 hs ht

theorem kindsOk_set {ms : List MeasureAggregator} {rs : List runningStats} {i : Nat}
    {m : MeasureAggregator} {snew : runningStats}
    (hm : ms[i]? = some m) (hinv : kindsOk ms rs)
    (hnew : (m.MeasureFunc = AggregateFunctions.Count → m.ValueColRequest ≠ none →
        isEmptyOrInt snew.rawVal = true) ∧
      (usesStringSet m = true → isEmptyOrSet snew.rawVal = true)) :
    kindsOk ms (rs.set i snew) := by
  intro k mk s hmk hs
  rw [List.getElem?_set] at hs
  by_cases hik : i = k
  · subst hik
    by_cases hi : i < rs.length
    · simp only [hi, if_true, Option.some.injEq] at hs
      rw [hm] at hmk
      cases hmk
      rw [← hs]
      exact hnew
    · simp [hi] at hs
  · simp only [hik, if_false] at hs
    exact hinv k mk s hmk hs

/-- One dispatch of `AddMeasureResults` on slots of the right kinds: no failed
cast, and slots of the right kinds afterwards. -/
theorem AddMeasureResultsBody_kinds (U : Utils) (rr : RunningBucketResults)
    (ms : List MeasureAggregator) (mr : List CValueEnclosure) (cnt : Nat) (utc : Bool)
    (hcs : rr.currStats = ms) (rs : List runningStats) (i : Nat)
    (hinv : kindsOk ms rs) (hi : i < rs.length) :
    (∀ f, AddMeasureResultsBody U rr mr cnt utc rs i = Except.error f →
        ¬ f = Fault.typeAssertion) ∧
      (∀ rs1 i1 e, AddMeasureResultsBody U rr mr cnt utc rs i = Except.ok (rs1, i1, e) →
        kindsOk ms rs1) := by
  have hs : rs[i]? = some rs[i] := List.getElem?_eq_getElem hi
  refine ⟨?_, ?_⟩
  · intro f h
    rcases AddMeasureResultsBody_fault hs h with ⟨hf, _⟩ | ⟨m, hm, hcase⟩
    · rw [hf]
      simp
    · rw [hcs] at hm
      obtain ⟨h1, h2⟩ := hinv i m _ hm hs
      rcases hcase with ⟨hf, _⟩ | ⟨hf, _⟩ | ⟨_, hbad⟩
      · rw [hf]; simp
      · rw [hf]; simp
      · exfalso
        rcases hbad with ⟨hfn, hv, hk⟩ | ⟨hu, hk⟩
        · rw [h1 hfn hv] at hk
          cases hk
        · rw [h2 hu] at hk
          cases hk
  · intro rs1 i1 e h
    obtain ⟨m, hm, hr1, _⟩ := AddMeasureResultsBody_inv hs h
    rw [hcs] at hm
    obtain ⟨h1, h2⟩ := hinv i m _ hm hs
    obtain ⟨g1, g2⟩ := addSlot_kinds U m mr cnt utc i rs[i]
    rw [hr1]
    exact kindsOk_set hm hinv ⟨fun hfn hv => g1 hfn hv (h1 hfn hv), fun hu => g2 hu (h2 hu)⟩

/-- The reduce of the spec returns a value of the kind of one of its
operands. -/
theorem specReduce_kind (a b : CValueEnclosure) (fn : AggregateFunctions) (r : CValueEnclosure)
    (h : specReduce a b fn = Except.ok r) :
    payloadKind r.CVal = payloadKind a.CVal ∨ payloadKind r.CVal = payloadKind b.CVal := by
  unfold specReduce at h
  cases ha : a.CVal with
  | nil =>
    simp only [ha, Except.ok.injEq] at h
    rw [h]
    exact Or.inr rfl
  | uint64 x =>
    left
    simp only [ha] at h
    split at h
    · cases h
    · cases fn <;> cases hb : b.CVal <;> (try simp only [hb] at h) <;> cases h <;> rfl
  | int64 x =>
    left
    simp only [ha] at h
    split at h
    · cases h
    · cases fn <;> cases hb : b.CVal <;> (try simp only [hb] at h) <;> cases h <;> rfl
  | float x ex =>
    left
    simp only [ha] at h
    split at h
    · cases h
    · cases fn <;> cases hb : b.CVal <;> (try simp only [hb] at h) <;> (try split at h) <;>
        cases h <;> simp [payloadKind, ha]
  | string x =>
    left
    simp only [ha] at h
    split at h
    · cases h
    · cases fn <;> cases hb : b.CVal <;> cases h
  | stringSet x =>
    left
    simp only [ha] at h
    split at h
    · cases h
    · cases fn <;> cases hb : b.CVal <;> (try simp only [hb] at h) <;> cases h
      rfl

theorem initRunningStats_length (ms : List MeasureAggregator) :
    (initRunningStats ms).length = ms.length := by
  simp [initRunningStats]

theorem initRunningStats_sketches (ms : List MeasureAggregator) :
    sketchesPresent ms (initRunningStats ms) := by
  intro i m s hm hfn hs
  unfold initRunningStats at hs
  rw [List.getElem?_map, hm] at hs
  simp only [Option.map_some', Option.some.injEq, hfn] at hs
  rw [← hs]
  simp

/-- One dispatch of `AddMeasureResults` under the conditions of well-formed
input: no read out of range, no absent sketch, and the conditions hold again
afterwards. -/
theorem AddMeasureResultsBody_in_bounds (U : Utils) (rr : RunningBucketResults)
    (ms : List MeasureAggregator) (mr : List CValueEnclosure) (cnt : Nat) (utc : Bool)
    (hwf : ∀ (i : Nat) (m : MeasureAggregator) (vcr : ValueExpr), ms[i]? = some m →
      m.ValueColRequest = some vcr → 1 ≤ vcr.GetFields.length →
      i + vcr.GetFields.length ≤ ms.length)
    (hcs : rr.currStats = ms) (hmr : mr.length = ms.length)
    (rs : List runningStats) (i : Nat)
    (hinv : rs.length = ms.length ∧ sketchesPresent ms rs) (hi : i < rs.length) :
    (∀ f, AddMeasureResultsBody U rr mr cnt utc rs i = Except.error f →
        ¬ (f = Fault.indexOutOfRange ∨ f = Fault.nilDereference)) ∧
      (∀ rs1 i1 e, AddMeasureResultsBody U rr mr cnt utc rs i = Except.ok (rs1, i1, e) →
        rs1.length = ms.length ∧ sketchesPresent ms rs1) := by
  obtain ⟨hlen, hsk⟩ := hinv
  have hs : rs[i]? = some rs[i] := List.getElem?_eq_getElem hi
  refine ⟨?_, ?_⟩
  · intro f h
    rcases AddMeasureResultsBody_fault hs h with ⟨_, hc⟩ | ⟨m, hm, hcase⟩
    · rw [hcs] at hc
      omega
    · rw [hcs] at hm
      rcases hcase with ⟨_, hr⟩ | ⟨_, hfn, _, hnone⟩ | ⟨hf, _⟩
      · rcases hr with hr | ⟨vcr, hv, hr⟩
        · omega
        · by_cases hpos : 1 ≤ vcr.GetFields.length
          · have := hwf i m vcr hm hv hpos
            omega
          · omega
      · exact absurd hnone (hsk i m _ hm hfn hs)
      · rw [hf]
        simp
  · intro rs1 i1 e h
    obtain ⟨m, hm, hr1, _⟩ := AddMeasureResultsBody_inv hs h
    rw [hcs] at hm
    refine ⟨by rw [hr1, List.length_set, hlen], ?_⟩
    intro k mk s hmk hfn hsk1
    rw [hr1, List.getElem?_set] at hsk1
    by_cases hik : i = k
    · subst hik
      simp only [hi, if_true, Option.some.injEq] at hsk1
      rw [hm] at hmk
      cases hmk
      rw [← hsk1]
      intro hnone
      exact hsk i m _ hm hfn hs ((addSlot_hll U m mr cnt utc i _).1 hnone)
    · simp only [hik, if_false] at hsk1
      exact hsk k mk s hmk hfn hsk1

/-- C18 (in-bounds access under well-formed input). Let every measure of `ms`
with a conditional expression of `f ≥ 1` declared fields at index `i` satisfy
`i + f ≤ len(ms)`. The fresh bucket over `ms` has as many slots as measures and
a sketch in every cardinality slot. On every state over `ms` with these two
properties (the fresh bucket first), and for every input vector as long as
`ms`, `AddMeasureResults` on the top-level slots never ends in a read out of
range (of the input vector, the slot list or the measure list) nor in the
dereference of an absent sketch, with any fuel, and a call that returns leaves
a state with the two properties again. Likewise `mergeRunningStats` of such a
state with a peer slot list as long as `ms` never ends in a read out of
range. -/
theorem in_bounds_access (U : Utils) (fuel : Nat) (ms : List MeasureAggregator)
    (hwf : ∀ (i : Nat) (m : MeasureAggregator) (vcr : ValueExpr), ms[i]? = some m →
      m.ValueColRequest = some vcr → 1 ≤ vcr.GetFields.length →
      i + vcr.GetFields.length ≤ ms.length) :
    ((initRunningGroupByBucket ms).runningStats.length = ms.length ∧
        sketchesPresent ms (initRunningGroupByBucket ms).runningStats) ∧
      (∀ (mr : List CValueEnclosure) (qid cnt : Nat) (utc : Bool), mr.length = ms.length →
        AddMeasureResultsTop U fuel (initRunningGroupByBucket ms) mr qid cnt utc ≠
            Except.error Fault.indexOutOfRange ∧
          AddMeasureResultsTop U fuel (initRunningGroupByBucket ms) mr qid cnt utc ≠
            Except.error Fault.nilDereference) ∧
      (∀ (rr : RunningBucketResults) (mr : List CValueEnclosure) (qid cnt : Nat) (utc : Bool),
        rr.currStats = ms → rr.runningStats.length = ms.length →
        sketchesPresent ms rr.runningStats → mr.length = ms.length →
        AddMeasureResultsTop U fuel rr mr qid cnt utc ≠ Except.error Fault.indexOutOfRange ∧
          AddMeasureResultsTop U fuel rr mr qid cnt utc ≠ Except.error Fault.nilDereference ∧
          ∀ rr1, AddMeasureResultsTop U fuel rr mr qid cnt utc = Except.ok rr1 →
            rr1.currStats = ms ∧ rr1.runningStats.length = ms.length ∧
              sketchesPresent ms rr1.runningStats) ∧
      (∀ (rr : RunningBucketResults) (toJoinRunningStats : List runningStats),
        rr.currStats = ms → rr.runningStats.length = ms.length →
        toJoinRunningStats.length = ms.length →
        mergeRunningStats U fuel rr rr.runningStats toJoinRunningStats ≠
          Except.error Fault.indexOutOfRange) := by
  have hfresh : (initRunningGroupByBucket ms).runningStats.length = ms.length ∧
      sketchesPresent ms (initRunningGroupByBucket ms).runningStats :=
    ⟨initRunningStats_length ms, initRunningStats_sketches ms⟩
  have hadd : ∀ (rr : RunningBucketResults) (mr : List CValueEnclosure) (qid cnt : Nat)
      (utc : Bool), rr.currStats = ms → rr.runningStats.length = ms.length →
      sketchesPresent ms rr.runningStats → mr.length = ms.length →
      AddMeasureResultsTop U fuel rr mr qid cnt utc ≠ Except.error Fault.indexOutOfRange ∧
        AddMeasureResultsTop U fuel rr mr qid cnt utc ≠ Except.error Fault.nilDereference ∧
        ∀ rr1, AddMeasureResultsTop U fuel rr mr qid cnt utc = Except.ok rr1 →
          rr1.currStats = ms ∧ rr1.runningStats.length = ms.length ∧
            sketchesPresent ms rr1.runningStats := by
    intro rr mr qid cnt utc hcs hlen hsk hmr
    obtain ⟨hno, hkeep⟩ := forLoop_invariant
      (fun rs => rs.length = ms.length ∧ sketchesPresent ms rs)
      (fun f => f = Fault.indexOutOfRange ∨ f = Fault.nilDereference) (by simp)
      (fun rs i hinv hi => AddMeasureResultsBody_in_bounds U rr ms mr cnt utc
        hwf hcs hmr rs i hinv hi)
      fuel 0 rr.runningStats ⟨hlen, hsk⟩
    refine ⟨?_, ?_, ?_⟩
    · intro h
      exact hno _ (AddMeasureResultsTop_fault h) (Or.inl rfl)
    · intro h
      exact hno _ (AddMeasureResultsTop_fault h) (Or.inr rfl)
    · intro rr1 h
      obtain ⟨h1, h2⟩ := hkeep _ (AddMeasureResultsTop_loop h)
      exact ⟨by rw [(AddMeasureResultsTop_inv h).2.1, hcs], h1, h2⟩
  refine ⟨hfresh, ?_, hadd, ?_⟩
  · intro mr qid cnt utc hmr
    obtain ⟨h1, h2, _⟩ := hadd (initRunningGroupByBucket ms) mr qid cnt utc rfl hfresh.1
      hfresh.2 hmr
    exact ⟨h1, h2⟩
  · intro rr tjs hcs hlen htj h
    unfold mergeRunningStats at h
    obtain ⟨hno, _⟩ := @forLoop_invariant (fun _ => tjs.length)
      (mergeRunningStatsBody U rr tjs)
      (fun rs => rs.length = ms.length)
      (fun f => f = Fault.indexOutOfRange) (by simp)
      (by
        intro rs i hinv hi
        have hi2 : i < tjs.length := hi
        have hs : rs[i]? = some rs[i] := List.getElem?_eq_getElem (by omega)
        have ht : tjs[i]? = some tjs[i] := List.getElem?_eq_getElem hi2
        have him : i < rr.currStats.length := by rw [hcs]; omega
        have hm : rr.currStats[i]? = some rr.currStats[i] := List.getElem?_eq_getElem him
        refine ⟨?_, ?_⟩
        · intro f hf
          obtain ⟨g, _⟩ := mergeRunningStatsBody_fault hs hm ht hf
          rw [g]
          simp
        · intro rs1 i1 e hb
          obtain ⟨_, _, _, _, _, _, hr1, _⟩ := mergeRunningStatsBody_inv hi2 hb
          rw [hr1, List.length_set]
          exact hinv)
      fuel 0 rr.runningStats hlen
    exact hno _ h rfl

/-- C18 on the measures of the spec scenario, whose one conditional expression
declares the one field `y` at index 1 of 3. -/
theorem in_bounds_access_witness :
    AddMeasureResultsTop specUtils 3 (initRunningGroupByBucket scenarioMeasures)
        [unsignedNum 5, unsignedNum 1, unsignedNum 42] 0 3 false ≠
        Except.error Fault.indexOutOfRange ∧
      AddMeasureResultsTop specUtils 3 (initRunningGroupByBucket scenarioMeasures)
        [unsignedNum 5, unsignedNum 1, unsignedNum 42] 0 3 false ≠
        Except.error Fault.nilDereference :=
  (in_bounds_access specUtils 3 scenarioMeasures
    (by
      intro i m vcr hm hv hf
      have hi : i < 3 := by
        by_contra hc
        have : scenarioMeasures[i]? = none := List.getElem?_eq_none (by
          simp only [scenarioMeasures, List.length_cons, List.length_nil]
          omega)
        rw [this] at hm
        cases hm
      interval_cases i
      · simp only [scenarioMeasures, List.getElem?_cons_zero, Option.some.injEq] at hm
        subst hm
        cases hv
      · simp only [scenarioMeasures, List.getElem?_cons_succ, List.getElem?_cons_zero,
          Option.some.injEq] at hm
        subst hm
        simp only [Option.some.injEq] at hv
        subst hv
        decide
      · simp only [scenarioMeasures, List.getElem?_cons_succ, List.getElem?_cons_zero,
          Option.some.injEq] at hm
        subst hm
        cases hv)).2.1
    [unsignedNum 5, unsignedNum 1, unsignedNum 42] 0 3 false rfl

/-! ## Returning calls -/

/-- On a state with as many slots as measures, a sketch in every cardinality
slot and accumulators of the right kinds, and for an input vector as long as
the measure list, `AddMeasureResults` on the top-level slots returns, given a
fuel of at least `len(slots)`, when every conditional expression of a count,
values or cardinality measure declares at least one field and the fields of
every conditional expression fit in the input vector; the state it returns has
the same properties. -/
theorem AddMeasureResultsTop_returns (U : Utils) (fuel : Nat) (ms : List MeasureAggregator)
    (rr : RunningBucketResults) (mr : List CValueEnclosure) (qid cnt : Nat) (utc : Bool)
    (hwf : ∀ (i : Nat) (m : MeasureAggregator) (vcr : ValueExpr), ms[i]? = some m →
      m.ValueColRequest = some vcr → 1 ≤ vcr.GetFields.length →
      i + vcr.GetFields.length ≤ ms.length)
    (hpos : ∀ m ∈ ms, ∀ vcr, m.ValueColRequest = some vcr → skipsFields m = true →
      1 ≤ vcr.GetFields.length)
    (hcs : rr.currStats = ms) (hlen : rr.runningStats.length = ms.length)
    (hmr : mr.length = ms.length)
    (hsk : sketchesPresent ms rr.runningStats) (hk : kindsOk ms rr.runningStats)
    (hfuel : ms.length ≤ fuel) :
    ∃ rr1, AddMeasureResultsTop U fuel rr mr qid cnt utc = Except.ok rr1 ∧
      rr1.currStats = ms ∧ rr1.runningStats.length = ms.length ∧
      sketchesPresent ms rr1.runningStats ∧ kindsOk ms rr1.runningStats := by
  obtain ⟨hno, hkeep⟩ := forLoop_invariant
    (fun rs => rs.length = ms.length ∧ sketchesPresent ms rs)
    (fun f => f = Fault.indexOutOfRange ∨ f = Fault.nilDereference) (by simp)
    (fun rs i hinv hi => AddMeasureResultsBody_in_bounds U rr ms mr cnt utc
      hwf hcs hmr rs i hinv hi)
    fuel 0 rr.runningStats ⟨hlen, hsk⟩
  obtain ⟨hno2, hkeep2⟩ := forLoop_invariant (kindsOk ms) (fun f => f = Fault.typeAssertion)
    (by simp)
    (fun rs i hinv hi => AddMeasureResultsBody_kinds U rr ms mr cnt utc hcs rs i hinv hi)
    fuel 0 rr.runningStats hk
  cases h : AddMeasureResultsTop U fuel rr mr qid cnt utc with
  | ok rr1 =>
    obtain ⟨h1, h2⟩ := hkeep _ (AddMeasureResultsTop_loop h)
    exact ⟨rr1, rfl, by rw [(AddMeasureResultsTop_inv h).2.1, hcs], h1, h2,
      hkeep2 _ (AddMeasureResultsTop_loop h)⟩
  | error f =>
    exfalso
    have hl := AddMeasureResultsTop_fault h
    cases f with
    | indexOutOfRange => exact hno _ hl (Or.inl rfl)
    | nilDereference => exact hno _ hl (Or.inr rfl)
    | typeAssertion => exact hno2 _ hl rfl
    | outOfFuel =>
      refine AddMeasureResults_enough_fuel U fuel rr rr.runningStats mr qid cnt utc
        (by rw [hcs]; exact hpos) (by omega) ?_
      simp only [AddMeasureResults, hl, bind, Except.bind]

/-- A returning loop dispatches the index `i` when no dispatch before `i` moves
the loop variable back or past `i`. -/
theorem forLoop_reaches {bound : List runningStats → Nat} {body : Body}
    (hbd : BoundByLength bound) (hloc : BodyLocal bound body) (i : Nat)
    (hstep : ∀ (x : Nat) (rs rs1 : List runningStats) (x1 : Int) (e : error), x < i →
      x < bound rs → body rs x = Except.ok (rs1, x1, e) → (x : Int) ≤ x1 ∧ x1 + 1 ≤ (i : Int)) :
    ∀ (fuel j : Nat) (rs rs' : List runningStats), j ≤ i → i < bound rs →
      forLoop bound body fuel j rs = Except.ok rs' →
      ∃ e, (i, e) ∈ forTrace bound body fuel j rs := by
  intro fuel
  induction fuel with
  | zero =>
    intro j rs rs' hji hi h
    have hj : j < bound rs := by omega
    simp [forLoop, hj, throw, throwThe, MonadExceptOf.throw] at h
  | succ n ih =>
    intro j rs rs' hji hi h
    have hj : j < bound rs := by omega
    obtain ⟨rs1, j1, err, hb, hrest⟩ := forLoop_succ_ok hj h
    have hlen : bound rs1 = bound rs := by
      obtain ⟨⟨s, hs⟩, _⟩ := hloc rs j rs1 j1 err hj hb
      apply hbd
      rw [hs, List.length_set]
    simp only [forTrace, hj, if_true, hb, List.mem_cons, Prod.mk.injEq]
    by_cases hij : j = i
    · exact ⟨err, Or.inl ⟨hij.symm, rfl⟩⟩
    · obtain ⟨h1, h2⟩ := hstep j rs rs1 j1 err (by omega) hj hb
      obtain ⟨e, he⟩ := ih (j1 + 1).toNat rs1 rs' (by omega) (by rw [hlen]; exact hi) hrest
      exact ⟨e, Or.inr he⟩

/-- The step of a dispatch of `AddMeasureResults` is zero, or the number of
fields of the conditional expression of a count, values or cardinality measure,
less one. -/
theorem addStep_cases (U : Utils) (m : MeasureAggregator) (mr : List CValueEnclosure)
    (i : Nat) :
    addStep U m mr i = 0 ∨ ∃ vcr, m.ValueColRequest = some vcr ∧ skipsFields m = true ∧
      addStep U m mr i = (vcr.GetFields.length : Int) - 1 := by
  unfold addStep
  cases hfn : m.MeasureFunc <;> cases hv : m.ValueColRequest <;>
    simp only [countSkip, valuesSkip, hv, true_or]
  all_goals
    rename_i vcr
    split
    · exact Or.inr ⟨vcr, rfl, by simp [skipsFields, hfn, hv], rfl⟩
    · exact Or.inl rfl

/-- A returning `AddMeasureResults` dispatches the index `i` of the slot list
when every conditional expression of a count, values or cardinality measure
declares at least one field and none of those before `i` reaches `i`. -/
theorem AddMeasureResults_dispatches {U : Utils} {fuel : Nat} {rr rr1 : RunningBucketResults}
    {rs rs1 : List runningStats} {mr : List CValueEnclosure} {qid cnt : Nat} {utc : Bool}
    {i : Nat}
    (h : AddMeasureResults U fuel rr rs mr qid cnt utc = Except.ok (rs1, rr1))
    (hpos : ∀ m ∈ rr.currStats, ∀ vcr, m.ValueColRequest = some vcr → skipsFields m = true →
      1 ≤ vcr.GetFields.length)
    (hcover : ∀ (j : Nat) (m : MeasureAggregator) (vcr : ValueExpr), j < i →
      rr.currStats[j]? = some m → m.ValueColRequest = some vcr → skipsFields m = true →
      j + vcr.GetFields.length ≤ i)
    (hi : i < rs.length) :
    ∃ e, (i, e) ∈ AddMeasureResultsTrace U fuel rr rs mr cnt utc := by
  refine forLoop_reaches boundByLength_length (AddMeasureResultsBody_local U rr mr cnt utc) i
    ?_ fuel 0 rs rs1 (Nat.zero_le _) hi (AddMeasureResults_loop h)
  intro x rs0 rs2 x1 e hxi hx hb
  obtain ⟨m, hm, _, hx1, _⟩ := AddMeasureResultsBody_inv (List.getElem?_eq_getElem hx) hb
  have hmem : m ∈ rr.currStats := List.mem_iff_getElem?.2 ⟨x, hm⟩
  rcases addStep_cases U m mr x with h0 | ⟨vcr, hv, hsk, hst⟩
  · rw [h0] at hx1
    omega
  · have h1 := hpos m hmem vcr hv hsk
    have h2 := hcover x m vcr hxi hm hv hsk
    rw [hst] at hx1
    omega

/-- On a fresh bucket over well-formed measures, every sequence of calls with
input vectors as long as the measure list returns, given a fuel of at least
`len(slots)`, and each call dispatches every index that no conditional
expression before it reaches. -/
theorem addCalls_run (U : Utils) (fuel : Nat) (ms : List MeasureAggregator) (i : Nat)
    (hwf : ∀ (j : Nat) (m : MeasureAggregator) (vcr : ValueExpr), ms[j]? = some m →
      m.ValueColRequest = some vcr → 1 ≤ vcr.GetFields.length →
      j + vcr.GetFields.length ≤ ms.length)
    (hpos : ∀ m ∈ ms, ∀ vcr, m.ValueColRequest = some vcr → skipsFields m = true →
      1 ≤ vcr.GetFields.length)
    (hcover : ∀ (j : Nat) (m : MeasureAggregator) (vcr : ValueExpr), j < i →
      ms[j]? = some m → m.ValueColRequest = some vcr → skipsFields m = true →
      j + vcr.GetFields.length ≤ i)
    (hi : i < ms.length) (hfuel : ms.length ≤ fuel) :
    ∀ (calls : List AddCall) (rr : RunningBucketResults),
      (∀ c ∈ calls, c.measureResults.length = ms.length) →
      rr.currStats = ms → rr.runningStats.length = ms.length →
      sketchesPresent ms rr.runningStats → kindsOk ms rr.runningStats →
      ∃ rr1, addCalls U fuel rr calls = Except.ok rr1 ∧ AddRun U fuel i rr calls rr1 := by
  intro calls
  induction calls with
  | nil =>
    intro rr _ _ _ _ _
    exact ⟨rr, rfl, AddRun.done rr⟩
  | cons c calls ih =>
    intro rr hlen hcs hl hsk hk
    obtain ⟨rr1, hcall, hcs1, hl1, hsk1, hk1⟩ := AddMeasureResultsTop_returns U fuel ms rr
      c.measureResults c.qid c.cnt c.usedByTimechart hwf hpos hcs hl
      (hlen c (List.mem_cons_self _ _)) hsk hk hfuel
    obtain ⟨e, he⟩ := AddMeasureResults_dispatches (i := i) (AddMeasureResultsTop_inv hcall).1
      (by rw [hcs]; exact hpos) (by rw [hcs]; exact hcover) (by rw [hl]; exact hi)
    obtain ⟨rr2, hrest, hrun⟩ := ih rr1 (fun c hc => hlen c (List.mem_cons_of_mem _ hc)) hcs1 hl1
      hsk1 hk1
    refine ⟨rr2, ?_, AddRun.call rr rr1 rr2 c calls e hcall he hrun⟩
    simp only [addCalls, hcall, bind, Except.bind]
    exact hrest

theorem initRunningStats_kinds (ms : List MeasureAggregator) :
    kindsOk ms (initRunningStats ms) := by
  intro i m s hm hs
  obtain ⟨slot, hz, hraw⟩ := initRunningStats_rawVal ms i m hm
  rw [hz] at hs
  cases hs
  simp [isEmptyOrInt, isEmptyOrSet, hraw, CValueEnclosure.zero]

/-- On the fresh bucket over `count() where 1 = 1`, no fuel lets
`AddMeasureResults` return. -/
theorem constCount_add_spins (fuel : Nat) :
    AddMeasureResultsTop specUtils fuel (initRunningGroupByBucket constCountMeasures)
      [unsignedNum 1] 0 1 false = Except.error Fault.outOfFuel := by
  obtain ⟨h1, _⟩ := forLoop_spin
    (fun rs => ∃ slot, rs = [slot] ∧ isEmptyOrInt slot.rawVal = true) 0
    (fun rs hinv => constCount_add_body (initRunningGroupByBucket constCountMeasures)
      [unsignedNum 1] 1 false rfl rs hinv)
    fuel (initRunningGroupByBucket constCountMeasures).runningStats
    ⟨runningStats.zero, rfl, rfl⟩
  simp only [AddMeasureResultsTop, AddMeasureResults, h1, bind, Except.bind]

/-- C3, counterexample. Three fresh buckets on which the conditional
expression of the count at index `i` evaluates without error on the input, and
the accumulator of slot `i` is not the number of true evaluations. Over
`count() where 1 = 1`, whose expression declares zero fields, the call returns
with no fuel. Over `[count() where a > b, count() where y > 10]` with the
input `[5, 20]`, index 1 is a trailing position of the first measure: it is not
dispatched and its accumulator stays empty, though `y > 10` is true on 20.
Over `[count() where y > 10, sum(x)]` with the input `[20]`, one value short,
the call ends in a read out of range. -/
theorem conditional_count_counterexample :
    (condBool exprConstTrue [unsignedNum 1] 0 = some (Except.ok true) ∧
        ¬ ∃ fuel rr1, AddMeasureResultsTop specUtils fuel
          (initRunningGroupByBucket constCountMeasures) [unsignedNum 1] 0 1 false =
            Except.ok rr1) ∧
      (condBool exprYGt10 [unsignedNum 5, unsignedNum 20] 1 = some (Except.ok true) ∧
        ((AddMeasureResultsTop specUtils 2
          (initRunningGroupByBucket
            [⟨AggregateFunctions.Count, some exprAGtB⟩,
              ⟨AggregateFunctions.Count, some exprYGt10⟩])
          [unsignedNum 5, unsignedNum 20] 0 1 false).toOption.map fun r => r.runningStats) =
          some [⟨signedNum 0, none⟩, runningStats.zero]) ∧
      (condBool exprYGt10 [unsignedNum 20] 0 = some (Except.ok true) ∧
        AddMeasureResultsTop specUtils 2
          (initRunningGroupByBucket
            [⟨AggregateFunctions.Count, some exprYGt10⟩, ⟨AggregateFunctions.Sum, none⟩])
          [unsignedNum 20] 0 1 false = Except.error Fault.indexOutOfRange) := by
  refine ⟨⟨rfl, ?_⟩, ⟨rfl, by decide⟩, ⟨rfl, rfl⟩⟩
  rintro ⟨fuel, rr1, h⟩
  rw [constCount_add_spins fuel] at h
  cases h

/-- C3, as amended (conditional count correctness). Let the measure at index
`i` of `ms` be a count with conditional expression `P`; let every conditional
expression of a count, values or cardinality measure of `ms` declare at least
one field, the fields of every conditional expression fit in the measure list,
and no such expression before `i` reach `i`. Then every sequence of `n ≥ 1`
`AddMeasureResults` calls on the fresh bucket, with input vectors as long as
`ms` on which `P` evaluates without error, returns, given a fuel of at least
`len(ms)`, and the accumulator of slot `i` afterwards is the signed integer
`k`, the number of calls on which `P` evaluated to true (as an `int64`, so `k`
itself below `2^63`); row counts, `usedByTimechart` and the input values matter
only through `P`. -/
theorem conditional_count_correct (U : Utils) (fuel : Nat) (ms : List MeasureAggregator)
    (i : Nat) (P : ValueExpr) (calls : List AddCall)
    (hm : ms[i]? = some { MeasureFunc := AggregateFunctions.Count, ValueColRequest := some P })
    (hwf : ∀ (j : Nat) (m : MeasureAggregator) (vcr : ValueExpr), ms[j]? = some m →
      m.ValueColRequest = some vcr → 1 ≤ vcr.GetFields.length →
      j + vcr.GetFields.length ≤ ms.length)
    (hpos : ∀ m ∈ ms, ∀ vcr, m.ValueColRequest = some vcr → skipsFields m = true →
      1 ≤ vcr.GetFields.length)
    (hcover : ∀ (j : Nat) (m : MeasureAggregator) (vcr : ValueExpr), j < i →
      ms[j]? = some m → m.ValueColRequest = some vcr → skipsFields m = true →
      j + vcr.GetFields.length ≤ i)
    (hlen : ∀ c ∈ calls, c.measureResults.length = ms.length)
    (hfuel : ms.length ≤ fuel) (hne : calls ≠ [])
    (hP : ∀ c ∈ calls, ∃ b, condBool P c.measureResults i = some (Except.ok b)) :
    ∃ rr1, addCalls U fuel (initRunningGroupByBucket ms) calls = Except.ok rr1 ∧
      (rr1.runningStats[i]?).map (fun s => s.rawVal) =
        some { Dtype := SS_DTYPE.SS_DT_SIGNED_NUM
               CVal := CVal.int64
                 (wrapI64 (calls.countP (fun c => condTrue P c.measureResults i) : Nat)) } ∧
      (calls.countP (fun c => condTrue P c.measureResults i) < 2 ^ 63 →
        (rr1.runningStats[i]?).map (fun s => s.rawVal) =
          some { Dtype := SS_DTYPE.SS_DT_SIGNED_NUM
                 CVal := CVal.int64
                   (calls.countP (fun c => condTrue P c.measureResults i) : Nat) }) := by
  have hi : i < ms.length := by
    by_contra hc
    rw [List.getElem?_eq_none (by omega)] at hm
    cases hm
  obtain ⟨rr1, hcalls, hrun⟩ := addCalls_run U fuel ms i hwf hpos hcover hi hfuel calls
    (initRunningGroupByBucket ms) hlen rfl (initRunningStats_length ms)
    (initRunningStats_sketches ms) (initRunningStats_kinds ms)
  obtain ⟨h1, h2⟩ := AddRun_conditional_count U fuel ms i P calls rr1 hm hrun hne hP
  exact ⟨rr1, hcalls, h1, h2⟩

/-- C3 on a fresh bucket over `count() where y > 10` and two blocks, 11 and 1:
the accumulator is the signed 1, whatever the row counts and
`usedByTimechart`. -/
theorem conditional_count_correct_witness :
    ∃ rr1, addCalls specUtils 1
        (initRunningGroupByBucket [⟨AggregateFunctions.Count, some exprYGt10⟩])
        [⟨[unsignedNum 11], 0, 3, false⟩, ⟨[unsignedNum 1], 0, 2, true⟩] = Except.ok rr1 ∧
      (rr1.runningStats[0]?).map (fun s => s.rawVal) = some (signedNum 1) := by
  obtain ⟨rr1, h1, _, h3⟩ := conditional_count_correct specUtils 1
    [⟨AggregateFunctions.Count, some exprYGt10⟩] 0 exprYGt10
    [⟨[unsignedNum 11], 0, 3, false⟩, ⟨[unsignedNum 1], 0, 2, true⟩] rfl
    (by
      intro j m vcr hm hv _
      have hj : j = 0 := by
        by_contra hc
        rw [List.getElem?_eq_none (by simp; omega)] at hm
        cases hm
      subst hj
      simp only [List.getElem?_cons_zero, Option.some.injEq] at hm
      subst hm
      simp only [Option.some.injEq] at hv
      subst hv
      decide)
    (by
      intro m hmem vcr hv _
      simp only [List.mem_singleton] at hmem
      subst hmem
      simp only [Option.some.injEq] at hv
      subst hv
      decide)
    (by
      intro j m vcr hj
      omega)
    (by
      intro c hc
      simp only [List.mem_cons, List.mem_singleton, List.not_mem_nil, or_false] at hc
      rcases hc with rfl | rfl <;> rfl)
    (by decide) (by simp)
    (by
      intro c hc
      simp only [List.mem_cons, List.mem_singleton, List.not_mem_nil, or_false] at hc
      rcases hc with rfl | rfl
      · exact ⟨true, rfl⟩
      · exact ⟨false, rfl⟩)
  exact ⟨rr1, h1, h3 (by decide)⟩

/-- One dispatch of `values(1 = 1)`: the handler returns the step
`len(fields) - 1 = -1`. -/
theorem constValues_add_body (rr : RunningBucketResults) (mr : List CValueEnclosure)
    (cnt : Nat) (utc : Bool) (hcs : rr.currStats = constValuesMeasures)
    (rs : List runningStats)
    (hinv : ∃ slot, rs = [slot] ∧ isEmptyOrSet slot.rawVal = true) :
    0 < rs.length ∧
      ∃ rs1 e, AddMeasureResultsBody specUtils rr mr cnt utc rs 0 =
          Except.ok (rs1, ((0 : Nat) : Int) - 1, e) ∧
        ∃ slot, rs1 = [slot] ∧ isEmptyOrSet slot.rawVal = true := by
  obtain ⟨slot, hrs, hk⟩ := hinv
  subst hrs
  refine ⟨by simp, ?_⟩
  obtain ⟨S, hS⟩ := valuesInit_set hk
  refine ⟨[{ valuesInit slot with
      rawVal := { (valuesInit slot).rawVal with CVal := CVal.stringSet (insert "true" S) } }],
    none, ?_, _, rfl, by simp [isEmptyOrSet]⟩
  simp [AddMeasureResultsBody, hcs, constValuesMeasures, index,
    AddEvalResultsForValuesOrCardinality, exprConstTrue, fillFieldToValue, bind, Except.bind,
    pure, Except.pure, hS]

/-- On the fresh bucket over `values(1 = 1)`, no fuel lets `AddMeasureResults`
return. -/
theorem constValues_add_spins (fuel : Nat) :
    AddMeasureResultsTop specUtils fuel (initRunningGroupByBucket constValuesMeasures)
      [unsignedNum 1] 0 1 false = Except.error Fault.outOfFuel := by
  obtain ⟨h1, _⟩ := forLoop_spin
    (fun rs => ∃ slot, rs = [slot] ∧ isEmptyOrSet slot.rawVal = true) 0
    (fun rs hinv => constValues_add_body (initRunningGroupByBucket constValuesMeasures)
      [unsignedNum 1] 1 false rfl rs hinv)
    fuel (initRunningGroupByBucket constValuesMeasures).runningStats
    ⟨runningStats.zero, rfl, rfl⟩
  simp only [AddMeasureResultsTop, AddMeasureResults, h1, bind, Except.bind]

/-- C9, counterexample. Three fresh buckets on which the string extraction of
the measure at index `i` succeeds on the input, and the accumulator of slot `i`
is not the set of the strings produced. Over `values(1 = 1)`, whose expression
declares zero fields, the extraction gives `"true"` and the call returns with
no fuel. Over `[count() where a > b, values(y)]` with the input `[5, 20]`,
index 1 is a trailing position of the first measure: it is not dispatched and
its accumulator stays empty, though the extraction gives `"big"`. Over
`[values(y), sum(x)]` with the input `[20]`, one value short, the call ends in
a read out of range. -/
theorem distinct_set_counterexample :
    (valuesString specUtils ⟨AggregateFunctions.Values, some exprConstTrue⟩
          [unsignedNum 1] 0 = some (Except.ok "true") ∧
        ¬ ∃ fuel rr1, AddMeasureResultsTop specUtils fuel
          (initRunningGroupByBucket constValuesMeasures) [unsignedNum 1] 0 1 false =
            Except.ok rr1) ∧
      (valuesString specUtils ⟨AggregateFunctions.Values, some exprYString⟩
          [unsignedNum 5, unsignedNum 20] 1 = some (Except.ok "big") ∧
        ((AddMeasureResultsTop specUtils 2
          (initRunningGroupByBucket
            [⟨AggregateFunctions.Count, some exprAGtB⟩,
              ⟨AggregateFunctions.Values, some exprYString⟩])
          [unsignedNum 5, unsignedNum 20] 0 1 false).toOption.map fun r => r.runningStats) =
          some [⟨signedNum 0, none⟩, runningStats.zero]) ∧
      (valuesString specUtils ⟨AggregateFunctions.Values, some exprYString⟩
          [unsignedNum 20] 0 = some (Except.ok "big") ∧
        AddMeasureResultsTop specUtils 2
          (initRunningGroupByBucket
            [⟨AggregateFunctions.Values, some exprYString⟩, ⟨AggregateFunctions.Sum, none⟩])
          [unsignedNum 20] 0 1 false = Except.error Fault.indexOutOfRange) := by
  refine ⟨⟨rfl, ?_⟩, ⟨rfl, rfl⟩, ⟨rfl, rfl⟩⟩
  rintro ⟨fuel, rr1, h⟩
  rw [constValues_add_spins fuel] at h
  cases h

/-- C9, as amended (exact distinct-set tracking). Let the measure `m` at index
`i` of `ms` be a values measure or a cardinality measure with a conditional
expression; let every conditional expression of a count, values or cardinality
measure of `ms` declare at least one field, the fields of every conditional
expression fit in the measure list, and no such expression before `i` reach
`i`. Then every sequence of `n ≥ 1` `AddMeasureResults` calls on the fresh
bucket, with input vectors as long as `ms` on which the string extraction of
`m` succeeds, returns, given a fuel of at least `len(ms)`, and the accumulator
of slot `i` afterwards is the set of exactly the strings the calls produced
(the stringified `rawValues[i]` without a conditional expression, the string
the expression evaluates to on the field map of `rawValues[i..i+f-1]` with
one), so that its size is the number of distinct strings among them. -/
theorem distinct_set_exact (U : Utils) (fuel : Nat) (ms : List MeasureAggregator)
    (i : Nat) (m : MeasureAggregator) (calls : List AddCall)
    (hm : ms[i]? = some m) (hu : usesStringSet m = true)
    (hwf : ∀ (j : Nat) (m : MeasureAggregator) (vcr : ValueExpr), ms[j]? = some m →
      m.ValueColRequest = some vcr → 1 ≤ vcr.GetFields.length →
      j + vcr.GetFields.length ≤ ms.length)
    (hpos : ∀ m ∈ ms, ∀ vcr, m.ValueColRequest = some vcr → skipsFields m = true →
      1 ≤ vcr.GetFields.length)
    (hcover : ∀ (j : Nat) (m : MeasureAggregator) (vcr : ValueExpr), j < i →
      ms[j]? = some m → m.ValueColRequest = some vcr → skipsFields m = true →
      j + vcr.GetFields.length ≤ i)
    (hlen : ∀ c ∈ calls, c.measureResults.length = ms.length)
    (hfuel : ms.length ≤ fuel) (hne : calls ≠ [])
    (hS : ∀ c ∈ calls, ∃ s, valuesString U m c.measureResults i = some (Except.ok s)) :
    ∃ rr1, addCalls U fuel (initRunningGroupByBucket ms) calls = Except.ok rr1 ∧
      (rr1.runningStats[i]?).map (fun s => s.rawVal) =
        some { Dtype := SS_DTYPE.SS_DT_STRING_SET
               CVal := CVal.stringSet
                 (calls.filterMap fun c => extractedString U m c.measureResults i).toFinset } ∧
      (∀ x, x ∈ (calls.filterMap fun c => extractedString U m c.measureResults i).toFinset ↔
        ∃ c ∈ calls, valuesString U m c.measureResults i = some (Except.ok x)) ∧
      (calls.filterMap fun c => extractedString U m c.measureResults i).toFinset.card =
        (calls.filterMap fun c => extractedString U m c.measureResults i).dedup.length := by
  have hi : i < ms.length := by
    by_contra hc
    rw [List.getElem?_eq_none (by omega)] at hm
    cases hm
  obtain ⟨rr1, hcalls, hrun⟩ := addCalls_run U fuel ms i hwf hpos hcover hi hfuel calls
    (initRunningGroupByBucket ms) hlen rfl (initRunningStats_length ms)
    (initRunningStats_sketches ms) (initRunningStats_kinds ms)
  exact ⟨rr1, hcalls, AddRun_distinct_set U fuel ms i m calls rr1 hm hu hrun hne hS⟩

/-- C9 on a fresh bucket over `values(y)`, where `y` is turned into `"big"` or
`"small"`, and three blocks, 1, 11 and 2: the accumulator is the set of the two
strings. -/
theorem distinct_set_exact_witness :
    ∃ rr1, addCalls specUtils 1
        (initRunningGroupByBucket [⟨AggregateFunctions.Values, some exprYString⟩])
        [⟨[unsignedNum 1], 0, 1, false⟩, ⟨[unsignedNum 11], 0, 1, false⟩,
          ⟨[unsignedNum 2], 0, 1, false⟩] = Except.ok rr1 ∧
      (rr1.runningStats[0]?).map (fun s => s.rawVal) =
        some { Dtype := SS_DTYPE.SS_DT_STRING_SET, CVal := CVal.stringSet {"big", "small"} } := by
  obtain ⟨rr1, h1, h2, _⟩ := distinct_set_exact specUtils 1
    [⟨AggregateFunctions.Values, some exprYString⟩] 0
    ⟨AggregateFunctions.Values, some exprYString⟩
    [⟨[unsignedNum 1], 0, 1, false⟩, ⟨[unsignedNum 11], 0, 1, false⟩,
      ⟨[unsignedNum 2], 0, 1, false⟩] rfl rfl
    (by
      intro j m vcr hm hv _
      have hj : j = 0 := by
        by_contra hc
        rw [List.getElem?_eq_none (by simp; omega)] at hm
        cases hm
      subst hj
      simp only [List.getElem?_cons_zero, Option.some.injEq] at hm
      subst hm
      simp only [Option.some.injEq] at hv
      subst hv
      decide)
    (by
      intro m hmem vcr hv _
      simp only [List.mem_singleton] at hmem
      subst hmem
      simp only [Option.some.injEq] at hv
      subst hv
      decide)
    (by
      intro j m vcr hj
      omega)
    (by
      intro c hc
      simp only [List.mem_cons, List.mem_singleton, List.not_mem_nil, or_false] at hc
      rcases hc with rfl | rfl | rfl <;> rfl)
    (by decide) (by simp)
    (by
      intro c hc
      simp only [List.mem_cons, List.mem_singleton, List.not_mem_nil, or_false] at hc
      rcases hc with rfl | rfl | rfl
      · exact ⟨"small", rfl⟩
      · exact ⟨"big", rfl⟩
      · exact ⟨"small", rfl⟩)
  exact ⟨rr1, h1, h2.trans rfl⟩

theorem lookup_mem {β : Type} (key : String) (v : β) :
    ∀ (l : List (String × β)), l.lookup key = some v → (key, v) ∈ l := by
  intro l
  induction l with
  | nil => intro h; cases h
  | cons p rest ih =>
    intro h
    obtain ⟨k, w⟩ := p
    by_cases hk : key = k
    · subst hk
      simp only [List.lookup_cons, beq_self_eq_true, Option.some.injEq] at h
      subst h
      exact List.mem_cons_self _ _
    · have hne : (key == k) = false := by simpa using hk
      simp only [List.lookup_cons, hne] at h
      exact List.mem_cons_of_mem _ (ih h)

/-- The map write keeps the kinds of the slot lists of the map, the list
written being of the right kinds. -/
theorem putGroup_kinds {ms : List MeasureAggregator} (key : String) (rs : List runningStats)
    (grouped : List (String × List runningStats))
    (hg : ∀ p ∈ grouped, kindsOk ms p.2) (hrs : kindsOk ms rs) :
    ∀ p ∈ putGroup key rs grouped, kindsOk ms p.2 := by
  intro p hp
  unfold putGroup at hp
  cases hl : grouped.lookup key with
  | none =>
    simp only [hl, List.mem_append, List.mem_singleton] at hp
    rcases hp with hp | hp
    · exact hg p hp
    · rw [hp]
      exact hrs
  | some old =>
    simp only [hl, List.mem_map] at hp
    obtain ⟨q, hq, hqp⟩ := hp
    by_cases hk : q.1 = key
    · simp only [hk, if_true] at hqp
      rw [← hqp]
      exact hrs
    · simp only [hk, if_false] at hqp
      rw [← hqp]
      exact hg q hq

/-- A returning `AddMeasureResults` on a slot list of the right kinds leaves a
slot list of the right kinds, and no `AddMeasureResults` on such a list ends in
a failed cast. -/
theorem AddMeasureResults_kinds (U : Utils) (fuel : Nat) (rr : RunningBucketResults)
    (ms : List MeasureAggregator) (hcs : rr.currStats = ms) (rs : List runningStats)
    (hinv : kindsOk ms rs) (mr : List CValueEnclosure) (qid cnt : Nat) (utc : Bool) :
    AddMeasureResults U fuel rr rs mr qid cnt utc ≠ Except.error Fault.typeAssertion ∧
      ∀ rs1 rr1, AddMeasureResults U fuel rr rs mr qid cnt utc = Except.ok (rs1, rr1) →
        kindsOk ms rs1 ∧ rr1 = { rr with count := wrapU64 (rr.count + cnt) } := by
  obtain ⟨hf, hok⟩ := forLoop_invariant (kindsOk ms) (fun f => f = Fault.typeAssertion)
    (by simp)
    (fun rs i hinv hi => AddMeasureResultsBody_kinds U rr ms mr cnt utc hcs rs i hinv hi)
    fuel 0 rs hinv
  refine ⟨?_, ?_⟩
  · intro h
    unfold AddMeasureResults at h
    cases hl : forLoop List.length (AddMeasureResultsBody U rr mr cnt utc) fuel 0 rs with
    | error f2 =>
      simp only [hl, bind, Except.bind, Except.error.injEq] at h
      exact hf f2 hl h
    | ok r => simp [hl, bind, Except.bind, pure, Except.pure] at h
  · intro rs1 rr1 h
    refine ⟨hok _ (AddMeasureResults_loop h), ?_⟩
    unfold AddMeasureResults at h
    cases hl : forLoop List.length (AddMeasureResultsBody U rr mr cnt utc) fuel 0 rs with
    | error f => simp [hl, bind, Except.bind] at h
    | ok r =>
      simp only [hl, bind, Except.bind, pure, Except.pure, Except.ok.injEq, Prod.mk.injEq] at h
      exact h.2.symm

/-- A returning `mergeRunningStats` of two slot lists of the right kinds leaves
a slot list of the right kinds. -/
theorem mergeRunningStats_kinds {U : Utils} {fuel : Nat} {ms : List MeasureAggregator}
    (hkind : ∀ a b fn r, U.Reduce a b fn = Except.ok r →
      payloadKind r.CVal = payloadKind a.CVal ∨ payloadKind r.CVal = payloadKind b.CVal)
    {rr : RunningBucketResults} (hcs : rr.currStats = ms) {rs0 tjs rs : List runningStats}
    (hinv : kindsOk ms rs0) (hpeer : kindsOk ms tjs)
    (hrs : mergeRunningStats U fuel rr rs0 tjs = Except.ok rs) : kindsOk ms rs := by
  unfold mergeRunningStats at hrs
  refine (@forLoop_invariant (fun _ => tjs.length) (mergeRunningStatsBody U rr tjs)
    (kindsOk ms) (fun _ => False) (by simp) ?_ fuel 0 rs0 hinv).2 _ hrs
  intro rs1 i hinv0 hi
  refine ⟨?_, ?_⟩
  · intro f _ hft
    exact hft
  · intro rs2 i1 e hb
    have hi2 : i < tjs.length := hi
    obtain ⟨slot, m, tj, hs, hm, ht, hr1, _⟩ := mergeRunningStatsBody_inv hi2 hb
    rw [hcs] at hm
    obtain ⟨h1, h2⟩ := hinv0 i m slot hm hs
    obtain ⟨p1, p2⟩ := hpeer i m tj hm ht
    obtain ⟨g1, g2⟩ := mergeSlot_kinds hkind m tj slot
    rw [hr1]
    exact kindsOk_set hm hinv0
      ⟨fun hfn hv => g1 hfn hv (h1 hfn hv) (p1 hfn hv), fun hu => g2 hu (h2 hu) (p2 hu)⟩

/-- The loop over the grouped slots of `MergeRunningBuckets` keeps the kinds of
the slot lists, those of the peer being of the right kinds too. -/
theorem mergeGrouped_kinds {U : Utils} {fuel : Nat} {ms : List MeasureAggregator}
    (hkind : ∀ a b fn r, U.Reduce a b fn = Except.ok r →
      payloadKind r.CVal = payloadKind a.CVal ∨ payloadKind r.CVal = payloadKind b.CVal)
    {rr : RunningBucketResults} (hcs : rr.currStats = ms)
    (tjG : List (String × List runningStats)) (hpeer : ∀ p ∈ tjG, kindsOk ms p.2) :
    ∀ (entries out : List (String × List runningStats)),
      (∀ p ∈ entries, kindsOk ms p.2) →
      mergeGrouped U fuel rr tjG entries = Except.ok out →
      ∀ p ∈ out, kindsOk ms p.2 := by
  intro entries
  induction entries with
  | nil =>
    intro out _ h
    simp only [mergeGrouped, pure, Except.pure, Except.ok.injEq] at h
    subst h
    intro p hp
    cases hp
  | cons entry rest ih =>
    intro out hg h
    obtain ⟨g, la0⟩ := entry
    have hla : kindsOk ms la0 := hg (g, la0) (List.mem_cons_self _ _)
    have hrestg : ∀ p ∈ rest, kindsOk ms p.2 := fun p hp => hg p (List.mem_cons_of_mem _ hp)
    simp only [mergeGrouped, bind, Except.bind] at h
    cases hl : tjG.lookup g with
    | none =>
      simp only [hl, pure, Except.pure] at h
      cases hrest : mergeGrouped U fuel rr tjG rest with
      | error f => simp [hrest] at h
      | ok rest1 =>
        simp only [hrest, Except.ok.injEq] at h
        subst h
        intro p hp
        rcases List.mem_cons.1 hp with hp | hp
        · rw [hp]
          exact hla
        · exact ih rest1 hrestg hrest p hp
    | some lb0 =>
      simp only [hl] at h
      cases hm : mergeRunningStats U fuel rr la0 lb0 with
      | error f => simp [hm] at h
      | ok merged =>
        simp only [hm] at h
        cases hrest : mergeGrouped U fuel rr tjG rest with
        | error f => simp [hrest] at h
        | ok rest1 =>
          simp only [hrest, pure, Except.pure, Except.ok.injEq] at h
          subst h
          intro p hp
          rcases List.mem_cons.1 hp with hp | hp
          · rw [hp]
            exact mergeRunningStats_kinds hkind hcs hla (hpeer _ (lookup_mem g lb0 tjG hl)) hm
          · exact ih rest1 hrestg hrest p hp

/-- Every reachable state is over `ms`, and its top-level slots and the slots
of each of its groups are of the right kinds. -/
theorem Reachable_kinds {U : Utils} {fuel : Nat} {ms : List MeasureAggregator}
    (hkind : ∀ a b fn r, U.Reduce a b fn = Except.ok r →
      payloadKind r.CVal = payloadKind a.CVal ∨ payloadKind r.CVal = payloadKind b.CVal)
    {rr : RunningBucketResults} (h : Reachable U fuel ms rr) :
    rr.currStats = ms ∧ kindsOk ms rr.runningStats ∧
      ∀ p ∈ rr.groupedRunningStats, kindsOk ms p.2 := by
  induction h with
  | fresh =>
    refine ⟨rfl, initRunningStats_kinds ms, ?_⟩
    intro p hp
    cases hp
  | add rr rr1 mr qid cnt utc _ hcall ih =>
    obtain ⟨hcs, hinv, hg⟩ := ih
    obtain ⟨hadd, hcs1, hg1, _⟩ := AddMeasureResultsTop_inv hcall
    refine ⟨by rw [hcs1, hcs], ?_, by rw [hg1]; exact hg⟩
    exact ((AddMeasureResults_kinds U fuel rr ms hcs rr.runningStats hinv mr qid cnt utc).2
      _ _ hadd).1
  | group rr key _ ih =>
    obtain ⟨hcs, hinv, hg⟩ := ih
    refine ⟨hcs, hinv, ?_⟩
    show ∀ p ∈ putGroup key (initRunningStats rr.currStats) rr.groupedRunningStats,
      kindsOk ms p.2
    rw [hcs]
    exact putGroup_kinds key _ _ hg (initRunningStats_kinds ms)
  | addGrouped rr rr1 key slots slots1 mr qid cnt utc _ hlook hcall ih =>
    obtain ⟨hcs, hinv, hg⟩ := ih
    have hslots : kindsOk ms slots := hg _ (lookup_mem key slots _ hlook)
    obtain ⟨hk1, hrr1⟩ :=
      (AddMeasureResults_kinds U fuel rr ms hcs slots hslots mr qid cnt utc).2 _ _ hcall
    subst hrr1
    exact ⟨hcs, hinv, putGroup_kinds key _ _ hg hk1⟩
  | merge rr peer rr1 _ _ hcall ih ihp =>
    obtain ⟨hcs, hinv, hg⟩ := ih
    obtain ⟨_, hpeer, hpg⟩ := ihp
    obtain ⟨grouped, rs, hgr, hrs, hrr1⟩ := MergeRunningBuckets_inv hcall
    rw [hrr1]
    refine ⟨hcs, mergeRunningStats_kinds hkind hcs hinv hpeer hrs, ?_⟩
    show ∀ p ∈ grouped, kindsOk ms p.2
    by_cases hlen : rr.groupedRunningStats.length > 0
    · simp only [hlen, if_true] at hgr
      exact mergeGrouped_kinds hkind hcs _ hpg _ _ hg hgr
    · simp only [hlen, if_false, Except.ok.injEq] at hgr
      rw [← hgr]
      exact hg



/-- C17, counterexample. The reduce `mixedReduce` returns, on two operands of
the same kind, a value of that kind, which is all the claim assumes of it; on
an empty accumulator and a signed integer it returns a string. Over
`count() where y > 10`, the fresh bucket merged with a peer that received the
block `[20]` is reachable and holds that string in its count slot, which is
neither empty nor a signed integer; the next block `[20]` ends in the failed
cast `.(int64)` of `AddEvalResultsForCount`. -/
theorem accumulator_kind_counterexample :
    (∀ a b fn r, payloadKind a.CVal = payloadKind b.CVal →
        mixedReduce a b fn = Except.ok r → payloadKind r.CVal = payloadKind a.CVal) ∧
      ∃ s, Reachable mixedUtils 1 countYMeasures s ∧
        (s.runningStats[0]?).map (fun slot => slot.rawVal) = some (stringVal "?") ∧
        AddMeasureResultsTop mixedUtils 1 s [unsignedNum 20] 0 1 false =
          Except.error Fault.typeAssertion := by
  refine ⟨?_, ?_⟩
  · intro a b fn r hab h
    unfold mixedReduce at h
    rw [if_pos hab] at h
    rcases specReduce_kind a b fn r h with hk | hk
    · exact hk
    · rw [hk, hab]
  · refine ⟨_, Reachable.merge (initRunningGroupByBucket countYMeasures)
      { runningStats := [⟨signedNum 1, none⟩]
        currStats := countYMeasures
        groupedRunningStats := []
        count := 1 } _ Reachable.fresh
      (Reachable.add _ _ [unsignedNum 20] 0 1 false Reachable.fresh rfl) rfl, rfl, rfl⟩

/-- C17, as amended (accumulator kind invariant: the casts never fail). Let the
scalar reduce return, when it succeeds, a value of the kind of one of its
operands: of their common kind when the two are of the same kind, and, an empty
value having no kind of its own, of the kind of the other operand or empty when
one is empty. In every state reachable from the fresh bucket over `ms` by
returning `AddMeasureResults` calls, on the top-level slots or on the slots of
a group, and by returning `MergeRunningBuckets` calls with peers reachable the
same way, the accumulator of every count slot with a conditional expression is
empty or a signed integer, and the accumulator of every values slot and of
every cardinality slot with a conditional expression is empty or a set of
strings, in the top-level slot list and in the slot list of every group; hence
no `AddMeasureResults` call on such a state, on the top-level slots or on the
slots of a group, with any input and any fuel, ends in a failed `int64` or
string-set cast. -/
theorem accumulator_kind_invariant (U : Utils) (fuel : Nat) (ms : List MeasureAggregator)
    (rr : RunningBucketResults)
    (hkind : ∀ a b fn r, U.Reduce a b fn = Except.ok r →
      payloadKind r.CVal = payloadKind a.CVal ∨ payloadKind r.CVal = payloadKind b.CVal)
    (hreach : Reachable U fuel ms rr) :
    (∀ (i : Nat) (m : MeasureAggregator) (s : runningStats), ms[i]? = some m →
        m.MeasureFunc = AggregateFunctions.Count → m.ValueColRequest ≠ none →
        rr.runningStats[i]? = some s →
        s.rawVal.CVal = CVal.nil ∨ ∃ z, s.rawVal.CVal = CVal.int64 z) ∧
      (∀ (i : Nat) (m : MeasureAggregator) (s : runningStats), ms[i]? = some m →
        usesStringSet m = true → rr.runningStats[i]? = some s →
        s.rawVal.CVal = CVal.nil ∨ ∃ strSet, s.rawVal.CVal = CVal.stringSet strSet) ∧
      (∀ (fuel2 : Nat) (mr : List CValueEnclosure) (qid cnt : Nat) (utc : Bool),
        AddMeasureResultsTop U fuel2 rr mr qid cnt utc ≠ Except.error Fault.typeAssertion) ∧
      (∀ (groupByColVal : String) (slots : List runningStats),
        (groupByColVal, slots) ∈ rr.groupedRunningStats →
        (∀ (i : Nat) (m : MeasureAggregator) (s : runningStats), ms[i]? = some m →
          m.MeasureFunc = AggregateFunctions.Count → m.ValueColRequest ≠ none →
          slots[i]? = some s →
          s.rawVal.CVal = CVal.nil ∨ ∃ z, s.rawVal.CVal = CVal.int64 z) ∧
        (∀ (i : Nat) (m : MeasureAggregator) (s : runningStats), ms[i]? = some m →
          usesStringSet m = true → slots[i]? = some s →
          s.rawVal.CVal = CVal.nil ∨ ∃ strSet, s.rawVal.CVal = CVal.stringSet strSet) ∧
        (∀ (fuel2 : Nat) (mr : List CValueEnclosure) (qid cnt : Nat) (utc : Bool),
          AddMeasureResults U fuel2 rr slots mr qid cnt utc ≠
            Except.error Fault.typeAssertion)) := by
  obtain ⟨hcs, hinv, hg⟩ := Reachable_kinds hkind hreach
  have hint : ∀ (rs : List runningStats), kindsOk ms rs →
      ∀ (i : Nat) (m : MeasureAggregator) (s : runningStats), ms[i]? = some m →
        m.MeasureFunc = AggregateFunctions.Count → m.ValueColRequest ≠ none →
        rs[i]? = some s →
        s.rawVal.CVal = CVal.nil ∨ ∃ z, s.rawVal.CVal = CVal.int64 z := by
    intro rs hk i m s hm hfn hv hs
    have := (hk i m s hm hs).1 hfn hv
    unfold isEmptyOrInt at this
    cases hc : s.rawVal.CVal <;> simp [hc] at this ⊢
  have hset : ∀ (rs : List runningStats), kindsOk ms rs →
      ∀ (i : Nat) (m : MeasureAggregator) (s : runningStats), ms[i]? = some m →
        usesStringSet m = true → rs[i]? = some s →
        s.rawVal.CVal = CVal.nil ∨ ∃ strSet, s.rawVal.CVal = CVal.stringSet strSet := by
    intro rs hk i m s hm hu hs
    have := (hk i m s hm hs).2 hu
    unfold isEmptyOrSet at this
    cases hc : s.rawVal.CVal <;> simp [hc] at this ⊢
  refine ⟨hint _ hinv, hset _ hinv, ?_, ?_⟩
  · intro fuel2 mr qid cnt utc h
    exact (forLoop_invariant (kindsOk ms) (fun f => f = Fault.typeAssertion) (by simp)
      (fun rs i hinv hi => AddMeasureResultsBody_kinds U rr ms mr cnt utc hcs rs i hinv hi)
      fuel2 0 rr.runningStats hinv).1 _ (AddMeasureResultsTop_fault h) rfl
  · intro key slots hmem
    have hk : kindsOk ms slots := hg (key, slots) hmem
    exact ⟨hint _ hk, hset _ hk,
      fun fuel2 mr qid cnt utc =>
        (AddMeasureResults_kinds U fuel2 rr ms hcs slots hk mr qid cnt utc).1⟩

/-- C17 on the spec scenario and on a bucket with a group. A bucket that
received a block and was merged with a peer that received another holds the
signed 1 in its count slot, and a further block does not end in a failed cast.
A bucket over `count() where y > 10` that was given the group `"a"`, whose
slots received the block `[20]`, holds the signed 1 in the count slot of the
group, and a further block on the slots of the group does not end in a failed
cast. -/
theorem accumulator_kind_invariant_witness :
    (((resultOr initRunningTimeBucket
      (do
        let a ← AddMeasureResultsTop specUtils 3 (initRunningGroupByBucket scenarioMeasures)
          [unsignedNum 5, unsignedNum 11, unsignedNum 42] 0 3 false
        let b ← AddMeasureResultsTop specUtils 3 (initRunningGroupByBucket scenarioMeasures)
          [unsignedNum 9, unsignedNum 0, unsignedNum 42] 0 2 false
        MergeRunningBuckets specUtils 3 a (some b))).runningStats[1]?).map (fun s => s.rawVal) =
        some (signedNum 1) ∧
      AddMeasureResultsTop specUtils 3
        (resultOr initRunningTimeBucket
          (do
            let a ← AddMeasureResultsTop specUtils 3 (initRunningGroupByBucket scenarioMeasures)
              [unsignedNum 5, unsignedNum 11, unsignedNum 42] 0 3 false
            let b ← AddMeasureResultsTop specUtils 3 (initRunningGroupByBucket scenarioMeasures)
              [unsignedNum 9, unsignedNum 0, unsignedNum 42] 0 2 false
            MergeRunningBuckets specUtils 3 a (some b)))
        [unsignedNum 1, unsignedNum 20, unsignedNum 7] 0 1 false ≠
        Except.error Fault.typeAssertion) ∧
      Reachable specUtils 1 countYMeasures
        { runningStats := [runningStats.zero]
          currStats := countYMeasures
          groupedRunningStats := [("a", [⟨signedNum 1, none⟩])]
          count := 1 } ∧
      AddMeasureResults specUtils 1
        { runningStats := [runningStats.zero]
          currStats := countYMeasures
          groupedRunningStats := [("a", [⟨signedNum 1, none⟩])]
          count := 1 }
        [⟨signedNum 1, none⟩] [unsignedNum 30] 0 1 false ≠ Except.error Fault.typeAssertion :=
  have hgrouped : Reachable specUtils 1 countYMeasures
      { runningStats := [runningStats.zero]
        currStats := countYMeasures
        groupedRunningStats := [("a", [⟨signedNum 1, none⟩])]
        count := 1 } :=
    Reachable.addGrouped (addGroup "a" (initRunningGroupByBucket countYMeasures))
      { addGroup "a" (initRunningGroupByBucket countYMeasures) with count := 1 } "a"
      [runningStats.zero] [⟨signedNum 1, none⟩] [unsignedNum 20] 0 1 false
      (Reachable.group _ "a" Reachable.fresh) rfl rfl
  ⟨⟨by decide,
    (accumulator_kind_invariant specUtils 3 scenarioMeasures _ specReduce_kind
      (Reachable.merge _ _ _
        (Reachable.add _ _ [unsignedNum 5, unsignedNum 11, unsignedNum 42] 0 3 false
          Reachable.fresh rfl)
        (Reachable.add _ _ [unsignedNum 9, unsignedNum 0, unsignedNum 42] 0 2 false
          Reachable.fresh rfl)
        rfl)).2.2.1 3 [unsignedNum 1, unsignedNum 20, unsignedNum 7] 0 1 false⟩,
    hgrouped,
    ((accumulator_kind_invariant specUtils 1 countYMeasures _ specReduce_kind hgrouped).2.2.2
      "a" [⟨signedNum 1, none⟩] (List.mem_cons_self _ _)).2.2 1 [unsignedNum 30] 0 1 false⟩

end RunningStats
